import Mathlib

/-!
# Verification of the linear-algebra headers (`Misc/Vector.h`, `Misc/Matrix.h`,
`Misc/Quaternion.h`, `Misc/SimdMath.h`)

Shallow embedding.  A `std::array<T, N>` and the raw pointer `pData` that the
size-erased operators keep into it are both modelled by a `List K` of length `N`
(row-major for matrices).  The scalar type `T` is an arbitrary linearly ordered
field `K`, so every arithmetic operation is exact; the definitions run on `ℚ`.
In-place member functions become functions from the old storage to the new
storage, statement by statement.  A `Quaternion<T>` is a structure with the four
members.  The `<cmath>` functions `sqrt`, `cos`, `sin`, `acos` are parameters of the
functions that call them; statements over the reals pass the real functions.
An accessor that throws returns an `Except` value whose error is the message of the
exception.  A 128-bit register is the list of its four lanes, lane 0 first, and the
intrinsics act on the lanes exactly.
-/

set_option linter.unusedSectionVars false

namespace LinAlg

variable {K : Type} [LinearOrderedField K]

/-! # Definitions

## Storage and loops -/

/-- Read `p[i]` from array storage. -/
def rd (p : List K) (i : Nat) : K := p.getD i 0

/-- Write `p[i] = v` to array storage. -/
def wr (p : List K) (i : Nat) (v : K) : List K := p.set i v

/-- The loop `for (i = lo; i < hi; ++i) body`, as a state transformer. -/
def forRange {σ : Type} (lo hi : Nat) (body : Nat → σ → σ) (s : σ) : σ :=
  (List.range' lo (hi - lo)).foldl (fun acc i => body i acc) s

/-- The loop `for (i = 0; i < n; ++i) body`, as a state transformer. -/
def forLoop {σ : Type} (n : Nat) (body : Nat → σ → σ) (s : σ) : σ :=
  forRange 0 n body s

/-- The loop `for (int p = n - 1; p >= 0; --p) body`, as a state transformer. -/
def forDown {σ : Type} (n : Nat) (body : Nat → σ → σ) (s : σ) : σ :=
  (List.range n).foldr (fun i acc => body i acc) s

/-! ## Math.h -/

namespace Math

/-- Modelled from the spec: `Math::IsZero` of the absent header `Math.h`, the
epsilon-based comparison "tested against a small epsilon, not exact zero": a value
is treated as zero unless "its magnitude exceeds a small epsilon threshold".  The
threshold itself is the parameter `epsilon`. -/
def IsZero (epsilon x : K) : Bool := decide (|x| ≤ epsilon)

end Math

/-! ## interior::SizedVectorBase and Vector free functions -/

namespace interior

namespace SizedVectorBase

/-- Source `SizedVectorBase<T>::operator+=(const SizedVectorBase<T>& rhs)`. -/
def addAssign (size : Nat) (pData rhs : List K) : List K :=
  forLoop size (fun i pData => wr pData i (rd pData i + rd rhs i)) pData

/-- Source `SizedVectorBase<T>::operator/=(const S& scalar)`. -/
def divAssignScalar (size : Nat) (pData : List K) (scalar : K) : List K :=
  forLoop size (fun i pData => wr pData i (rd pData i / scalar)) pData

/-- Source `SizedVectorBase<T>::LengthSq`. -/
def LengthSq (size : Nat) (pData : List K) : K :=
  forLoop size (fun i sum => sum + rd pData i * rd pData i) 0

/-- Source `SizedVectorBase<T>::Length`, with the `<cmath>` square root as parameter. -/
def Length (sqrt : K → K) (size : Nat) (pData : List K) : K :=
  sqrt (LengthSq size pData)

/-- Source `SizedVectorBase<T>::Normalize`: `*this /= Length()`. -/
def Normalize (sqrt : K → K) (size : Nat) (pData : List K) : List K :=
  divAssignScalar size pData (Length sqrt size pData)

end SizedVectorBase

end interior

/-- Source `operator+(const Vector<T, n>& lhs, const Vector<T, n>& rhs)`. -/
def Vector.add (n : Nat) (lhs rhs : List K) : List K :=
  let temp := lhs
  interior.SizedVectorBase.addAssign n temp rhs

/-! ## interior::SizedMatrixOperator -/

namespace interior

namespace SizedMatrixOperator

/-- Source `SizedMatrixOperator<T>::operator*=(const SizedMatrixOperator<T>& rhs)` in a call
whose argument is stored apart from the receiver (as in `operator*`, whose receiver is a
fresh copy of the left operand): in-place product with one placeholder row.  `rows`, `cols`,
`pData` are the receiver members, `rhsCols`, `rhsData` the members `rhs.cols`, `rhs.pData`
of the argument, which the loop does not change.  The loop state is the pair
`(pData, placeholderRow)`.  The call on the receiver itself is `mulAssignSelf`. -/
def mulAssign (rows cols : Nat) (pData : List K) (rhsCols : Nat) (rhsData : List K) :
    List K :=
  let placeholderRow : List K :=
    forLoop rhsCols (fun col ph => wr ph col 0) (List.replicate rhsCols 0)
  (forLoop rows (fun row st =>
    let st1 := forLoop rhsCols (fun rhsCol st =>
      forLoop cols (fun innerCol (st : List K × List K) =>
        (st.1, wr st.2 rhsCol
          (rd st.2 rhsCol + rd st.1 (row * cols + innerCol) * rd rhsData (innerCol * rhsCols + rhsCol))))
        st) st
    forLoop rhsCols (fun col (st : List K × List K) =>
      (wr st.1 (row * cols + col) (rd st.2 col), wr st.2 col 0)) st1)
    (pData, placeholderRow)).1

/-- Source `SizedMatrixOperator<T>::ColVecMult(T* retVec, const T* const vec)`: accumulates the
matrix-vector product into `retVec`. -/
def ColVecMult (rows cols : Nat) (pData : List K) (retVec vec : List K) : List K :=
  forLoop rows (fun row retVec =>
    forLoop cols (fun col retVec =>
      wr retVec row (rd retVec row + rd pData (row * cols + col) * rd vec col)) retVec) retVec

end SizedMatrixOperator

end interior

/-! ## Matrix free functions -/

/-- Source `operator*(const SquareMatrix<T, size>& lhs, const SquareMatrix<T, size>& rhs)`:
copies `lhs` and applies the in-place `*=` with `rhs`. -/
def SquareMatrix.mul (size : Nat) (lhs rhs : List K) : List K :=
  let retMat := lhs
  interior.SizedMatrixOperator.mulAssign size size retMat size rhs

/-- Source `operator*(const SquareMatrix<T, size>& mat, const Vector<T, size>& vec)`: the
default-constructed (zero) `retVec` is filled by `ColVecMult`. -/
def SquareMatrix.mulVec (size : Nat) (mat vec : List K) : List K :=
  let retVec : List K := List.replicate size 0
  interior.SizedMatrixOperator.ColVecMult size size mat retVec vec

/-! ## interior::SizedSquareMatrixOperator -/

namespace interior

namespace SizedSquareMatrixOperator

/-- Source `SizedSquareMatrixOperator<T>::Identity`. -/
def Identity (rows cols : Nat) (pData : List K) : List K :=
  forLoop rows (fun row pData =>
    forLoop cols (fun col pData =>
      if row = col then wr pData (row * cols + col) 1
      else wr pData (row * cols + col) 0) pData) pData

/-- Source `SizedSquareMatrixOperator<T>::TryInvert`: in-place Gauss-Jordan elimination.
`none` is `return false`; `some p` is `return true` with `p` the storage left behind.
The state of the pivot loop is `(pData, swappedRows)`; once the loop has returned,
the remaining iterations are skipped. -/
def TryInvert (epsilon : K) (rows cols : Nat) (pData : List K) : Option (List K) :=
  let swappedRows : List Nat :=
    forLoop rows (fun row sw => sw.set row row) (List.replicate rows 0)
  (forLoop rows (fun pivot (st : Option (List K × List Nat)) =>
    match st with
    | none => none
    | some (pData, swappedRows) =>
      let search := forRange (pivot + 1) rows (fun row (m : Nat × K) =>
        let element := |rd pData (row * cols + pivot)|
        if element > m.2 then (row, element) else m)
        (pivot, |rd pData (pivot * cols + pivot)|)
      let maxRow := search.1
      let maxElem := search.2
      if Math.IsZero epsilon maxElem then none
      else
        let swappedRows := swappedRows.set pivot maxRow
        let pData :=
          if maxRow ≠ pivot then
            forLoop cols (fun col pData =>
              let temp := rd pData (pivot * cols + col)
              let pData := wr pData (pivot * cols + col) (rd pData (maxRow * cols + col))
              wr pData (maxRow * cols + col) temp) pData
          else pData
        let pivotRecip := 1 / rd pData (pivot * cols + pivot)
        let pData := forLoop cols (fun col pData =>
          wr pData (pivot * cols + col) (rd pData (pivot * cols + col) * pivotRecip)) pData
        let pData := wr pData (pivot * cols + pivot) pivotRecip
        let pData := forLoop rows (fun row pData =>
          if row = pivot then pData
          else
            let factor := rd pData (row * cols + pivot)
            let pData := wr pData (row * cols + pivot) 0
            forLoop cols (fun col pData =>
              wr pData (row * cols + col)
                (rd pData (row * cols + col) - factor * rd pData (pivot * cols + col))) pData)
          pData
        let pData := forDown rows (fun p pData =>
          if swappedRows.getD p 0 ≠ p then
            forLoop rows (fun row pData =>
              let temp := rd pData (row * rows + swappedRows.getD p 0)
              let pData := wr pData (row * rows + swappedRows.getD p 0) (rd pData (row * rows + p))
              wr pData (row * rows + p) temp) pData
          else pData) pData
        some (pData, swappedRows))
    (some (pData, swappedRows))).map Prod.fst

end SizedSquareMatrixOperator

end interior

/-! ## SquareMatrix<T, size>, unspecialized -/

namespace SquareMatrix

/-- Source `Identity<T, size>()`: a default-constructed (zero) matrix turned into the identity. -/
def Identity (size : Nat) : List K :=
  let retMat : List K := List.replicate (size * size) 0
  interior.SizedSquareMatrixOperator.Identity size size retMat

/-- Source `SquareMatrix<T, size>::Inverse` (also the free `Inverse` on a copy): `TryInvert` runs
on `tempCopy`, which replaces the matrix only when it returns `true`. -/
def Inverse (epsilon : K) (size : Nat) (data : List K) : List K :=
  let tempCopy := data
  match interior.SizedSquareMatrixOperator.TryInvert epsilon size size tempCopy with
  | some inverted => inverted
  | none => data

end SquareMatrix

/-! ## SquareMatrix<T, 3> -/

namespace SquareMatrix3

/-- Source `SquareMatrix<T, 3>::identity`. -/
def identity : List K :=
  [1, 0, 0,
   0, 1, 0,
   0, 0, 1]

/-- Source `SquareMatrix<T, 3>::Determinant`. -/
def Determinant (data : List K) : K :=
  rd data 0 * (rd data 4 * rd data 8 - rd data 5 * rd data 7)
    - rd data 1 * (rd data 3 * rd data 8 - rd data 5 * rd data 6)
    + rd data 2 * (rd data 3 * rd data 7 - rd data 4 * rd data 6)

/-- Source `SquareMatrix<T, 3>::Inverse` (also the free `Inverse` on a 3x3 copy). -/
def Inverse (epsilon : K) (data : List K) : List K :=
  let cofactor00 := rd data 4 * rd data 8 - rd data 5 * rd data 7
  let cofactor01 := rd data 5 * rd data 6 - rd data 3 * rd data 8
  let cofactor02 := rd data 3 * rd data 7 - rd data 4 * rd data 6
  let det := rd data 0 * cofactor00 + rd data 1 * cofactor01 + rd data 2 * cofactor02
  if !Math.IsZero epsilon det then
    let copy := data
    let det := 1 / det
    let data := wr data 0 (det * cofactor00)
    let data := wr data 3 (det * cofactor01)
    let data := wr data 6 (det * cofactor02)
    let data := wr data 1 (det * (rd copy 2 * rd copy 7 - rd copy 1 * rd copy 8))
    let data := wr data 4 (det * (rd copy 0 * rd copy 8 - rd copy 2 * rd copy 6))
    let data := wr data 7 (det * (rd copy 1 * rd copy 6 - rd copy 0 * rd copy 7))
    let data := wr data 2 (det * (rd copy 0 * rd copy 4 - rd copy 1 * rd copy 3))
    let data := wr data 5 (det * (rd copy 2 * rd copy 3 - rd copy 0 * rd copy 5))
    let data := wr data 8 (det * (rd copy 0 * rd copy 4 - rd copy 1 * rd copy 3))
    data
  else
    data

end SquareMatrix3

/-! ## SquareMatrix<T, 4> -/

namespace SquareMatrix4

/-- Source `SquareMatrix<T, 4>::identity`. -/
def identity : List K :=
  [1, 0, 0, 0,
   0, 1, 0, 0,
   0, 0, 1, 0,
   0, 0, 0, 1]

/-- Source `SquareMatrix<T, 4>::Determinant`. -/
def Determinant (data : List K) : K :=
  rd data 0 * (rd data 5 * (rd data 10 * rd data 15 - rd data 11 * rd data 14) - rd data 6 * (rd data 9 * rd data 15 - rd data 11 * rd data 13) + rd data 7 * (rd data 9 * rd data 14 - rd data 10 * rd data 13))
    - rd data 1 * (rd data 4 * (rd data 10 * rd data 15 - rd data 11 * rd data 14) - rd data 6 * (rd data 8 * rd data 15 - rd data 11 * rd data 12) + rd data 7 * (rd data 8 * rd data 14 - rd data 10 * rd data 12))
    + rd data 2 * (rd data 4 * (rd data 9 * rd data 15 - rd data 11 * rd data 13) - rd data 5 * (rd data 8 * rd data 15 - rd data 11 * rd data 12) + rd data 7 * (rd data 8 * rd data 13 - rd data 9 * rd data 12))
    - rd data 3 * (rd data 4 * (rd data 9 * rd data 14 - rd data 10 * rd data 13) - rd data 5 * (rd data 8 * rd data 14 - rd data 10 * rd data 12) + rd data 6 * (rd data 8 * rd data 13 - rd data 9 * rd data 12))

/-- Source `SquareMatrix<T, 4>::Inverse` (also the free `Inverse` on a 4x4 copy): Cramer
method in place, or nothing when `det` is treated as zero. -/
def Inverse (epsilon : K) (data : List K) : List K :=
  let cofactor00 := rd data 5 * (rd data 10 * rd data 15 - rd data 11 * rd data 14) - rd data 6 * (rd data 9 * rd data 15 - rd data 11 * rd data 13) + rd data 7 * (rd data 9 * rd data 14 - rd data 10 * rd data 13)
  let cofactor01 := -(rd data 4 * (rd data 10 * rd data 15 - rd data 11 * rd data 14) - rd data 6 * (rd data 8 * rd data 15 - rd data 11 * rd data 12) + rd data 7 * (rd data 8 * rd data 14 - rd data 10 * rd data 12))
  let cofactor02 := rd data 4 * (rd data 9 * rd data 15 - rd data 11 * rd data 13) - rd data 5 * (rd data 8 * rd data 15 - rd data 11 * rd data 12) + rd data 7 * (rd data 8 * rd data 13 - rd data 9 * rd data 12)
  let cofactor03 := -(rd data 4 * (rd data 9 * rd data 14 - rd data 10 * rd data 13) - rd data 5 * (rd data 8 * rd data 14 - rd data 10 * rd data 12) + rd data 6 * (rd data 8 * rd data 13 - rd data 9 * rd data 12))
  let det := rd data 0 * cofactor00 + rd data 1 * cofactor01 + rd data 2 * cofactor02 + rd data 3 * cofactor03
  if !Math.IsZero epsilon det then
    let copy := data
    let det := 1 / det
    let data := wr data 0 (det * cofactor00)
    let data := wr data 4 (det * cofactor01)
    let data := wr data 8 (det * cofactor02)
    let data := wr data 12 (det * cofactor03)
    let data := wr data 1 (det * -(rd copy 1 * (rd copy 10 * rd copy 15 - rd copy 11 * rd copy 14) - rd copy 2 * (rd copy 9 * rd copy 15 - rd copy 11 * rd copy 13) + rd copy 3 * (rd copy 9 * rd copy 14 - rd copy 10 * rd copy 13)))
    let data := wr data 5 (det * (rd copy 0 * (rd copy 10 * rd copy 15 - rd copy 11 * rd copy 14) - rd copy 2 * (rd copy 8 * rd copy 15 - rd copy 11 * rd copy 12) + rd copy 3 * (rd copy 8 * rd copy 14 - rd copy 10 * rd copy 12)))
    let data := wr data 9 (det * -(rd copy 0 * (rd copy 9 * rd copy 15 - rd copy 11 * rd copy 13) - rd copy 1 * (rd copy 8 * rd copy 15 - rd copy 11 * rd copy 12) + rd copy 3 * (rd copy 8 * rd copy 13 - rd copy 9 * rd copy 12)))
    let data := wr data 13 (det * (rd copy 0 * (rd copy 9 * rd copy 14 - rd copy 10 * rd copy 13) - rd copy 1 * (rd copy 8 * rd copy 14 - rd copy 10 * rd copy 12) + rd copy 2 * (rd copy 8 * rd copy 13 - rd copy 9 * rd copy 12)))
    let data := wr data 2 (det * (rd copy 1 * (rd copy 6 * rd copy 15 - rd copy 7 * rd copy 14) - rd copy 2 * (rd copy 5 * rd copy 15 - rd copy 7 * rd copy 13) + rd copy 3 * (rd copy 5 * rd copy 14 - rd copy 6 * rd copy 13)))
    let data := wr data 6 (det * -(rd copy 0 * (rd copy 6 * rd copy 15 - rd copy 7 * rd copy 14) - rd copy 2 * (rd copy 4 * rd copy 15 - rd copy 7 * rd copy 12) + rd copy 3 * (rd copy 4 * rd copy 14 - rd copy 6 * rd copy 12)))
    let data := wr data 10 (det * (rd copy 0 * (rd copy 5 * rd copy 15 - rd copy 7 * rd copy 13) - rd copy 1 * (rd copy 4 * rd copy 15 - rd copy 7 * rd copy 12) + rd copy 3 * (rd copy 4 * rd copy 13 - rd copy 5 * rd copy 12)))
    let data := wr data 14 (det * -(rd copy 0 * (rd copy 5 * rd copy 14 - rd copy 6 * rd copy 13) - rd copy 1 * (rd copy 4 * rd copy 14 - rd copy 6 * rd copy 12) + rd copy 2 * (rd copy 4 * rd copy 13 - rd copy 5 * rd copy 12)))
    let data := wr data 3 (det * -(rd copy 1 * (rd copy 6 * rd copy 11 - rd copy 7 * rd copy 10) - rd copy 2 * (rd copy 5 * rd copy 11 - rd copy 7 * rd copy 9) + rd copy 3 * (rd copy 5 * rd copy 10 - rd copy 6 * rd copy 9)))
    let data := wr data 7 (det * (rd copy 0 * (rd copy 6 * rd copy 11 - rd copy 7 * rd copy 10) - rd copy 2 * (rd copy 4 * rd copy 11 - rd copy 7 * rd copy 8) + rd copy 3 * (rd copy 4 * rd copy 10 - rd copy 6 * rd copy 8)))
    let data := wr data 11 (det * -(rd copy 0 * (rd copy 5 * rd copy 11 - rd copy 7 * rd copy 9) - rd copy 1 * (rd copy 4 * rd copy 11 - rd copy 7 * rd copy 8) + rd copy 3 * (rd copy 4 * rd copy 9 - rd copy 5 * rd copy 8)))
    let data := wr data 15 (det * (rd copy 0 * (rd copy 5 * rd copy 10 - rd copy 6 * rd copy 9) - rd copy 1 * (rd copy 4 * rd copy 10 - rd copy 6 * rd copy 8) + rd copy 2 * (rd copy 4 * rd copy 9 - rd copy 5 * rd copy 8)))
    data
  else
    data

/-- Source `SquareMatrix<T, 4>::AffineInverse` (also the free `AffineInverse` on a copy). -/
def AffineInverse (epsilon : K) (data : List K) : List K :=
  let cofactor00 := rd data 5 * rd data 10 - rd data 6 * rd data 9
  let cofactor01 := rd data 6 * rd data 8 - rd data 4 * rd data 10
  let cofactor02 := rd data 4 * rd data 9 - rd data 5 * rd data 8
  let det := rd data 0 * cofactor00 + rd data 1 * cofactor01 + rd data 2 * cofactor02
  if !Math.IsZero epsilon det then
    let copy := data
    let det := 1 / det
    let data := wr data 0 (det * cofactor00)
    let data := wr data 4 (det * cofactor01)
    let data := wr data 8 (det * cofactor02)
    let data := wr data 1 (det * (rd copy 2 * rd copy 9 - rd copy 1 * rd copy 10))
    let data := wr data 5 (det * (rd copy 0 * rd copy 10 - rd copy 2 * rd copy 8))
    let data := wr data 9 (det * (rd copy 1 * rd copy 8 - rd copy 0 * rd copy 9))
    let data := wr data 2 (det * (rd copy 1 * rd copy 6 - rd copy 2 * rd copy 5))
    let data := wr data 6 (det * (rd copy 2 * rd copy 4 - rd copy 0 * rd copy 6))
    let data := wr data 10 (det * (rd copy 0 * rd copy 5 - rd copy 1 * rd copy 4))
    let data := wr data 3 (-rd data 0 * rd data 3 - rd data 1 * rd data 7 - rd data 2 * rd data 11)
    let data := wr data 7 (-rd data 4 * rd data 3 - rd data 5 * rd data 7 - rd data 6 * rd data 11)
    let data := wr data 11 (-rd data 8 * rd data 3 - rd data 9 * rd data 7 - rd data 10 * rd data 11)
    data
  else
    data

/-- Source `SquareMatrix<T, 4>::Translation`. -/
def Translation (data : List K) (transformation : List K) : List K :=
  let data := wr data 0 1
  let data := wr data 1 0
  let data := wr data 2 0
  let data := wr data 3 (rd transformation 0)
  let data := wr data 4 0
  let data := wr data 5 1
  let data := wr data 6 0
  let data := wr data 7 (rd transformation 1)
  let data := wr data 8 0
  let data := wr data 9 0
  let data := wr data 10 1
  let data := wr data 11 (rd transformation 2)
  let data := wr data 12 0
  let data := wr data 13 0
  let data := wr data 14 0
  let data := wr data 15 1
  data

/-- Source `SquareMatrix<T, 4>::Rotation(const Vector<T, 3>& axis, float angle)`, with the
`<cmath>` functions `sqrt`, `cos`, `sin` as parameters. -/
def Rotation (sqrt cos sin : K → K) (data : List K) (axis : List K) (angle : K) : List K :=
  let c := cos angle
  let s := sin angle
  let a := 1 - c
  let normalizedAxis := axis
  let normalizedAxis := interior.SizedVectorBase.Normalize sqrt 3 normalizedAxis
  let ax := a * rd normalizedAxis 0
  let ay := a * rd normalizedAxis 1
  let az := a * rd normalizedAxis 2
  let axy := ax * rd normalizedAxis 1
  let axz := ax * rd normalizedAxis 2
  let ayz := ay * rd normalizedAxis 2
  let sx := s * rd normalizedAxis 0
  let sy := s * rd normalizedAxis 1
  let sz := s * rd normalizedAxis 2
  let data := wr data 0 (ax * rd normalizedAxis 0 + c)
  let data := wr data 1 (axy - sz)
  let data := wr data 2 (axz + sy)
  let data := wr data 3 0
  let data := wr data 4 (axy + sz)
  let data := wr data 5 (ay * rd normalizedAxis 1 + c)
  let data := wr data 6 (ayz - sx)
  let data := wr data 7 0
  let data := wr data 8 (axz - sy)
  let data := wr data 9 (ayz + sx)
  let data := wr data 10 (az * rd normalizedAxis 2 + c)
  let data := wr data 11 0
  let data := wr data 12 0
  let data := wr data 13 0
  let data := wr data 14 0
  let data := wr data 15 1
  data

/-- Source `SquareMatrix<T, 4>::RotationZ`, with the `<cmath>` functions `cos`, `sin` as
parameters. -/
def RotationZ (cos sin : K → K) (data : List K) (angle : K) : List K :=
  let c := cos angle
  let s := sin angle
  let data := wr data 0 c
  let data := wr data 1 (-s)
  let data := wr data 2 0
  let data := wr data 3 0
  let data := wr data 4 s
  let data := wr data 5 c
  let data := wr data 6 0
  let data := wr data 7 0
  let data := wr data 8 0
  let data := wr data 9 0
  let data := wr data 10 1
  let data := wr data 11 0
  let data := wr data 12 0
  let data := wr data 13 0
  let data := wr data 14 0
  let data := wr data 15 1
  data

/-- Source `SquareMatrix<T, 4>::TransformVec` (also the free `TransformVec`).  `result` is a
default-constructed (zero) `Vector<T, 3>`. -/
def TransformVec (data : List K) (vec : List K) : List K :=
  let result : List K := [0, 0, 0]
  let result := wr result 0 (rd data 0 * rd vec 0 + rd data 1 * rd vec 0 + rd data 2 * rd vec 0)
  let result := wr result 1 (rd data 4 * rd vec 1 + rd data 5 * rd vec 1 + rd data 6 * rd vec 1)
  let result := wr result 2 (rd data 8 * rd vec 2 + rd data 9 * rd vec 2 + rd data 10 * rd vec 2)
  result

/-- Source `SquareMatrix<T, 4>::TransformPoint` (also the free `TransformPoint`).  The body of the
source reads its argument under the name `vec` although the parameter is declared as
`point`; `vec` is taken to be that parameter. -/
def TransformPoint (data : List K) (point : List K) : List K :=
  let vec := point
  let result : List K := [0, 0, 0]
  let result := wr result 0 (rd data 0 * rd vec 0 + rd data 1 * rd vec 0 + rd data 2 * rd vec 0 + rd data 3)
  let result := wr result 1 (rd data 4 * rd vec 1 + rd data 5 * rd vec 1 + rd data 6 * rd vec 1 + rd data 7)
  let result := wr result 2 (rd data 8 * rd vec 2 + rd data 9 * rd vec 2 + rd data 10 * rd vec 2 + rd data 11)
  result

end SquareMatrix4

/-! ## Free builders on a default-constructed 4x4 matrix -/

/-- Source `Translation<T>(const Vector<T, 3>& transformation)`. -/
def Translation (transformation : List K) : List K :=
  let retMat : List K := List.replicate 16 0
  SquareMatrix4.Translation retMat transformation

/-- Source `Rotation<T>(const Vector<T, 3>& axis, float angle)` returning a `SquareMatrix<T, 4>`. -/
def Rotation4 (sqrt cos sin : K → K) (axis : List K) (angle : K) : List K :=
  let retMat : List K := List.replicate 16 0
  SquareMatrix4.Rotation sqrt cos sin retMat axis angle

/-- Source `RotationZ<T>(float angle)` returning a `SquareMatrix<T, 4>`. -/
def RotationZ4 (cos sin : K → K) (angle : K) : List K :=
  let retMat : List K := List.replicate 16 0
  SquareMatrix4.RotationZ cos sin retMat angle

/-! ## Generic matrix product and transpose (free functions) -/

namespace interior

namespace SizedMatrixOperator

/-- Source `SizedMatrixOperator<T>::MatrixMultiply(lhs, rhs)`: accumulates the product of
`lhs` and `rhs` into the receiver storage `pData`.  `lhsRows`, `lhsCols`, `lhsData` are
the members of `lhs`; `rhsCols`, `rhsData` those of `rhs`. -/
def MatrixMultiply (pData : List K) (lhsRows lhsCols : Nat) (lhsData : List K)
    (rhsCols : Nat) (rhsData : List K) : List K :=
  forLoop lhsRows (fun row pData =>
    forLoop rhsCols (fun rhsCol pData =>
      forLoop lhsCols (fun innerCol pData =>
        wr pData (row * lhsCols + rhsCol)
          (rd pData (row * lhsCols + rhsCol)
            + rd lhsData (row * lhsCols + innerCol) * rd rhsData (innerCol * rhsCols + rhsCol)))
        pData) pData) pData

/-- Source `SizedMatrixOperator<T>::Transpose(const T* const mat)`: fills the receiver
(`rows x cols`) with the transpose of `mat`. -/
def Transpose (rows cols : Nat) (pData : List K) (mat : List K) : List K :=
  forLoop rows (fun row pData =>
    forLoop cols (fun col pData =>
      wr pData (row * cols + col) (rd mat (col * rows + row))) pData) pData

end SizedMatrixOperator

end interior

/-- Source `operator*(const Matrix<T, r, c>& lhs, const Matrix<T, c, c2>& rhs)`: the
default-constructed (zero) `r x c2` matrix `retMat` is filled by `MatrixMultiply`. -/
def Matrix.mul (r c c2 : Nat) (lhs rhs : List K) : List K :=
  let retMat : List K := List.replicate (r * c2) 0
  interior.SizedMatrixOperator.MatrixMultiply retMat r c lhs c2 rhs

/-- Source `Transpose(const Matrix<T, r, c>& mat)`: the default-constructed (zero) `c x r`
matrix `retMat` is filled by the operator `Transpose`. -/
def Transpose (r c : Nat) (mat : List K) : List K :=
  let retMat : List K := List.replicate (c * r) 0
  interior.SizedMatrixOperator.Transpose c r retMat mat

/-- Source `Normalize(const Vector<T, n>& vec)`: a copy of `vec` normalized in place. -/
def Vector.Normalize (sqrt : K → K) (n : Nat) (vec : List K) : List K :=
  let temp := vec
  interior.SizedVectorBase.Normalize sqrt n temp

/-! ## Quaternion<T> -/

/-- Source `Quaternion<T>`: the four members `x`, `y`, `z`, `w`. -/
@[ext]
structure Quaternion (T : Type) where
  x : T
  y : T
  z : T
  w : T
deriving DecidableEq

namespace Quaternion

/-- Source `Quaternion<T>::identity`. -/
def identity : Quaternion K := ⟨0, 0, 0, 1⟩

/-- Source `Quaternion<T>::zero`. -/
def zero : Quaternion K := ⟨0, 0, 0, 0⟩

/-- Source `Quaternion<T>::Set(const Vector<T, 3>& axis, float angle)` (also the
constructor from axis and angle), with the `<cmath>` functions as parameters. -/
def Set (sqrt cos sin : K → K) (self : Quaternion K) (axis : List K) (angle : K) :
    Quaternion K :=
  let normalizedAxis := Vector.Normalize sqrt 3 axis
  let halfSin := sin (angle / 2)
  let self := { self with x := rd normalizedAxis 0 * halfSin }
  let self := { self with y := rd normalizedAxis 1 * halfSin }
  let self := { self with z := rd normalizedAxis 2 * halfSin }
  let self := { self with w := cos (angle / 2) }
  self

/-- Source `Quaternion<T>::operator+`. -/
def add (self rhs : Quaternion K) : Quaternion K :=
  ⟨self.x + rhs.x, self.y + rhs.y, self.z + rhs.z, self.w + rhs.w⟩

/-- Source `Quaternion<T>::operator-(const Quaternion<T>& rhs)`. -/
def sub (self rhs : Quaternion K) : Quaternion K :=
  ⟨self.x - rhs.x, self.y - rhs.y, self.z - rhs.z, self.w - rhs.w⟩

/-- Source `Quaternion<T>::operator-()`. -/
def neg (self : Quaternion K) : Quaternion K :=
  ⟨-self.x, -self.y, -self.z, -self.w⟩

/-- Source `Quaternion<T>::operator*=(T scalar)`. -/
def mulAssignScalar (self : Quaternion K) (scalar : K) : Quaternion K :=
  let self := { self with x := self.x * scalar }
  let self := { self with y := self.y * scalar }
  let self := { self with z := self.z * scalar }
  let self := { self with w := self.w * scalar }
  self

/-- Source `operator*(T scalar, const Quaternion<T>& quat)`. -/
def scalarMul (scalar : K) (quat : Quaternion K) : Quaternion K :=
  ⟨quat.x * scalar, quat.y * scalar, quat.z * scalar, quat.w * scalar⟩

/-- The expression `quat * scalar` of the two slerp functions.  The source declares no
operator with the scalar on the right; the expression is read as the scalar product
`operator*(T scalar, const Quaternion<T>& quat)` with the operands swapped. -/
def mulScalar (quat : Quaternion K) (scalar : K) : Quaternion K :=
  scalarMul scalar quat

/-- Source `Quaternion<T>::operator*(const Quaternion<T>& rhs)`. -/
def mul (self rhs : Quaternion K) : Quaternion K :=
  ⟨self.w * rhs.x + rhs.w * self.x + self.y * rhs.z - self.z * rhs.y,
   self.w * rhs.y + rhs.w * self.y + self.z * rhs.x - self.x * rhs.z,
   self.w * rhs.z + rhs.w * self.z + self.x * rhs.y - self.y * rhs.x,
   self.w * rhs.w - self.x * rhs.x - self.y * rhs.y - self.z * rhs.z⟩

/-- Source `Quaternion<T>::operator*=(const Quaternion<T>& rhs)`: the four members are
assigned one after the other. -/
def mulAssign (self rhs : Quaternion K) : Quaternion K :=
  let self := { self with x := self.w * rhs.x + rhs.w * self.x + self.y * rhs.z - self.z * rhs.y }
  let self := { self with y := self.w * rhs.y + rhs.w * self.y + self.z * rhs.x - self.x * rhs.z }
  let self := { self with z := self.w * rhs.z + rhs.w * self.z + self.x * rhs.y - self.y * rhs.x }
  let self := { self with w := self.w * rhs.w - self.x * rhs.x - self.y * rhs.y - self.z * rhs.z }
  self

/-- Source `Quaternion<T>::LengthSq`. -/
def LengthSq (self : Quaternion K) : K :=
  self.x * self.x + self.y * self.y + self.z * self.z + self.w * self.w

/-- Source `Quaternion<T>::Length`, with the `<cmath>` square root as parameter. -/
def Length (sqrt : K → K) (self : Quaternion K) : K :=
  sqrt (self.x * self.x + self.y * self.y + self.z * self.z + self.w * self.w)

/-- Source `Quaternion<T>::Normalize`. -/
def Normalize (sqrt : K → K) (self : Quaternion K) : Quaternion K :=
  let length := Length sqrt self
  let self := { self with x := self.x / length }
  let self := { self with y := self.y / length }
  let self := { self with z := self.z / length }
  let self := { self with w := self.w / length }
  self

/-- Source `Quaternion<T>::Conjugate`. -/
def Conjugate (self : Quaternion K) : Quaternion K :=
  let self := { self with x := self.x * -1 }
  let self := { self with y := self.y * -1 }
  let self := { self with z := self.z * -1 }
  self

/-- Source `Quaternion<T>::Inverse` (also the free `Inverse` on a copy). -/
def Inverse (self : Quaternion K) : Quaternion K :=
  let lengthSqRecip := 1 / (self.x * self.x + self.y * self.y + self.z * self.z + self.w * self.w)
  let self := { self with x := self.x * -lengthSqRecip }
  let self := { self with y := self.y * -lengthSqRecip }
  let self := { self with z := self.z * -lengthSqRecip }
  let self := { self with w := self.w * lengthSqRecip }
  self

/-- Source `Quaternion<T>::Dot`. -/
def Dot (self rhs : Quaternion K) : K :=
  self.x * rhs.x + self.y * rhs.y + self.z * rhs.z + self.w * rhs.w

/-- Source `Quaternion<T>::Transform` (also the free `Transform`); the result is the
`Vector<T, 3>` built from the three components. -/
def Transform (self : Quaternion K) (vec : List K) : List K :=
  let crossMultCoefficient := 2 * self.w
  let vectorCoefficient := 2 * crossMultCoefficient - 1
  let quatCoefficient := 2 * (self.x * rd vec 0 + self.y * rd vec 1 + self.z * rd vec 2)
  [vectorCoefficient * rd vec 0 + quatCoefficient * self.x + crossMultCoefficient * (self.y * rd vec 2 - self.z * rd vec 1),
   vectorCoefficient * rd vec 1 + quatCoefficient * self.y + crossMultCoefficient * (self.z * rd vec 0 - self.x * rd vec 2),
   vectorCoefficient * rd vec 2 + quatCoefficient * self.z + crossMultCoefficient * (self.x * rd vec 1 - self.y * rd vec 0)]

/-- Source `Quaternion<T>::Lerp` (also the free `Lerp`); `retQuat` starts as the
default-constructed identity quaternion. -/
def Lerp (epsilon : K) (sqrt : K → K) (self endQ : Quaternion K) (t : K) : Quaternion K :=
  let retQuat : Quaternion K := ⟨0, 0, 0, 1⟩
  let dot := self.x * endQ.x + self.y * endQ.y + self.z * endQ.z + self.w * endQ.w
  let retQuat :=
    if Math.IsZero epsilon (dot + |dot|) then
      let retQuat := { retQuat with x := -self.x + t * (endQ.x + self.x) }
      let retQuat := { retQuat with y := -self.y + t * (endQ.y + self.y) }
      let retQuat := { retQuat with z := -self.z + t * (endQ.z + self.z) }
      let retQuat := { retQuat with w := -self.w + t * (endQ.w + self.w) }
      retQuat
    else
      let retQuat := { retQuat with x := self.x + t * (endQ.x - self.x) }
      let retQuat := { retQuat with y := self.y + t * (endQ.y - self.y) }
      let retQuat := { retQuat with z := self.z + t * (endQ.z - self.z) }
      let retQuat := { retQuat with w := self.w + t * (endQ.w - self.w) }
      retQuat
  Normalize sqrt retQuat

/-- Source `Quaternion<T>::SlerpOrthonormalBasis` (also the free function).  The pair
`st` holds `(maybeNegStart, dot)` after the sign test. -/
def SlerpOrthonormalBasis (epsilon : K) (sqrt acos cos sin : K → K)
    (self endQ : Quaternion K) (t : K) : Quaternion K :=
  let maybeNegStart := self
  let dot := self.x * endQ.x + self.y * endQ.y + self.z * endQ.z + self.w * endQ.w
  let st : Quaternion K × K :=
    if Math.IsZero epsilon (dot + |dot|) then (mulAssignScalar maybeNegStart (-1), -dot)
    else (maybeNegStart, dot)
  let maybeNegStart := st.1
  let dot := st.2
  if dot > 9995 / 10000 then
    Lerp epsilon sqrt self endQ t
  else
    let thetaWhole := acos dot
    let thetaDesired := t * thetaWhole
    let basisQuat := sub endQ (mulScalar maybeNegStart dot)
    let basisQuat := Normalize sqrt basisQuat
    add (mulScalar maybeNegStart (cos thetaDesired)) (mulScalar basisQuat (sin thetaDesired))

/-- Source `Quaternion<T>::SlerpAngleWeights` (also the free function).  The pair `st`
holds `(maybeNegStart, dot)` after the sign test. -/
def SlerpAngleWeights (epsilon : K) (sqrt acos sin : K → K)
    (self endQ : Quaternion K) (t : K) : Quaternion K :=
  let maybeNegStart := self
  let dot := self.x * endQ.x + self.y * endQ.y + self.z * endQ.z + self.w * endQ.w
  let st : Quaternion K × K :=
    if Math.IsZero epsilon (dot + |dot|) then (mulAssignScalar maybeNegStart (-1), -dot)
    else (maybeNegStart, dot)
  let dot := st.2
  if dot > 9995 / 10000 then
    Lerp epsilon sqrt self endQ t
  else
    let theta := acos dot
    let sinThetaRecip := 1 / sin theta
    let startRatio := sin ((1 - t) * theta) * sinThetaRecip
    let endRatio := sin (t * theta) * sinThetaRecip
    add (mulScalar self startRatio) (mulScalar endQ endRatio)

end Quaternion

/-! ## Element access, scalar and component-wise vector operations -/

namespace std

/-- Source `std::max(a, b)` of `<algorithm>`: `(a < b) ? b : a`. -/
def max (a b : K) : K := if a < b then b else a

/-- Source `std::min(a, b)` of `<algorithm>`: `(b < a) ? b : a`. -/
def min (a b : K) : K := if b < a then b else a

end std

namespace interior

namespace SizedVectorBase

/-- Source `SizedVectorBase<T>::operator[](std::size_t index) const`, to which the non-const
overload forwards.  `Except.error` is the thrown `std::out_of_range` with its message. -/
def subscript (size : Nat) (pData : List K) (index : Nat) : Except String K :=
  if index ≥ size then
    Except.error "Operator [] access out of bounds on Vector struct"
  else
    Except.ok (rd pData index)

/-- Source `SizedVectorBase<T>::operator*=(const S& scalar)`. -/
def mulAssignScalar (size : Nat) (pData : List K) (scalar : K) : List K :=
  forLoop size (fun i pData => wr pData i (rd pData i * scalar)) pData

/-- Source `SizedVectorBase<T>::operator-=(const SizedVectorBase<T>& rhs)`. -/
def subAssign (size : Nat) (pData rhs : List K) : List K :=
  forLoop size (fun i pData => wr pData i (rd pData i - rd rhs i)) pData

/-- Source `SizedVectorBase<T>::Clamp(const T& min, const T& max)`. -/
def Clamp (size : Nat) (pData : List K) (min max : K) : List K :=
  forLoop size (fun i pData => wr pData i (std.max min (std.min (rd pData i) max))) pData

/-- Source `SizedVectorBase<T>::Saturate`: `Clamp(0, 1)`. -/
def Saturate (size : Nat) (pData : List K) : List K :=
  Clamp size pData 0 1

end SizedVectorBase

end interior

namespace Vector

/-- Source `operator-(const Vector<T, n>& lhs, const Vector<T, n>& rhs)`. -/
def sub (n : Nat) (lhs rhs : List K) : List K :=
  let temp := lhs
  interior.SizedVectorBase.subAssign n temp rhs

/-- Source `operator*(const S& scalar, const Vector<T, n>& vec)`. -/
def scalarMul (n : Nat) (scalar : K) (vec : List K) : List K :=
  let temp := vec
  interior.SizedVectorBase.mulAssignScalar n temp scalar

/-- Source `Lerp(const Vector<T, n>& a, const Vector<T, n>& b, float f)`:
`a + f * (b - a)` with the free vector operators. -/
def Lerp (n : Nat) (a b : List K) (f : K) : List K :=
  add n a (scalarMul n f (sub n b a))

/-- Source `Saturate(const Vector<T, n>& vec)`: a copy of `vec` saturated in place. -/
def Saturate (n : Nat) (vec : List K) : List K :=
  let temp := vec
  interior.SizedVectorBase.Saturate n temp

/-- Source `Clamp(const Vector<T, n>& vec, const T& min, const T& max)`: a copy of `vec`
clamped in place. -/
def Clamp (n : Nat) (vec : List K) (min max : K) : List K :=
  let temp := vec
  interior.SizedVectorBase.Clamp n temp min max

end Vector

/-! ## Vector<T, 3> -/

namespace Vector3

/-- Source `Vector<T, 3>::unitX`. -/
def unitX : List K := [1, 0, 0]

/-- Source `Vector<T, 3>::unitY`. -/
def unitY : List K := [0, 1, 0]

/-- Source `Vector<T, 3>::unitZ`. -/
def unitZ : List K := [0, 0, 1]

/-- Source `Vector<T, 3>::Cross(const Vector<T, 3>& other)`. -/
def Cross (data other : List K) : List K :=
  [rd data 1 * rd other 2 - rd data 2 * rd other 1,
   rd data 2 * rd other 0 - rd data 0 * rd other 2,
   rd data 0 * rd other 1 - rd data 1 * rd other 0]

end Vector3

/-- Source `Cross(const Vector<T, 3>& lhs, const Vector<T, 3>& rhs)`: `lhs.Cross(rhs)`. -/
def Cross (lhs rhs : List K) : List K :=
  Vector3.Cross lhs rhs

/-! ## Matrix element access, row-vector product, generic determinant -/

namespace interior

namespace SizedMatrixOperator

/-- Source `SizedMatrixOperator<T>::operator()(std::size_t row, std::size_t col) const`, to which
the non-const overload forwards.  `Except.error` is the thrown `std::out_of_range` with its
message.  The source returns `data[row * cols + col]` although the operator has no member
`data`; the name is taken to be its storage pointer `pData`. -/
def call (rows cols : Nat) (pData : List K) (row col : Nat) : Except String K :=
  if row ≥ rows then
    Except.error "Operator () row index out of bounds on Matrix struct"
  else if col ≥ cols then
    Except.error "Operator () column index out of bounds on Matrix struct"
  else
    Except.ok (rd pData (row * cols + col))

/-- Source `SizedMatrixOperator<T>::RowVecMult(T* retVec, const T* const vec)`: accumulates the
vector-matrix product into `retVec`. -/
def RowVecMult (rows cols : Nat) (pData : List K) (retVec vec : List K) : List K :=
  forLoop cols (fun col retVec =>
    forLoop rows (fun row retVec =>
      wr retVec col (rd retVec col + rd vec row * rd pData (row * cols + col))) retVec) retVec

end SizedMatrixOperator

namespace SizedSquareMatrixOperator

/-- Source `SizedSquareMatrixOperator<T>::Determinant`: Gaussian elimination on the storage
`pData`.  The state of the pivot loop is `(pData, runningProduct)`; `none` is the early
`return 0`, after which the remaining iterations are skipped. -/
def Determinant (epsilon : K) (rows cols : Nat) (pData : List K) : K :=
  let runningProduct : K := 1
  match forLoop rows (fun pivot (st : Option (List K × K)) =>
    match st with
    | none => none
    | some (pData, runningProduct) =>
      let search := forRange (pivot + 1) rows (fun row (m : Nat × K) =>
        let element := |rd pData (row * cols + pivot)|
        if element > m.2 then (row, element) else m)
        (pivot, |rd pData (pivot * cols + pivot)|)
      let maxRow := search.1
      let maxElem := search.2
      if Math.IsZero epsilon maxElem then none
      else
        let swapped : List K × K :=
          if maxRow ≠ pivot then
            (forLoop cols (fun col pData =>
              let temp := rd pData (pivot * cols + col)
              let pData := wr pData (pivot * cols + col) (rd pData (maxRow * cols + col))
              wr pData (maxRow * cols + col) temp) pData,
             runningProduct * -1)
          else (pData, runningProduct)
        let pData := swapped.1
        let runningProduct := swapped.2
        let pivotRecip := 1 / rd pData (pivot * cols + pivot)
        let pData := forLoop cols (fun col pData =>
          wr pData (pivot * cols + col) (rd pData (pivot * cols + col) * pivotRecip)) pData
        let runningProduct := runningProduct / pivotRecip
        let pData := forLoop rows (fun row pData =>
          if row = pivot then pData
          else
            let factor := rd pData (row * cols + pivot)
            forLoop cols (fun col pData =>
              wr pData (row * cols + col)
                (rd pData (row * cols + col) - factor * rd pData (pivot * cols + col))) pData)
          pData
        some (pData, runningProduct))
    (some (pData, runningProduct)) with
  | none => 0
  | some (_, runningProduct) => runningProduct

end SizedSquareMatrixOperator

end interior

/-- Source `Matrix<T, r, c>::operator()(std::size_t row, std::size_t col)`: forwards to the
operator of the matrix. -/
def Matrix.call (r c : Nat) (data : List K) (row col : Nat) : Except String K :=
  interior.SizedMatrixOperator.call r c data row col

/-- Source `Zero<T, r, c>()`: a default-constructed (zero) matrix. -/
def Matrix.Zero (r c : Nat) : List K :=
  let retMat : List K := List.replicate (r * c) 0
  retMat

/-- Source `operator*(const Vector<T, size>& vec, const SquareMatrix<T, size>& mat)`: the
default-constructed (zero) `retVec` is filled by `RowVecMult`. -/
def SquareMatrix.vecMul (size : Nat) (vec mat : List K) : List K :=
  let retVec : List K := List.replicate size 0
  interior.SizedMatrixOperator.RowVecMult size size mat retVec vec

/-- Source `SquareMatrix<T, size>::Determinant` (also the free `Determinant`): the operator
`Determinant` runs on `tempCopy`. -/
def SquareMatrix.Determinant (epsilon : K) (size : Nat) (data : List K) : K :=
  let tempCopy := data
  interior.SizedSquareMatrixOperator.Determinant epsilon size size tempCopy

/-- Source `SquareMatrix<T, 4>::Identity`. -/
def SquareMatrix4.Identity (data : List K) : List K :=
  let data := wr data 0 1
  let data := wr data 1 0
  let data := wr data 2 0
  let data := wr data 3 0
  let data := wr data 4 0
  let data := wr data 5 1
  let data := wr data 6 0
  let data := wr data 7 0
  let data := wr data 8 0
  let data := wr data 9 0
  let data := wr data 10 1
  let data := wr data 11 0
  let data := wr data 12 0
  let data := wr data 13 0
  let data := wr data 14 0
  let data := wr data 15 1
  data

/-- Source `Identity<T, size>()` at `size = 4`: a default-constructed (zero) matrix on which the
member `Identity` of the 4x4 specialization runs. -/
def Identity4 : List K :=
  let retMat : List K := List.replicate 16 0
  SquareMatrix4.Identity retMat

/-! ## SimdMath.h -/

namespace Simd

/-- Bit `j` of the immediate operand `imm8` of an intrinsic. -/
def immBit (imm8 j : Nat) : Bool := decide (imm8 / 2 ^ j % 2 = 1)

/-- Intrinsic `_mm_setr_ps(e0, e1, e2, e3)`: a register, as the list of its four lanes from
lane 0 upwards. -/
def _mm_setr_ps (e0 e1 e2 e3 : K) : List K := [e0, e1, e2, e3]

/-- Intrinsic `_mm_set_ps1(a)`: `a` in all four lanes. -/
def _mm_set_ps1 (a : K) : List K := [a, a, a, a]

/-- Intrinsic `_mm_add_ps(a, b)`: lane-wise sum. -/
def _mm_add_ps (a b : List K) : List K :=
  [rd a 0 + rd b 0, rd a 1 + rd b 1, rd a 2 + rd b 2, rd a 3 + rd b 3]

/-- Intrinsic `_mm_insert_ps(a, b, imm8)`: lane `imm8[7:6]` of `b` is copied into lane
`imm8[5:4]` of `a`, then the lanes selected by `imm8[3:0]` are zeroed. -/
def _mm_insert_ps (a b : List K) (imm8 : Nat) : List K :=
  let tmp1 := rd b (imm8 / 64 % 4)
  let tmp2 := wr a (imm8 / 16 % 4) tmp1
  [if immBit imm8 0 then 0 else rd tmp2 0, if immBit imm8 1 then 0 else rd tmp2 1,
   if immBit imm8 2 then 0 else rd tmp2 2, if immBit imm8 3 then 0 else rd tmp2 3]

/-- Intrinsic `_mm_dp_ps(a, b, imm8)`: the products of the lanes selected by `imm8[7:4]` are
summed and the sum is stored in the lanes selected by `imm8[3:0]`, the others are zero. -/
def _mm_dp_ps (a b : List K) (imm8 : Nat) : List K :=
  let temp (j : Nat) : K := if immBit imm8 (4 + j) then rd a j * rd b j else 0
  let sum := (temp 3 + temp 2) + (temp 1 + temp 0)
  [if immBit imm8 0 then sum else 0, if immBit imm8 1 then sum else 0,
   if immBit imm8 2 then sum else 0, if immBit imm8 3 then sum else 0]

/-- Macro `_MM_TRANSPOSE4_PS(row0, row1, row2, row3)`: the four registers, as a 4x4 matrix,
are replaced by its transpose. -/
def _MM_TRANSPOSE4_PS (rows : List (List K)) : List (List K) :=
  [[rd (rows.getD 0 []) 0, rd (rows.getD 1 []) 0, rd (rows.getD 2 []) 0, rd (rows.getD 3 []) 0],
   [rd (rows.getD 0 []) 1, rd (rows.getD 1 []) 1, rd (rows.getD 2 []) 1, rd (rows.getD 3 []) 1],
   [rd (rows.getD 0 []) 2, rd (rows.getD 1 []) 2, rd (rows.getD 2 []) 2, rd (rows.getD 3 []) 2],
   [rd (rows.getD 0 []) 3, rd (rows.getD 1 []) 3, rd (rows.getD 2 []) 3, rd (rows.getD 3 []) 3]]

/-- Modelled from the spec: member `x` of the struct `Vector3` of the absent header `Math.h`.
The SIMD types are "mirrors of Vector<T,3> (T=float) and SquareMatrix<float,4>", so a
`Vector3` is the storage of a 3-vector and `x` is its component 0. -/
def Vector3.x (vec : List K) : K := rd vec 0

/-- Modelled from the spec: member `y` of `Vector3`, component 1 of the 3-vector. -/
def Vector3.y (vec : List K) : K := rd vec 1

/-- Modelled from the spec: member `z` of `Vector3`, component 2 of the 3-vector. -/
def Vector3.z (vec : List K) : K := rd vec 2

/-- Modelled from the spec: member `mat` of the struct `Matrix4` of the absent header `Math.h`,
the sixteen entries of the mirrored `SquareMatrix<float,4>` in its row-major order. -/
def Matrix4.mat (mat : List K) : List K := mat

/-- Source `SimdVector3::FromVector3(const Vector3& vec)` (also the converting constructor):
the new value of the member `mVec`. -/
def SimdVector3.FromVector3 (vec : List K) : List K :=
  _mm_setr_ps (Vector3.x vec) (Vector3.y vec) (Vector3.z vec) 0

/-- Source `SimdMatrix4::FromMatrix4(const Matrix4& mat)` (also the converting constructor):
`memcpy` of sixteen floats into the member `mRows`, four per register. -/
def SimdMatrix4.FromMatrix4 (mat : List K) : List (List K) :=
  [[rd (Matrix4.mat mat) 0, rd (Matrix4.mat mat) 1, rd (Matrix4.mat mat) 2, rd (Matrix4.mat mat) 3],
   [rd (Matrix4.mat mat) 4, rd (Matrix4.mat mat) 5, rd (Matrix4.mat mat) 6, rd (Matrix4.mat mat) 7],
   [rd (Matrix4.mat mat) 8, rd (Matrix4.mat mat) 9, rd (Matrix4.mat mat) 10, rd (Matrix4.mat mat) 11],
   [rd (Matrix4.mat mat) 12, rd (Matrix4.mat mat) 13, rd (Matrix4.mat mat) 14, rd (Matrix4.mat mat) 15]]

/-- Source `Transform(const SimdVector3& vec, const SimdMatrix4& mat, float w = 1.0f)`: `vec` and
`mat` are the members `vec.mVec` and `mat.mRows`; the result is the member `mVec` of the
returned `SimdVector3`. -/
def Transform (vec : List K) (mat : List (List K)) (w : K) : List K :=
  let temp := _mm_set_ps1 w
  let temp := _mm_insert_ps vec temp 0xF0
  let rowCopies : List (List K) := [mat.getD 0 [], mat.getD 1 [], mat.getD 2 [], mat.getD 3 []]
  let rowCopies := _MM_TRANSPOSE4_PS rowCopies
  let rowCopies := rowCopies.set 0 (_mm_dp_ps temp (rowCopies.getD 0 []) 0xF1)
  let rowCopies := rowCopies.set 1 (_mm_dp_ps temp (rowCopies.getD 1 []) 0xF2)
  let rowCopies := rowCopies.set 2 (_mm_dp_ps temp (rowCopies.getD 2 []) 0xF4)
  let rowCopies := rowCopies.set 3 (_mm_dp_ps temp (rowCopies.getD 3 []) 0xF8)
  let rowCopies := rowCopies.set 0 (_mm_add_ps (rowCopies.getD 0 []) (rowCopies.getD 1 []))
  let rowCopies := rowCopies.set 0 (_mm_add_ps (rowCopies.getD 0 []) (rowCopies.getD 2 []))
  let rowCopies := rowCopies.set 0 (_mm_add_ps (rowCopies.getD 0 []) (rowCopies.getD 3 []))
  rowCopies.getD 0 []

end Simd

/-! ## Dot product and negation of vectors -/

/-- Source `SizedVectorBase<T>::Dot(const SizedVectorBase<T>& other)`. -/
def interior.SizedVectorBase.Dot (size : Nat) (pData other : List K) : K :=
  forLoop size (fun i sum => sum + rd pData i * rd other i) 0

/-- Source `Dot(const Vector<T, n>& lhs, const Vector<T, n>& rhs)`: `lhs.Dot(rhs)`. -/
def Vector.Dot (n : Nat) (lhs rhs : List K) : K :=
  interior.SizedVectorBase.Dot n lhs rhs

/-- Source `operator-(const Vector<T, n>& vec)`: a copy of `vec` multiplied by `-1`. -/
def Vector.neg (n : Nat) (vec : List K) : List K :=
  let temp := vec
  interior.SizedVectorBase.mulAssignScalar n temp (-1)

/-! ## Rotation builders of SquareMatrix<T, 3> and SquareMatrix<T, 4> -/

namespace SquareMatrix3

/-- Source `SquareMatrix<T, 3>::Rotation(const Quaternion<T>& quat)` (also the free `Rotation`
on a default-constructed matrix). -/
def RotationQuaternion (data : List K) (quat : Quaternion K) : List K :=
  let s := 2 / (quat.x * quat.x + quat.y * quat.y + quat.z * quat.z + quat.w * quat.w)
  let sxx := s * quat.x * quat.x
  let syy := s * quat.y * quat.y
  let szz := s * quat.z * quat.z
  let sxy := s * quat.x * quat.y
  let sxz := s * quat.x * quat.z
  let syz := s * quat.y * quat.z
  let swx := s * quat.w * quat.x
  let swy := s * quat.w * quat.y
  let swz := s * quat.w * quat.z
  let data := wr data 0 (1 - syy - szz)
  let data := wr data 1 (sxy - swz)
  let data := wr data 2 (sxz + swy)
  let data := wr data 3 (sxy + swz)
  let data := wr data 4 (1 - sxx - szz)
  let data := wr data 5 (syz - swx)
  let data := wr data 6 (sxz - swy)
  let data := wr data 7 (syz + swx)
  let data := wr data 8 (1 - sxx - syy)
  data

/-- Source `SquareMatrix<T, 3>::Rotation(float yawZRot, float pitchYRot, float rollXRot)` (also
the free `Rotation` on a default-constructed matrix), with the `<cmath>` functions `cos`,
`sin` as parameters.  The source has no semicolon after the assignment to `data[8]`; the
assignment is read as the statement it spells. -/
def RotationEuler (cos sin : K → K) (data : List K) (yawZRot pitchYRot rollXRot : K) :
    List K :=
  let cx := cos rollXRot
  let cy := cos pitchYRot
  let cz := cos yawZRot
  let sx := sin rollXRot
  let sy := sin pitchYRot
  let sz := sin yawZRot
  let data := wr data 0 (cy * cz)
  let data := wr data 1 (-cy * sz)
  let data := wr data 2 sy
  let data := wr data 3 (sx * sy * cz + cx * sz)
  let data := wr data 4 (-sx * sy * sz + cx * cz)
  let data := wr data 5 (-sx * cy)
  let data := wr data 6 (-cx * sy * cz + sx * sz)
  let data := wr data 7 (cx * sy * sz + sx * cz)
  let data := wr data 8 (cx * cy)
  data

/-- Source `SquareMatrix<T, 3>::Rotation(const Vector<T, 3>& axis, float angle)` (also the
free `Rotation` on a default-constructed matrix), with the `<cmath>` functions `sqrt`, `cos`,
`sin` as parameters. -/
def Rotation (sqrt cos sin : K → K) (data : List K) (axis : List K) (angle : K) : List K :=
  let c := cos angle
  let s := sin angle
  let a := 1 - c
  let normalizedAxis := axis
  let normalizedAxis := interior.SizedVectorBase.Normalize sqrt 3 normalizedAxis
  let ax := a * rd normalizedAxis 0
  let ay := a * rd normalizedAxis 1
  let az := a * rd normalizedAxis 2
  let axy := ax * rd normalizedAxis 1
  let axz := ax * rd normalizedAxis 2
  let ayz := ay * rd normalizedAxis 2
  let sx := s * rd normalizedAxis 0
  let sy := s * rd normalizedAxis 1
  let sz := s * rd normalizedAxis 2
  let data := wr data 0 (ax * rd normalizedAxis 0 + c)
  let data := wr data 1 (axy - sz)
  let data := wr data 2 (axz + sy)
  let data := wr data 3 (axy + sz)
  let data := wr data 4 (ay * rd normalizedAxis 1 + c)
  let data := wr data 5 (ayz - sx)
  let data := wr data 6 (axz - sy)
  let data := wr data 7 (ayz + sx)
  let data := wr data 8 (az * rd normalizedAxis 2 + c)
  data

/-- Source `SquareMatrix<T, 3>::RotationX` (also the free `RotationX` on a default-constructed
matrix), with the `<cmath>` functions `cos`, `sin` as parameters. -/
def RotationX (cos sin : K → K) (data : List K) (angle : K) : List K :=
  let c := cos angle
  let s := sin angle
  let data := wr data 0 1
  let data := wr data 1 0
  let data := wr data 2 0
  let data := wr data 3 0
  let data := wr data 4 c
  let data := wr data 5 (-s)
  let data := wr data 6 0
  let data := wr data 7 s
  let data := wr data 8 c
  data

/-- Source `SquareMatrix<T, 3>::RotationY` (also the free `RotationY` on a default-constructed
matrix), with the `<cmath>` functions `cos`, `sin` as parameters. -/
def RotationY (cos sin : K → K) (data : List K) (angle : K) : List K :=
  let c := cos angle
  let s := sin angle
  let data := wr data 0 c
  let data := wr data 1 0
  let data := wr data 2 s
  let data := wr data 3 0
  let data := wr data 4 1
  let data := wr data 5 0
  let data := wr data 6 (-s)
  let data := wr data 7 0
  let data := wr data 8 c
  data

/-- Source `SquareMatrix<T, 3>::RotationZ` (also the free `RotationZ` on a default-constructed
matrix), with the `<cmath>` functions `cos`, `sin` as parameters. -/
def RotationZ (cos sin : K → K) (data : List K) (angle : K) : List K :=
  let c := cos angle
  let s := sin angle
  let data := wr data 0 c
  let data := wr data 1 (-s)
  let data := wr data 2 0
  let data := wr data 3 s
  let data := wr data 4 c
  let data := wr data 5 0
  let data := wr data 6 0
  let data := wr data 7 0
  let data := wr data 8 1
  data

end SquareMatrix3

namespace SquareMatrix4

/-- Source `SquareMatrix<T, 4>::Rotation(float yawZRot, float pitchYRot, float rollXRot)` (also
the free `Rotation` on a default-constructed matrix), with the `<cmath>` functions `cos`,
`sin` as parameters. -/
def RotationEuler (cos sin : K → K) (data : List K) (yawZRot pitchYRot rollXRot : K) :
    List K :=
  let cx := cos rollXRot
  let cy := cos pitchYRot
  let cz := cos yawZRot
  let sx := sin rollXRot
  let sy := sin pitchYRot
  let sz := sin yawZRot
  let data := wr data 0 (cy * cz)
  let data := wr data 1 (-cy * sz)
  let data := wr data 2 sy
  let data := wr data 3 0
  let data := wr data 4 (sx * sy * cz + cx * sz)
  let data := wr data 5 (-sx * sy * sz + cx * cz)
  let data := wr data 6 (-sx * cy)
  let data := wr data 7 0
  let data := wr data 8 (-cx * sy * cz + sx * sz)
  let data := wr data 9 (cx * sy * sz + sx * cz)
  let data := wr data 10 (cx * cy)
  let data := wr data 11 0
  let data := wr data 12 0
  let data := wr data 13 0
  let data := wr data 14 0
  let data := wr data 15 1
  data

/-- Source `SquareMatrix<T, 4>::RotationX` (also the free `RotationX` on a default-constructed
matrix), with the `<cmath>` functions `cos`, `sin` as parameters. -/
def RotationX (cos sin : K → K) (data : List K) (angle : K) : List K :=
  let c := cos angle
  let s := sin angle
  let data := wr data 0 1
  let data := wr data 1 0
  let data := wr data 2 0
  let data := wr data 3 0
  let data := wr data 4 0
  let data := wr data 5 c
  let data := wr data 6 (-s)
  let data := wr data 7 0
  let data := wr data 8 0
  let data := wr data 9 s
  let data := wr data 10 c
  let data := wr data 11 0
  let data := wr data 12 0
  let data := wr data 13 0
  let data := wr data 14 0
  let data := wr data 15 1
  data

/-- Source `SquareMatrix<T, 4>::RotationY` (also the free `RotationY` on a default-constructed
matrix), with the `<cmath>` functions `cos`, `sin` as parameters. -/
def RotationY (cos sin : K → K) (data : List K) (angle : K) : List K :=
  let c := cos angle
  let s := sin angle
  let data := wr data 0 c
  let data := wr data 1 0
  let data := wr data 2 s
  let data := wr data 3 0
  let data := wr data 4 0
  let data := wr data 5 1
  let data := wr data 6 0
  let data := wr data 7 0
  let data := wr data 8 (-s)
  let data := wr data 9 0
  let data := wr data 10 c
  let data := wr data 11 0
  let data := wr data 12 0
  let data := wr data 13 0
  let data := wr data 14 0
  let data := wr data 15 1
  data

end SquareMatrix4

/-! ## SimdMath.h: cross product and matrix product -/

namespace Simd

/-- Macro `_MM_SHUFFLE(fp3, fp2, fp1, fp0)` of `<xmmintrin.h>`:
`(fp3 << 6) | (fp2 << 4) | (fp1 << 2) | fp0`. -/
def _MM_SHUFFLE (fp3 fp2 fp1 fp0 : Nat) : Nat :=
  (fp3 <<< 6) ||| (fp2 <<< 4) ||| (fp1 <<< 2) ||| fp0

/-- Source macro `_MM_SHUFFLER(xi, yi, zi, wi)`: `_MM_SHUFFLE(wi, zi, yi, xi)`. -/
def _MM_SHUFFLER (xi yi zi wi : Nat) : Nat :=
  _MM_SHUFFLE wi zi yi xi

/-- Intrinsic `_mm_shuffle_ps(a, b, imm8)`: lanes 0 and 1 are the lanes `imm8[1:0]` and
`imm8[3:2]` of `a`, lanes 2 and 3 are the lanes `imm8[5:4]` and `imm8[7:6]` of `b`. -/
def _mm_shuffle_ps (a b : List K) (imm8 : Nat) : List K :=
  [rd a (imm8 % 4), rd a (imm8 / 4 % 4), rd b (imm8 / 16 % 4), rd b (imm8 / 64 % 4)]

/-- Intrinsic `_mm_mul_ps(a, b)`: lane-wise product. -/
def _mm_mul_ps (a b : List K) : List K :=
  [rd a 0 * rd b 0, rd a 1 * rd b 1, rd a 2 * rd b 2, rd a 3 * rd b 3]

/-- Intrinsic `_mm_sub_ps(a, b)`: lane-wise difference. -/
def _mm_sub_ps (a b : List K) : List K :=
  [rd a 0 - rd b 0, rd a 1 - rd b 1, rd a 2 - rd b 2, rd a 3 - rd b 3]

/-- Source `SimdVector3::Cross(const SimdVector3& other)`: `mVec` and `other` are the
registers of the receiver and of the argument; the result is the register of the returned
`SimdVector3`. -/
def SimdVector3.Cross (mVec other : List K) : List K :=
  let tempA := _mm_shuffle_ps mVec mVec (_MM_SHUFFLER 1 2 0 3)
  let tempB := _mm_shuffle_ps other other (_MM_SHUFFLER 2 0 1 3)
  let result := _mm_mul_ps tempA tempB
  let tempA := _mm_shuffle_ps mVec mVec (_MM_SHUFFLER 2 0 1 3)
  let tempB := _mm_shuffle_ps other other (_MM_SHUFFLER 1 2 0 3)
  let tempA := _mm_mul_ps tempA tempB
  let result := _mm_sub_ps result tempA
  result

/-- Source `SimdMatrix4::Mul(const SimdMatrix4& other)`: `mRows` and `other` are the row
registers of the receiver and of the argument; the result is the new value of `mRows`.  The
loop state is `(mRows, tempRows)`; the array `tempRows` is declared without initializer and
every element of it is assigned before it is read. -/
def SimdMatrix4.Mul (mRows other : List (List K)) : List (List K) :=
  let rowCopies : List (List K) :=
    [other.getD 0 [], other.getD 1 [], other.getD 2 [], other.getD 3 []]
  let rowCopies := _MM_TRANSPOSE4_PS rowCopies
  let tempRows : List (List K) := [[], [], [], []]
  (forLoop 4 (fun i (st : List (List K) × List (List K)) =>
    let mRows := st.1
    let tempRows := st.2
    let tempRows := tempRows.set 0 (_mm_dp_ps (mRows.getD i []) (rowCopies.getD 0 []) 0xF1)
    let tempRows := tempRows.set 1 (_mm_dp_ps (mRows.getD i []) (rowCopies.getD 1 []) 0xF2)
    let tempRows := tempRows.set 2 (_mm_dp_ps (mRows.getD i []) (rowCopies.getD 2 []) 0xF4)
    let tempRows := tempRows.set 3 (_mm_dp_ps (mRows.getD i []) (rowCopies.getD 3 []) 0xF8)
    let tempRows := tempRows.set 0 (_mm_add_ps (tempRows.getD 0 []) (tempRows.getD 1 []))
    let tempRows := tempRows.set 0 (_mm_add_ps (tempRows.getD 0 []) (tempRows.getD 2 []))
    let tempRows := tempRows.set 0 (_mm_add_ps (tempRows.getD 0 []) (tempRows.getD 3 []))
    let mRows := mRows.set i (tempRows.getD 0 [])
    (mRows, tempRows)) (mRows, tempRows)).1

end Simd

/-! ## In-place matrix product on an aliased argument -/

/-- Source `SizedMatrixOperator<T>::operator*=(const SizedMatrixOperator<T>& rhs)` in a call
whose argument is the receiver itself (`m *= m`): `rhs.cols` is `cols`, and every read of
`rhs.pData` goes to the storage `pData` that the loop is overwriting.  The loop state is the
pair `(pData, placeholderRow)`. -/
def interior.SizedMatrixOperator.mulAssignSelf (rows cols : Nat) (pData : List K) : List K :=
  let placeholderRow : List K :=
    forLoop cols (fun col ph => wr ph col 0) (List.replicate cols 0)
  (forLoop rows (fun row st =>
    let st1 := forLoop cols (fun rhsCol st =>
      forLoop cols (fun innerCol (st : List K × List K) =>
        (st.1, wr st.2 rhsCol
          (rd st.2 rhsCol + rd st.1 (row * cols + innerCol) * rd st.1 (innerCol * cols + rhsCol))))
        st) st
    forLoop cols (fun col (st : List K × List K) =>
      (wr st.1 (row * cols + col) (rd st.2 col), wr st.2 col 0)) st1)
    (pData, placeholderRow)).1

/-- Source `Matrix<T, r, c>::operator*=(const Matrix<T, c, c>& rhs)` with an argument stored
apart from the receiver: the operator `*=` on the two storages. -/
def Matrix.mulAssign (r c : Nat) (data rhs : List K) : List K :=
  interior.SizedMatrixOperator.mulAssign r c data c rhs

/-- Source `Matrix<T, r, c>::operator*=(const Matrix<T, c, c>& rhs)` in the call `m *= m` on a
`c x c` matrix: the operator `*=` receives the receiver itself as argument. -/
def Matrix.mulAssignSelf (c : Nat) (data : List K) : List K :=
  interior.SizedMatrixOperator.mulAssignSelf c c data

/-! ## SimdMath.h on binary32 lanes with their range -/

namespace Simd

/-- A binary32 lane with rounding set aside: a finite value, kept exactly, one of the two
infinities, or a NaN. -/
inductive Lane32 where
  | finite (v : ℚ)
  | posInf
  | negInf
  | nan
deriving DecidableEq

/-- The overflow threshold of binary32 under round-to-nearest, `2^128 - 2^103`: an exact
result of at least this magnitude is delivered as an infinity. -/
def overflow32 : ℚ := 2 ^ 128 - 2 ^ 103

namespace Lane32

/-- The lane that holds the exact result `v` of an operation on finite lanes. -/
def ofExact (v : ℚ) : Lane32 :=
  if overflow32 ≤ v then posInf
  else if v ≤ -overflow32 then negInf
  else finite v

/-- Product of two binary32 lanes (IEEE 754): a NaN operand or zero times infinity gives
NaN, an infinity keeps the product of the signs. -/
def mul : Lane32 → Lane32 → Lane32
  | nan, _ => nan
  | _, nan => nan
  | finite a, finite b => ofExact (a * b)
  | finite a, posInf => if a = 0 then nan else if 0 < a then posInf else negInf
  | finite a, negInf => if a = 0 then nan else if 0 < a then negInf else posInf
  | posInf, finite b => if b = 0 then nan else if 0 < b then posInf else negInf
  | negInf, finite b => if b = 0 then nan else if 0 < b then negInf else posInf
  | posInf, posInf => posInf
  | posInf, negInf => negInf
  | negInf, posInf => negInf
  | negInf, negInf => posInf

/-- Difference of two binary32 lanes (IEEE 754): a NaN operand or the difference of two
infinities of the same sign gives NaN. -/
def sub : Lane32 → Lane32 → Lane32
  | nan, _ => nan
  | _, nan => nan
  | finite a, finite b => ofExact (a - b)
  | finite _, posInf => negInf
  | finite _, negInf => posInf
  | posInf, finite _ => posInf
  | negInf, finite _ => negInf
  | posInf, posInf => nan
  | posInf, negInf => posInf
  | negInf, posInf => negInf
  | negInf, negInf => nan

end Lane32

/-- Read lane `i` of a register of binary32 lanes. -/
def rd32 (p : List Lane32) (i : Nat) : Lane32 := p.getD i (Lane32.finite 0)

namespace F32

/-- Intrinsic `_mm_shuffle_ps(a, b, imm8)` on binary32 lanes. -/
def _mm_shuffle_ps (a b : List Lane32) (imm8 : Nat) : List Lane32 :=
  [rd32 a (imm8 % 4), rd32 a (imm8 / 4 % 4), rd32 b (imm8 / 16 % 4), rd32 b (imm8 / 64 % 4)]

/-- Intrinsic `_mm_mul_ps(a, b)` on binary32 lanes: lane-wise product. -/
def _mm_mul_ps (a b : List Lane32) : List Lane32 :=
  [Lane32.mul (rd32 a 0) (rd32 b 0), Lane32.mul (rd32 a 1) (rd32 b 1),
   Lane32.mul (rd32 a 2) (rd32 b 2), Lane32.mul (rd32 a 3) (rd32 b 3)]

/-- Intrinsic `_mm_sub_ps(a, b)` on binary32 lanes: lane-wise difference. -/
def _mm_sub_ps (a b : List Lane32) : List Lane32 :=
  [Lane32.sub (rd32 a 0) (rd32 b 0), Lane32.sub (rd32 a 1) (rd32 b 1),
   Lane32.sub (rd32 a 2) (rd32 b 2), Lane32.sub (rd32 a 3) (rd32 b 3)]

/-- Source `SimdVector3::Cross(const SimdVector3& other)` on binary32 lanes: the same
statements as `Simd.SimdVector3.Cross`, with the range of the lanes taken into account. -/
def SimdVector3.Cross (mVec other : List Lane32) : List Lane32 :=
  let tempA := _mm_shuffle_ps mVec mVec (_MM_SHUFFLER 1 2 0 3)
  let tempB := _mm_shuffle_ps other other (_MM_SHUFFLER 2 0 1 3)
  let result := _mm_mul_ps tempA tempB
  let tempA := _mm_shuffle_ps mVec mVec (_MM_SHUFFLER 2 0 1 3)
  let tempB := _mm_shuffle_ps other other (_MM_SHUFFLER 1 2 0 3)
  let tempA := _mm_mul_ps tempA tempB
  let result := _mm_sub_ps result tempA
  result

end F32

end Simd

/-! ## Auxiliary definitions used to state the properties -/

/-- Entry `(i, j)` of the mathematical product of `A` (row stride `cols`) with the
`cols x cols` matrix `B`: the sum over `k` of `A(i,k) * B(k,j)`. -/
def prodEntry (cols : Nat) (A B : List K) (i j : Nat) : K :=
  ∑ k in Finset.range cols, rd A (i * cols + k) * rd B (k * cols + j)

/-- The upper-left 3x3 block of a 4x4 storage, as a 3x3 storage. -/
def upperLeft3 (data : List K) : List K :=
  [rd data 0, rd data 1, rd data 2,
   rd data 4, rd data 5, rd data 6,
   rd data 8, rd data 9, rd data 10]

/-- The value that `Quaternion<T>::Lerp` holds in `retQuat` right before
`retQuat.Normalize()`: the linear interpolant from the sign-adjusted start to `endQ`. -/
def Quaternion.LerpInterpolant (epsilon : K) (self endQ : Quaternion K) (t : K) :
    Quaternion K :=
  let dot := self.x * endQ.x + self.y * endQ.y + self.z * endQ.z + self.w * endQ.w
  if Math.IsZero epsilon (dot + |dot|) then
    ⟨-self.x + t * (endQ.x + self.x), -self.y + t * (endQ.y + self.y),
     -self.z + t * (endQ.z + self.z), -self.w + t * (endQ.w + self.w)⟩
  else
    ⟨self.x + t * (endQ.x - self.x), self.y + t * (endQ.y - self.y),
     self.z + t * (endQ.z - self.z), self.w + t * (endQ.w - self.w)⟩

/-- The `n x n` row-major storage `data` as a matrix over `Fin n`. -/
def toMatrix (n : Nat) (data : List K) : Matrix (Fin n) (Fin n) K :=
  fun i j => rd data (i.val * n + j.val)

/-- The x, y, z lanes of a register. -/
def Simd.xyz (v : List K) : List K := [rd v 0, rd v 1, rd v 2]

/-- The search loop of one pivot step of the generic `Determinant`: the pair
`(maxRow, maxElem)` it leaves. -/
def pivotSearch (n : Nat) (pData : List K) (pivot : Nat) : Nat × K :=
  forRange (pivot + 1) n (fun row (m : Nat × K) =>
    let element := |rd pData (row * n + pivot)|
    if element > m.2 then (row, element) else m)
    (pivot, |rd pData (pivot * n + pivot)|)

/-- The row-swap loop of one pivot step of the generic `Determinant`. -/
def swapRows (n : Nat) (pData : List K) (pivot maxRow : Nat) : List K :=
  forLoop n (fun col pData =>
    let temp := rd pData (pivot * n + col)
    let pData := wr pData (pivot * n + col) (rd pData (maxRow * n + col))
    wr pData (maxRow * n + col) temp) pData

/-- The row-scaling loop of one pivot step of the generic `Determinant`. -/
def scaleRow (n : Nat) (pData : List K) (pivot : Nat) (pivotRecip : K) : List K :=
  forLoop n (fun col pData =>
    wr pData (pivot * n + col) (rd pData (pivot * n + col) * pivotRecip)) pData

/-- The elimination loop of one pivot step of the generic `Determinant`. -/
def eliminateColumn (n : Nat) (pData : List K) (pivot : Nat) : List K :=
  forLoop n (fun row pData =>
    if row = pivot then pData
    else
      let factor := rd pData (row * n + pivot)
      forLoop n (fun col pData =>
        wr pData (row * n + col)
          (rd pData (row * n + col) - factor * rd pData (pivot * n + col))) pData)
    pData

/-- One iteration of the pivot loop of the generic `Determinant` on an `n x n` storage, as
a transformer of the loop state. -/
def pivotStep (epsilon : K) (n : Nat) (pivot : Nat) (st : Option (List K × K)) :
    Option (List K × K) :=
  match st with
  | none => none
  | some (pData, runningProduct) =>
    if Math.IsZero epsilon (pivotSearch n pData pivot).2 then none
    else
      let swapped : List K × K :=
        if (pivotSearch n pData pivot).1 ≠ pivot then
          (swapRows n pData pivot (pivotSearch n pData pivot).1, runningProduct * -1)
        else (pData, runningProduct)
      let pivotRecip := 1 / rd swapped.1 (pivot * n + pivot)
      some (eliminateColumn n (scaleRow n swapped.1 pivot pivotRecip) pivot,
        swapped.2 / pivotRecip)

/-- The four row registers of a `SimdMatrix4` as a 4x4 matrix: entry `(i, j)` is lane `j`
of row `i`. -/
def Simd.rowsToMatrix (rows : List (List K)) : Matrix (Fin 4) (Fin 4) K :=
  fun i j => rd (rows.getD i.val []) j.val

end LinAlg

/-! # Theorems -/

namespace LinAlg

variable {K : Type} [LinearOrderedField K]

/-! ## Lemmas on storage and loops -/

theorem length_wr (l : List K) (i : Nat) (v : K) : (wr l i v).length = l.length := by
  simp [wr]

theorem rd_wr (l : List K) (i j : Nat) (v : K) :
    rd (wr l i v) j = if j = i ∧ i < l.length then v else rd l j := by
  unfold rd wr
  by_cases hji : j = i
  · subst hji
    by_cases hj : j < l.length
    · simp [List.getD_eq_getElem?_getD, List.getElem?_set, hj]
    · have hnone : l[j]? = none := List.getElem?_eq_none (by omega)
      simp [List.getD_eq_getElem?_getD, List.getElem?_set, hj, hnone]
  · have : i ≠ j := fun h => hji h.symm
    simp [List.getD_eq_getElem?_getD, List.getElem?_set, hji, this]

theorem rd_of_length_le (l : List K) (i : Nat) (h : l.length ≤ i) : rd l i = 0 := by
  unfold rd
  simp [List.getD_eq_getElem?_getD, List.getElem?_eq_none h]

theorem list_ext_rd (l1 l2 : List K) (hlen : l1.length = l2.length)
    (h : ∀ i, i < l1.length → rd l1 i = rd l2 i) : l1 = l2 := by
  apply List.ext_getElem hlen
  intro i h1 h2
  have := h i h1
  unfold rd at this
  simpa [List.getD_eq_getElem?_getD, List.getElem?_eq_getElem h1, List.getElem?_eq_getElem h2] using this

theorem forRange_succ {σ : Type} (lo n : Nat) (body : Nat → σ → σ) (s : σ) :
    forRange lo (lo + (n + 1)) body s = body (lo + n) (forRange lo (lo + n) body s) := by
  unfold forRange
  have h1 : lo + (n + 1) - lo = n + 1 := by omega
  have h2 : lo + n - lo = n := by omega
  rw [h1, h2, List.range'_concat]
  simp [List.foldl_append]

theorem forLoop_zero {σ : Type} (body : Nat → σ → σ) (s : σ) : forLoop 0 body s = s := by
  simp [forLoop, forRange]

theorem forLoop_succ {σ : Type} (n : Nat) (body : Nat → σ → σ) (s : σ) :
    forLoop (n + 1) body s = body n (forLoop n body s) := by
  have := forRange_succ 0 n body s
  simpa [forLoop] using this

/-- Loop-invariant rule for `forLoop`. -/
theorem forLoop_invariant {σ : Type} (P : Nat → σ → Prop) (n : Nat) (body : Nat → σ → σ)
    (s : σ) (h0 : P 0 s) (hstep : ∀ i s, i < n → P i s → P (i + 1) (body i s)) :
    P n (forLoop n body s) := by
  induction n with
  | zero => simpa [forLoop_zero] using h0
  | succ n ih =>
    rw [forLoop_succ]
    exact hstep n _ (Nat.lt_succ_self n)
      (ih (fun i s hi hp => hstep i s (Nat.lt_succ_of_lt hi) hp))


theorem wr_rd_self (l : List K) (i : Nat) : wr l i (rd l i) = l := by
  apply list_ext_rd
  · simp [length_wr]
  · intro j _
    rw [rd_wr]
    split_ifs with h
    · rw [h.1]
    · rfl

theorem wr_wr (l : List K) (i : Nat) (a b : K) : wr (wr l i a) i b = wr l i b := by
  simp [wr, List.set_set]

/-- Row-major index arithmetic: `i * c + j` determines `i` and `j` when `j < c`. -/
theorem index_inj {c i j i2 j2 : Nat} (hj : j < c) (hj2 : j2 < c)
    (h : i * c + j = i2 * c + j2) : i = i2 ∧ j = j2 := by
  have h1 : (i * c + j) / c = i := by
    rw [Nat.mul_comm, Nat.mul_add_div (by omega), Nat.div_eq_of_lt hj, Nat.add_zero]
  have h2 : (i2 * c + j2) / c = i2 := by
    rw [Nat.mul_comm, Nat.mul_add_div (by omega), Nat.div_eq_of_lt hj2, Nat.add_zero]
  have hi : i = i2 := by rw [← h1, ← h2, h]
  subst hi
  exact ⟨rfl, by omega⟩

theorem index_lt {r c i j : Nat} (hi : i < r) (hj : j < c) : i * c + j < r * c := by
  have : (i + 1) * c ≤ r * c := Nat.mul_le_mul_right c hi
  have h2 : (i + 1) * c = i * c + c := by ring
  omega

namespace interior

namespace SizedMatrixOperator

theorem mulAssign_inner (row rhsCol cols c2 : Nat) (B : List K) (n : Nat) (p ph : List K)
    (h : rhsCol < ph.length) :
    forLoop n (fun innerCol (st : List K × List K) =>
        (st.1, wr st.2 rhsCol
          (rd st.2 rhsCol + rd st.1 (row * cols + innerCol) * rd B (innerCol * c2 + rhsCol))))
        (p, ph)
      = (p, wr ph rhsCol (rd ph rhsCol
          + ∑ k in Finset.range n, rd p (row * cols + k) * rd B (k * c2 + rhsCol))) := by
  induction n with
  | zero => simp [forLoop_zero, wr_rd_self]
  | succ n ih =>
    rw [forLoop_succ, ih]
    simp only [rd_wr, h, and_self, if_true, wr_wr, Finset.sum_range_succ, add_assoc]

theorem mulAssign_mid (row cols c2 : Nat) (B : List K) (p ph : List K) (m : Nat)
    (hm : m ≤ ph.length) :
    let st := forLoop m (fun rhsCol st =>
      forLoop cols (fun innerCol (st : List K × List K) =>
        (st.1, wr st.2 rhsCol
          (rd st.2 rhsCol + rd st.1 (row * cols + innerCol) * rd B (innerCol * c2 + rhsCol))))
        st) (p, ph)
    st.1 = p ∧ st.2.length = ph.length ∧
      ∀ j, rd st.2 j = if j < m then
        rd ph j + ∑ k in Finset.range cols, rd p (row * cols + k) * rd B (k * c2 + j)
        else rd ph j := by
  intro st
  refine forLoop_invariant (fun m (st : List K × List K) => m ≤ ph.length →
    (st.1 = p ∧ st.2.length = ph.length ∧
      ∀ j, rd st.2 j = if j < m then
        rd ph j + ∑ k in Finset.range cols, rd p (row * cols + k) * rd B (k * c2 + j)
        else rd ph j)) m _ (p, ph) ?_ ?_ hm
  · intro _
    simp
  · intro i s _ ih hi
    obtain ⟨h1, h2, h3⟩ := ih (by omega)
    obtain ⟨s1, s2⟩ := s
    simp only at h1 h2 h3
    subst h1
    rw [mulAssign_inner row i cols c2 B cols s1 s2 (by omega)]
    refine ⟨rfl, by simp [length_wr, h2], ?_⟩
    intro j
    rw [rd_wr]
    by_cases hji : j = i
    · subst hji
      have hlt : j < s2.length := by omega
      simp [hlt, h3]
    · have h4 := h3 j
      by_cases hjlt : j < i
      · have : j < i + 1 := by omega
        simp [hji, this, h4, hjlt]
      · have : ¬ j < i + 1 := by omega
        simp [hji, this, h4, hjlt]

theorem mulAssign_copyBack (row cols : Nat) (p ph : List K) (m : Nat)
    (hm : m ≤ ph.length) (hp : row * cols + m ≤ p.length) :
    let st := forLoop m (fun col (st : List K × List K) =>
      (wr st.1 (row * cols + col) (rd st.2 col), wr st.2 col 0)) (p, ph)
    st.1.length = p.length ∧ st.2.length = ph.length ∧
      (∀ idx, rd st.1 idx = if row * cols ≤ idx ∧ idx < row * cols + m then
        rd ph (idx - row * cols) else rd p idx) ∧
      (∀ j, rd st.2 j = if j < m then 0 else rd ph j) := by
  intro st
  refine forLoop_invariant (fun m (st : List K × List K) =>
    m ≤ ph.length → row * cols + m ≤ p.length →
    (st.1.length = p.length ∧ st.2.length = ph.length ∧
      (∀ idx, rd st.1 idx = if row * cols ≤ idx ∧ idx < row * cols + m then
        rd ph (idx - row * cols) else rd p idx) ∧
      (∀ j, rd st.2 j = if j < m then 0 else rd ph j))) m _ (p, ph) ?_ ?_ hm hp
  · intro _ _
    refine ⟨rfl, rfl, ?_, by simp⟩
    intro idx
    rw [if_neg]
    omega
  · intro i s _ ih hi hip
    obtain ⟨h1, h2, h3, h4⟩ := ih (by omega) (by omega)
    refine ⟨by simp [length_wr, h1], by simp [length_wr, h2], ?_, ?_⟩
    · intro idx
      rw [rd_wr, h1, h4 i]
      by_cases hidx : idx = row * cols + i
      · subst hidx
        have e1 : row * cols + i < p.length := by omega
        have e2 : row * cols + i < row * cols + (i + 1) := by omega
        simp [e1, e2]
      · have e3 := h3 idx
        by_cases hin : row * cols ≤ idx ∧ idx < row * cols + i
        · have e4 : row * cols ≤ idx ∧ idx < row * cols + (i + 1) := ⟨hin.1, by omega⟩
          simp only [hidx, false_and, if_false, e3, hin, e4, and_self, if_true]
        · have e4 : ¬ (row * cols ≤ idx ∧ idx < row * cols + (i + 1)) := by
            intro h; apply hin; exact ⟨h.1, by omega⟩
          simp only [hidx, false_and, if_false, e3, hin, e4]
    · intro j
      rw [rd_wr, h2]
      by_cases hji : j = i
      · subst hji
        have : j < ph.length := by omega
        simp [this]
      · have e3 := h4 j
        by_cases hjlt : j < i
        · have : j < i + 1 := by omega
          simp [hji, e3, hjlt, this]
        · have : ¬ j < i + 1 := by omega
          simp [hji, e3, hjlt, this]

/-- What the in-place `*=` leaves in the receiver: on a `rows x cols` receiver `A` and a
`cols x cols` argument `B`, entry `(i, j)` of the new storage is the sum over `k` of
`A(i,k) * B(k,j)` of the old storage, and the storage keeps its length. -/
theorem mulAssign_spec (rows cols : Nat) (A B : List K) (hA : A.length = rows * cols) :
    (mulAssign rows cols A cols B).length = A.length ∧
      ∀ i j, i < rows → j < cols →
        rd (mulAssign rows cols A cols B) (i * cols + j) = prodEntry cols A B i j := by
  unfold mulAssign
  have hph : ∀ (q : List K), q.length = cols → (∀ j, rd q j = 0) →
      (forLoop cols (fun col ph => wr ph col 0) q).length = cols ∧
      ∀ j, rd (forLoop cols (fun col ph => wr ph col 0) q) j = 0 := by
    intro q hq hq0
    refine forLoop_invariant (fun _ (ph : List K) => ph.length = cols ∧ ∀ j, rd ph j = 0)
      cols _ q ⟨hq, hq0⟩ ?_
    intro i s _ ih
    refine ⟨by simp [length_wr, ih.1], ?_⟩
    intro j
    rw [rd_wr]
    split_ifs
    · rfl
    · exact ih.2 j
  have hrep : ∀ j, rd (List.replicate cols (0 : K)) j = 0 := by
    intro j
    unfold rd
    by_cases hj : j < cols
    · simp [List.getD_eq_getElem?_getD, List.getElem?_replicate, hj]
    · simp [List.getD_eq_getElem?_getD, List.getElem?_replicate, hj]
  obtain ⟨hz1, hz2⟩ := hph (List.replicate cols 0) (by simp) hrep
  have key := forLoop_invariant (fun r (st : List K × List K) => r ≤ rows →
      (st.1.length = A.length ∧ st.2.length = cols ∧ (∀ j, rd st.2 j = 0) ∧
        ∀ i j, j < cols → rd st.1 (i * cols + j) =
          if i < r then prodEntry cols A B i j else rd A (i * cols + j)))
    rows
    (fun row st =>
      forLoop cols (fun col (st : List K × List K) =>
        (wr st.1 (row * cols + col) (rd st.2 col), wr st.2 col 0))
        (forLoop cols (fun rhsCol st =>
          forLoop cols (fun innerCol (st : List K × List K) =>
            (st.1, wr st.2 rhsCol
              (rd st.2 rhsCol + rd st.1 (row * cols + innerCol) * rd B (innerCol * cols + rhsCol))))
            st) st))
    (A, forLoop cols (fun col ph => wr ph col 0) (List.replicate cols 0))
    (by intro _; exact ⟨rfl, hz1, hz2, by simp⟩)
    (by
      intro r s hr ih _
      obtain ⟨h1, h2, h3, h4⟩ := ih (by omega)
      obtain ⟨s1, s2⟩ := s
      dsimp only at h1 h2 h3 h4 ⊢
      have hm := mulAssign_mid r cols cols B s1 s2 cols (by omega)
      dsimp only at hm
      have hlen : r * cols + cols ≤ s1.length := by
        rw [h1, hA]
        have h5 : (r + 1) * cols ≤ rows * cols := Nat.mul_le_mul_right cols hr
        have h6 : (r + 1) * cols = r * cols + cols := by ring
        omega
      generalize forLoop cols (fun rhsCol st =>
          forLoop cols (fun innerCol (st : List K × List K) =>
            (st.1, wr st.2 rhsCol
              (rd st.2 rhsCol + rd st.1 (r * cols + innerCol) * rd B (innerCol * cols + rhsCol))))
            st) (s1, s2) = mid at hm ⊢
      obtain ⟨t1, t2⟩ := mid
      obtain ⟨m1, m2, m3⟩ := hm
      dsimp only at m1 m2 m3
      subst m1
      obtain ⟨c1, c2, c3, c4⟩ := mulAssign_copyBack r cols t1 t2 cols (by omega) hlen
      refine ⟨by rw [c1, h1], by rw [c2, m2, h2], ?_, ?_⟩
      · intro j
        rw [c4 j, m3 j, h3 j]
        split_ifs <;> simp
      · intro i j hj
        rw [c3 (i * cols + j)]
        by_cases hir : i = r
        · subst hir
          have e1 : i * cols ≤ i * cols + j ∧ i * cols + j < i * cols + cols := ⟨by omega, by omega⟩
          have e2 : i * cols + j - i * cols = j := by omega
          rw [if_pos e1, e2, m3 j, if_pos hj, h3 j, zero_add, if_pos (Nat.lt_succ_self i)]
          unfold prodEntry
          apply Finset.sum_congr rfl
          intro k hk
          rw [h4 i k (Finset.mem_range.mp hk), if_neg (Nat.lt_irrefl i)]
        · have e1 : ¬ (r * cols ≤ i * cols + j ∧ i * cols + j < r * cols + cols) := by
            intro h
            have hj2 : i * cols + j - r * cols < cols := by omega
            have := index_inj hj hj2 (show i * cols + j = r * cols + (i * cols + j - r * cols) by omega)
            exact hir this.1
          rw [if_neg e1, h4 i j hj]
          by_cases hlt : i < r
          · rw [if_pos hlt, if_pos (by omega)]
          · rw [if_neg hlt, if_neg (by omega)])
  obtain ⟨k1, _, _, k4⟩ := key (le_refl rows)
  refine ⟨k1, ?_⟩
  intro i j hi hj
  rw [k4 i j hj, if_pos hi]

end SizedMatrixOperator

end interior

/-! ## Lemmas on fixed-size storages and on the square product -/

theorem exists_cons_of_length_succ {n : Nat} (l : List K) (h : l.length = n + 1) :
    ∃ a t, l = a :: t ∧ t.length = n := by
  cases l with
  | nil => simp at h
  | cons a t => exact ⟨a, t, rfl, by simpa using h⟩

theorem exists_of_length_3 (l : List K) (h : l.length = 3) :
    ∃ a0 a1 a2,
      l = [a0, a1, a2] := by
  obtain ⟨a0, t0, rfl, h0⟩ := exists_cons_of_length_succ l h
  obtain ⟨a1, t1, rfl, h1⟩ := exists_cons_of_length_succ t0 h0
  obtain ⟨a2, t2, rfl, h2⟩ := exists_cons_of_length_succ t1 h1
  rw [List.length_eq_zero] at h2
  subst h2
  exact ⟨a0, a1, a2, rfl⟩

theorem exists_of_length_9 (l : List K) (h : l.length = 9) :
    ∃ a0 a1 a2 a3 a4 a5 a6 a7 a8,
      l = [a0, a1, a2, a3, a4, a5, a6, a7, a8] := by
  obtain ⟨a0, t0, rfl, h0⟩ := exists_cons_of_length_succ l h
  obtain ⟨a1, t1, rfl, h1⟩ := exists_cons_of_length_succ t0 h0
  obtain ⟨a2, t2, rfl, h2⟩ := exists_cons_of_length_succ t1 h1
  obtain ⟨a3, t3, rfl, h3⟩ := exists_cons_of_length_succ t2 h2
  obtain ⟨a4, t4, rfl, h4⟩ := exists_cons_of_length_succ t3 h3
  obtain ⟨a5, t5, rfl, h5⟩ := exists_cons_of_length_succ t4 h4
  obtain ⟨a6, t6, rfl, h6⟩ := exists_cons_of_length_succ t5 h5
  obtain ⟨a7, t7, rfl, h7⟩ := exists_cons_of_length_succ t6 h6
  obtain ⟨a8, t8, rfl, h8⟩ := exists_cons_of_length_succ t7 h7
  rw [List.length_eq_zero] at h8
  subst h8
  exact ⟨a0, a1, a2, a3, a4, a5, a6, a7, a8, rfl⟩

theorem exists_of_length_16 (l : List K) (h : l.length = 16) :
    ∃ a0 a1 a2 a3 a4 a5 a6 a7 a8 a9 a10 a11 a12 a13 a14 a15,
      l = [a0, a1, a2, a3, a4, a5, a6, a7, a8, a9, a10, a11, a12, a13, a14, a15] := by
  obtain ⟨a0, t0, rfl, h0⟩ := exists_cons_of_length_succ l h
  obtain ⟨a1, t1, rfl, h1⟩ := exists_cons_of_length_succ t0 h0
  obtain ⟨a2, t2, rfl, h2⟩ := exists_cons_of_length_succ t1 h1
  obtain ⟨a3, t3, rfl, h3⟩ := exists_cons_of_length_succ t2 h2
  obtain ⟨a4, t4, rfl, h4⟩ := exists_cons_of_length_succ t3 h3
  obtain ⟨a5, t5, rfl, h5⟩ := exists_cons_of_length_succ t4 h4
  obtain ⟨a6, t6, rfl, h6⟩ := exists_cons_of_length_succ t5 h5
  obtain ⟨a7, t7, rfl, h7⟩ := exists_cons_of_length_succ t6 h6
  obtain ⟨a8, t8, rfl, h8⟩ := exists_cons_of_length_succ t7 h7
  obtain ⟨a9, t9, rfl, h9⟩ := exists_cons_of_length_succ t8 h8
  obtain ⟨a10, t10, rfl, h10⟩ := exists_cons_of_length_succ t9 h9
  obtain ⟨a11, t11, rfl, h11⟩ := exists_cons_of_length_succ t10 h10
  obtain ⟨a12, t12, rfl, h12⟩ := exists_cons_of_length_succ t11 h11
  obtain ⟨a13, t13, rfl, h13⟩ := exists_cons_of_length_succ t12 h12
  obtain ⟨a14, t14, rfl, h14⟩ := exists_cons_of_length_succ t13 h13
  obtain ⟨a15, t15, rfl, h15⟩ := exists_cons_of_length_succ t14 h14
  rw [List.length_eq_zero] at h15
  subst h15
  exact ⟨a0, a1, a2, a3, a4, a5, a6, a7, a8, a9, a10, a11, a12, a13, a14, a15, rfl⟩

/-- Two `n x n` storages are equal when they agree at every `(i, j)`. -/
theorem square_ext (n : Nat) (X Y : List K) (hX : X.length = n * n) (hY : Y.length = n * n)
    (h : ∀ i j, i < n → j < n → rd X (i * n + j) = rd Y (i * n + j)) : X = Y := by
  apply list_ext_rd X Y (by rw [hX, hY])
  intro idx hidx
  rw [hX] at hidx
  have hn : 0 < n := by
    rcases Nat.eq_zero_or_pos n with h0 | h0
    · subst h0; simp at hidx
    · exact h0
  have h1 : idx / n < n := Nat.div_lt_of_lt_mul hidx
  have h2 : idx % n < n := Nat.mod_lt _ hn
  have h3 : idx / n * n + idx % n = idx := by
    rw [Nat.mul_comm]; exact Nat.div_add_mod idx n
  have := h (idx / n) (idx % n) h1 h2
  rwa [h3] at this

theorem isZero_false_ne_zero (epsilon x : K) (h0 : 0 ≤ epsilon)
    (h : Math.IsZero epsilon x = false) : x ≠ 0 := by
  intro hx
  subst hx
  simp [Math.IsZero, h0] at h

/-- Entrywise value of the square product `lhs * rhs`. -/
theorem SquareMatrix.rd_mul (n : Nat) (lhs rhs : List K) (h : lhs.length = n * n)
    (i j : Nat) (hi : i < n) (hj : j < n) :
    rd (SquareMatrix.mul n lhs rhs) (i * n + j) = prodEntry n lhs rhs i j :=
  (interior.SizedMatrixOperator.mulAssign_spec n n lhs rhs h).2 i j hi hj

theorem SquareMatrix.length_mul (n : Nat) (lhs rhs : List K) (h : lhs.length = n * n) :
    (SquareMatrix.mul n lhs rhs).length = n * n := by
  rw [← h]
  exact (interior.SizedMatrixOperator.mulAssign_spec n n lhs rhs h).1

/-- The square product of two explicit 4x4 storages, entry by entry. -/
theorem SquareMatrix.mul_four (b0 b1 b2 b3 b4 b5 b6 b7 b8 b9 b10 b11 b12 b13 b14 b15 a0 a1 a2 a3 a4 a5 a6 a7 a8 a9 a10 a11 a12 a13 a14 a15 : K) :
    SquareMatrix.mul 4 [b0, b1, b2, b3, b4, b5, b6, b7, b8, b9, b10, b11, b12, b13, b14, b15] [a0, a1, a2, a3, a4, a5, a6, a7, a8, a9, a10, a11, a12, a13, a14, a15]
      = [b0 * a0 + b1 * a4 + b2 * a8 + b3 * a12,
       b0 * a1 + b1 * a5 + b2 * a9 + b3 * a13,
       b0 * a2 + b1 * a6 + b2 * a10 + b3 * a14,
       b0 * a3 + b1 * a7 + b2 * a11 + b3 * a15,
       b4 * a0 + b5 * a4 + b6 * a8 + b7 * a12,
       b4 * a1 + b5 * a5 + b6 * a9 + b7 * a13,
       b4 * a2 + b5 * a6 + b6 * a10 + b7 * a14,
       b4 * a3 + b5 * a7 + b6 * a11 + b7 * a15,
       b8 * a0 + b9 * a4 + b10 * a8 + b11 * a12,
       b8 * a1 + b9 * a5 + b10 * a9 + b11 * a13,
       b8 * a2 + b9 * a6 + b10 * a10 + b11 * a14,
       b8 * a3 + b9 * a7 + b10 * a11 + b11 * a15,
       b12 * a0 + b13 * a4 + b14 * a8 + b15 * a12,
       b12 * a1 + b13 * a5 + b14 * a9 + b15 * a13,
       b12 * a2 + b13 * a6 + b14 * a10 + b15 * a14,
       b12 * a3 + b13 * a7 + b14 * a11 + b15 * a15] := by
  apply square_ext 4 _ _ (SquareMatrix.length_mul 4 _ _ (by simp)) (by simp)
  intro i j hi hj
  rw [SquareMatrix.rd_mul 4 _ _ (by simp) i j hi hj]
  interval_cases i <;> interval_cases j <;>
    simp only [prodEntry, Finset.sum_range_succ, Finset.sum_range_zero, rd,
      List.getD_cons_zero, List.getD_cons_succ, zero_add, Nat.reduceMul, Nat.reduceAdd]

theorem cramer_sum_left (D c0 c1 c2 c3 x0 x1 x2 x3 t : K) (hD : D ≠ 0)
    (h : c0 * x0 + c1 * x1 + c2 * x2 + c3 * x3 = t * D) :
    1 / D * c0 * x0 + 1 / D * c1 * x1 + 1 / D * c2 * x2 + 1 / D * c3 * x3 = t := by
  have : 1 / D * c0 * x0 + 1 / D * c1 * x1 + 1 / D * c2 * x2 + 1 / D * c3 * x3
      = 1 / D * (c0 * x0 + c1 * x1 + c2 * x2 + c3 * x3) := by ring
  rw [this, h]
  field_simp

theorem cramer_sum_right (D c0 c1 c2 c3 x0 x1 x2 x3 t : K) (hD : D ≠ 0)
    (h : x0 * c0 + x1 * c1 + x2 * c2 + x3 * c3 = t * D) :
    x0 * (1 / D * c0) + x1 * (1 / D * c1) + x2 * (1 / D * c2) + x3 * (1 / D * c3) = t := by
  have : x0 * (1 / D * c0) + x1 * (1 / D * c1) + x2 * (1 / D * c2) + x3 * (1 / D * c3)
      = 1 / D * (x0 * c0 + x1 * c1 + x2 * c2 + x3 * c3) := by ring
  rw [this, h]
  field_simp

/-- The storage that `SquareMatrix<T, 4>::Inverse` leaves when `det` is not treated as
zero: the adjugate scaled by `1 / det`. -/
theorem SquareMatrix4.Inverse_eq (epsilon : K) (a0 a1 a2 a3 a4 a5 a6 a7 a8 a9 a10 a11 a12 a13 a14 a15 : K)
    (hdet : Math.IsZero epsilon (SquareMatrix4.Determinant [a0, a1, a2, a3, a4, a5, a6, a7, a8, a9, a10, a11, a12, a13, a14, a15]) = false) :
    ∃ D : K, D = SquareMatrix4.Determinant [a0, a1, a2, a3, a4, a5, a6, a7, a8, a9, a10, a11, a12, a13, a14, a15] ∧
      D = a0 * (a5 * (a10 * a15 - a11 * a14) - a6 * (a9 * a15 - a11 * a13) + a7 * (a9 * a14 - a10 * a13)) +
      a1 * -(a4 * (a10 * a15 - a11 * a14) - a6 * (a8 * a15 - a11 * a12) + a7 * (a8 * a14 - a10 * a12)) +
      a2 * (a4 * (a9 * a15 - a11 * a13) - a5 * (a8 * a15 - a11 * a12) + a7 * (a8 * a13 - a9 * a12)) +
      a3 * -(a4 * (a9 * a14 - a10 * a13) - a5 * (a8 * a14 - a10 * a12) + a6 * (a8 * a13 - a9 * a12)) ∧
      SquareMatrix4.Inverse epsilon [a0, a1, a2, a3, a4, a5, a6, a7, a8, a9, a10, a11, a12, a13, a14, a15] =
      [1 / D * (a5 * (a10 * a15 - a11 * a14) - a6 * (a9 * a15 - a11 * a13) + a7 * (a9 * a14 - a10 * a13)),
       1 / D * -(a1 * (a10 * a15 - a11 * a14) - a2 * (a9 * a15 - a11 * a13) + a3 * (a9 * a14 - a10 * a13)),
       1 / D * (a1 * (a6 * a15 - a7 * a14) - a2 * (a5 * a15 - a7 * a13) + a3 * (a5 * a14 - a6 * a13)),
       1 / D * -(a1 * (a6 * a11 - a7 * a10) - a2 * (a5 * a11 - a7 * a9) + a3 * (a5 * a10 - a6 * a9)),
       1 / D * -(a4 * (a10 * a15 - a11 * a14) - a6 * (a8 * a15 - a11 * a12) + a7 * (a8 * a14 - a10 * a12)),
       1 / D * (a0 * (a10 * a15 - a11 * a14) - a2 * (a8 * a15 - a11 * a12) + a3 * (a8 * a14 - a10 * a12)),
       1 / D * -(a0 * (a6 * a15 - a7 * a14) - a2 * (a4 * a15 - a7 * a12) + a3 * (a4 * a14 - a6 * a12)),
       1 / D * (a0 * (a6 * a11 - a7 * a10) - a2 * (a4 * a11 - a7 * a8) + a3 * (a4 * a10 - a6 * a8)),
       1 / D * (a4 * (a9 * a15 - a11 * a13) - a5 * (a8 * a15 - a11 * a12) + a7 * (a8 * a13 - a9 * a12)),
       1 / D * -(a0 * (a9 * a15 - a11 * a13) - a1 * (a8 * a15 - a11 * a12) + a3 * (a8 * a13 - a9 * a12)),
       1 / D * (a0 * (a5 * a15 - a7 * a13) - a1 * (a4 * a15 - a7 * a12) + a3 * (a4 * a13 - a5 * a12)),
       1 / D * -(a0 * (a5 * a11 - a7 * a9) - a1 * (a4 * a11 - a7 * a8) + a3 * (a4 * a9 - a5 * a8)),
       1 / D * -(a4 * (a9 * a14 - a10 * a13) - a5 * (a8 * a14 - a10 * a12) + a6 * (a8 * a13 - a9 * a12)),
       1 / D * (a0 * (a9 * a14 - a10 * a13) - a1 * (a8 * a14 - a10 * a12) + a2 * (a8 * a13 - a9 * a12)),
       1 / D * -(a0 * (a5 * a14 - a6 * a13) - a1 * (a4 * a14 - a6 * a12) + a2 * (a4 * a13 - a5 * a12)),
       1 / D * (a0 * (a5 * a10 - a6 * a9) - a1 * (a4 * a10 - a6 * a8) + a2 * (a4 * a9 - a5 * a8))] := by
  have e : a0 * (a5 * (a10 * a15 - a11 * a14) - a6 * (a9 * a15 - a11 * a13) + a7 * (a9 * a14 - a10 * a13)) +
      a1 * -(a4 * (a10 * a15 - a11 * a14) - a6 * (a8 * a15 - a11 * a12) + a7 * (a8 * a14 - a10 * a12)) +
      a2 * (a4 * (a9 * a15 - a11 * a13) - a5 * (a8 * a15 - a11 * a12) + a7 * (a8 * a13 - a9 * a12)) +
      a3 * -(a4 * (a9 * a14 - a10 * a13) - a5 * (a8 * a14 - a10 * a12) + a6 * (a8 * a13 - a9 * a12))
      = SquareMatrix4.Determinant [a0, a1, a2, a3, a4, a5, a6, a7, a8, a9, a10, a11, a12, a13, a14, a15] := by
    simp only [SquareMatrix4.Determinant, rd, List.getD_cons_zero, List.getD_cons_succ]
    ring
  refine ⟨_, rfl, e.symm, ?_⟩
  simp only [SquareMatrix4.Inverse, rd, wr, List.getD_cons_zero, List.getD_cons_succ, e, hdet,
    List.set_cons_zero, List.set_cons_succ, Bool.not_false, if_true]

set_option maxHeartbeats 1000000 in
theorem SquareMatrix4.inverse_mul_self (epsilon : K) (h0 : 0 ≤ epsilon) (M : List K)
    (hM : M.length = 16)
    (hdet : Math.IsZero epsilon (SquareMatrix4.Determinant M) = false) :
    SquareMatrix.mul 4 (SquareMatrix4.Inverse epsilon M) M = SquareMatrix4.identity := by
  obtain ⟨a0, a1, a2, a3, a4, a5, a6, a7, a8, a9, a10, a11, a12, a13, a14, a15, rfl⟩ :=
    exists_of_length_16 M hM
  have hD := isZero_false_ne_zero _ _ h0 hdet
  obtain ⟨D, hD1, hD2, hInv⟩ := SquareMatrix4.Inverse_eq epsilon a0 a1 a2 a3 a4 a5 a6 a7 a8 a9 a10 a11 a12 a13 a14 a15 hdet
  rw [← hD1] at hD
  rw [hInv, SquareMatrix.mul_four]
  simp only [SquareMatrix4.identity, List.cons.injEq, and_true]
  refine ⟨?_, ?_, ?_, ?_, ?_, ?_, ?_, ?_, ?_, ?_, ?_, ?_, ?_, ?_, ?_, ?_⟩ <;>
    (refine cramer_sum_left D _ _ _ _ _ _ _ _ _ hD ?_; rw [hD2]; ring)

set_option maxHeartbeats 1000000 in
theorem SquareMatrix4.self_mul_inverse (epsilon : K) (h0 : 0 ≤ epsilon) (M : List K)
    (hM : M.length = 16)
    (hdet : Math.IsZero epsilon (SquareMatrix4.Determinant M) = false) :
    SquareMatrix.mul 4 M (SquareMatrix4.Inverse epsilon M) = SquareMatrix4.identity := by
  obtain ⟨a0, a1, a2, a3, a4, a5, a6, a7, a8, a9, a10, a11, a12, a13, a14, a15, rfl⟩ :=
    exists_of_length_16 M hM
  have hD := isZero_false_ne_zero _ _ h0 hdet
  obtain ⟨D, hD1, hD2, hInv⟩ := SquareMatrix4.Inverse_eq epsilon a0 a1 a2 a3 a4 a5 a6 a7 a8 a9 a10 a11 a12 a13 a14 a15 hdet
  rw [← hD1] at hD
  rw [hInv, SquareMatrix.mul_four]
  simp only [SquareMatrix4.identity, List.cons.injEq, and_true]
  refine ⟨?_, ?_, ?_, ?_, ?_, ?_, ?_, ?_, ?_, ?_, ?_, ?_, ?_, ?_, ?_, ?_⟩ <;>
    (refine cramer_sum_right D _ _ _ _ _ _ _ _ _ hD ?_; rw [hD2]; ring)

/-! ## Claims C1 to C10 -/

/-- C1. For every 4x4 matrix `M` whose cofactor-expansion determinant is not treated as
zero by `Math::IsZero` (with a non-negative threshold), the 4x4 `Inverse` satisfies
`Inverse(M) * M = identity` and `M * Inverse(M) = identity` in exact arithmetic, the
products being the `SquareMatrix` `operator*`. -/
theorem SquareMatrix4.Inverse_mul_cancel (epsilon : K) (h0 : 0 ≤ epsilon) (M : List K)
    (hM : M.length = 16)
    (hdet : Math.IsZero epsilon (SquareMatrix4.Determinant M) = false) :
    SquareMatrix.mul 4 (SquareMatrix4.Inverse epsilon M) M = SquareMatrix4.identity ∧
      SquareMatrix.mul 4 M (SquareMatrix4.Inverse epsilon M) = SquareMatrix4.identity :=
  ⟨SquareMatrix4.inverse_mul_self epsilon h0 M hM hdet,
    SquareMatrix4.self_mul_inverse epsilon h0 M hM hdet⟩

/-- Witness for C1 at the shear-and-scale matrix with rows `(2,1,0,0)`, `(0,1,0,0)`,
`(0,0,1,3)`, `(0,0,0,1)` and threshold `1/1000000`. -/
theorem SquareMatrix4.Inverse_mul_cancel_witness :
    (0 : ℚ) ≤ 1 / 1000000 ∧
    ([2, 1, 0, 0, 0, 1, 0, 0, 0, 0, 1, 3, 0, 0, 0, 1] : List ℚ).length = 16 ∧
    Math.IsZero (1 / 1000000 : ℚ)
      (SquareMatrix4.Determinant [2, 1, 0, 0, 0, 1, 0, 0, 0, 0, 1, 3, 0, 0, 0, 1]) = false ∧
    (SquareMatrix.mul 4
        (SquareMatrix4.Inverse (1 / 1000000 : ℚ) [2, 1, 0, 0, 0, 1, 0, 0, 0, 0, 1, 3, 0, 0, 0, 1])
        [2, 1, 0, 0, 0, 1, 0, 0, 0, 0, 1, 3, 0, 0, 0, 1] = SquareMatrix4.identity ∧
      SquareMatrix.mul 4 [2, 1, 0, 0, 0, 1, 0, 0, 0, 0, 1, 3, 0, 0, 0, 1]
        (SquareMatrix4.Inverse (1 / 1000000 : ℚ) [2, 1, 0, 0, 0, 1, 0, 0, 0, 0, 1, 3, 0, 0, 0, 1])
        = SquareMatrix4.identity) :=
  ⟨by norm_num, by decide, by with_unfolding_all decide,
    SquareMatrix4.Inverse_mul_cancel (1 / 1000000 : ℚ) (by norm_num)
      [2, 1, 0, 0, 0, 1, 0, 0, 0, 0, 1, 3, 0, 0, 0, 1] (by decide)
      (by with_unfolding_all decide)⟩

/-- C2 (evaluation at the failing input). On the 3x3 identity matrix, whose determinant
`1` is not treated as zero, the 3x3 `Inverse` returns the matrix with rows `(1,0,1)`,
`(0,1,0)`, `(0,0,1)`: entry `data[2]` receives the cofactor meant for `data[8]`.  So
`Inverse(identity)` is not the identity and `Inverse(identity) * identity` is not either. -/
theorem SquareMatrix3.Inverse_identity_eval :
    Math.IsZero (1 / 1000000 : ℚ) (SquareMatrix3.Determinant SquareMatrix3.identity) = false ∧
    SquareMatrix3.Inverse (1 / 1000000 : ℚ) SquareMatrix3.identity
      = [1, 0, 1, 0, 1, 0, 0, 0, 1] ∧
    SquareMatrix3.Inverse (1 / 1000000 : ℚ) SquareMatrix3.identity ≠ SquareMatrix3.identity ∧
    SquareMatrix.mul 3 (SquareMatrix3.Inverse (1 / 1000000 : ℚ) SquareMatrix3.identity)
      SquareMatrix3.identity ≠ SquareMatrix3.identity := by
  refine ⟨?_, ?_, ?_, ?_⟩ <;> with_unfolding_all decide

/-- C3 (evaluation at the failing input). The 2x2 matrix with rows `(0,2)`, `(1,0)` is
invertible (its inverse has rows `(0,1)`, `(1/2,0)`) and needs a row swap at the first
pivot.  The generic Gauss-Jordan `Inverse` returns it unchanged (`TryInvert` undoes the
swap inside the pivot loop and then meets a zero pivot), so `Inverse(M) * M` and
`M * Inverse(M)` are `2 * identity`, not the identity. -/
theorem SquareMatrix.Inverse_swap_eval :
    SquareMatrix.mul 2 [0, 1, 1 / 2, 0] [0, 2, 1, 0] = (SquareMatrix.Identity 2 : List ℚ) ∧
    interior.SizedSquareMatrixOperator.TryInvert (1 / 1000000 : ℚ) 2 2 [0, 2, 1, 0] = none ∧
    SquareMatrix.Inverse (1 / 1000000 : ℚ) 2 [0, 2, 1, 0] = [0, 2, 1, 0] ∧
    SquareMatrix.mul 2 (SquareMatrix.Inverse (1 / 1000000 : ℚ) 2 [0, 2, 1, 0]) [0, 2, 1, 0]
      = [2, 0, 0, 2] ∧
    SquareMatrix.mul 2 [0, 2, 1, 0] (SquareMatrix.Inverse (1 / 1000000 : ℚ) 2 [0, 2, 1, 0])
      = [2, 0, 0, 2] ∧
    (SquareMatrix.Identity 2 : List ℚ) = [1, 0, 0, 1] := by
  refine ⟨?_, ?_, ?_, ?_, ?_, ?_⟩ <;> with_unfolding_all decide

/-- C4 (evaluation at the failing input). The singular 2x2 matrix with rows `(1,2)`,
`(2,4)` is not returned unchanged by the generic Gauss-Jordan `Inverse`: `TryInvert`
reports success and the result has rows `(1,2)`, `(-2,0)`. -/
theorem SquareMatrix.Inverse_singular_eval :
    interior.SizedSquareMatrixOperator.TryInvert (1 / 1000000 : ℚ) 2 2 [1, 2, 2, 4]
      = some [1, 2, -2, 0] ∧
    SquareMatrix.Inverse (1 / 1000000 : ℚ) 2 [1, 2, 2, 4] = [1, 2, -2, 0] ∧
    SquareMatrix.Inverse (1 / 1000000 : ℚ) 2 [1, 2, 2, 4] ≠ [1, 2, 2, 4] := by
  refine ⟨?_, ?_, ?_⟩ <;> with_unfolding_all decide

/-- C5. For the 3x3 `Inverse`, the 4x4 `Inverse` and the 4x4 `AffineInverse`: whenever the
cofactor-expansion determinant (of the whole matrix, or of the upper-left 3x3 block for
`AffineInverse`) is treated as zero by `Math::IsZero`, the storage is returned with every
entry unchanged. -/
theorem Inverse_isZero_unchanged (epsilon : K) (M3 M4 : List K) :
    (Math.IsZero epsilon (SquareMatrix3.Determinant M3) = true →
      SquareMatrix3.Inverse epsilon M3 = M3) ∧
    (Math.IsZero epsilon (SquareMatrix4.Determinant M4) = true →
      SquareMatrix4.Inverse epsilon M4 = M4) ∧
    (Math.IsZero epsilon (SquareMatrix3.Determinant (upperLeft3 M4)) = true →
      SquareMatrix4.AffineInverse epsilon M4 = M4) := by
  refine ⟨?_, ?_, ?_⟩
  · intro h
    have e : rd M3 0 * (rd M3 4 * rd M3 8 - rd M3 5 * rd M3 7)
        + rd M3 1 * (rd M3 5 * rd M3 6 - rd M3 3 * rd M3 8)
        + rd M3 2 * (rd M3 3 * rd M3 7 - rd M3 4 * rd M3 6) = SquareMatrix3.Determinant M3 := by
      unfold SquareMatrix3.Determinant
      ring
    simp only [SquareMatrix3.Inverse, e, h, Bool.not_true, Bool.false_eq_true, if_false]
  · intro h
    have e : rd M4 0 * (rd M4 5 * (rd M4 10 * rd M4 15 - rd M4 11 * rd M4 14) - rd M4 6 * (rd M4 9 * rd M4 15 - rd M4 11 * rd M4 13) + rd M4 7 * (rd M4 9 * rd M4 14 - rd M4 10 * rd M4 13))
        + rd M4 1 * -(rd M4 4 * (rd M4 10 * rd M4 15 - rd M4 11 * rd M4 14) - rd M4 6 * (rd M4 8 * rd M4 15 - rd M4 11 * rd M4 12) + rd M4 7 * (rd M4 8 * rd M4 14 - rd M4 10 * rd M4 12))
        + rd M4 2 * (rd M4 4 * (rd M4 9 * rd M4 15 - rd M4 11 * rd M4 13) - rd M4 5 * (rd M4 8 * rd M4 15 - rd M4 11 * rd M4 12) + rd M4 7 * (rd M4 8 * rd M4 13 - rd M4 9 * rd M4 12))
        + rd M4 3 * -(rd M4 4 * (rd M4 9 * rd M4 14 - rd M4 10 * rd M4 13) - rd M4 5 * (rd M4 8 * rd M4 14 - rd M4 10 * rd M4 12) + rd M4 6 * (rd M4 8 * rd M4 13 - rd M4 9 * rd M4 12))
        = SquareMatrix4.Determinant M4 := by
      unfold SquareMatrix4.Determinant
      ring
    simp only [SquareMatrix4.Inverse, e, h, Bool.not_true, Bool.false_eq_true, if_false]
  · intro h
    have e : rd M4 0 * (rd M4 5 * rd M4 10 - rd M4 6 * rd M4 9)
        + rd M4 1 * (rd M4 6 * rd M4 8 - rd M4 4 * rd M4 10)
        + rd M4 2 * (rd M4 4 * rd M4 9 - rd M4 5 * rd M4 8)
        = SquareMatrix3.Determinant (upperLeft3 M4) := by
      simp only [SquareMatrix3.Determinant, upperLeft3, rd, List.getD_cons_zero,
        List.getD_cons_succ]
      ring
    simp only [SquareMatrix4.AffineInverse, e, h, Bool.not_true, Bool.false_eq_true, if_false]

/-- Witness for C5 at the 3x3 matrix with two equal rows and the 4x4 matrix whose upper-left
block has two equal rows (both blocks and the whole 4x4 matrix have determinant zero). -/
theorem Inverse_isZero_unchanged_witness :
    SquareMatrix3.Inverse (1 / 1000000 : ℚ) [1, 2, 3, 1, 2, 3, 0, 0, 1] = [1, 2, 3, 1, 2, 3, 0, 0, 1] ∧
    SquareMatrix4.Inverse (1 / 1000000 : ℚ) [1, 2, 3, 4, 1, 2, 3, 5, 0, 0, 1, 6, 0, 0, 0, 1]
      = [1, 2, 3, 4, 1, 2, 3, 5, 0, 0, 1, 6, 0, 0, 0, 1] ∧
    SquareMatrix4.AffineInverse (1 / 1000000 : ℚ) [1, 2, 3, 4, 1, 2, 3, 5, 0, 0, 1, 6, 0, 0, 0, 1]
      = [1, 2, 3, 4, 1, 2, 3, 5, 0, 0, 1, 6, 0, 0, 0, 1] :=
  ⟨(Inverse_isZero_unchanged (1 / 1000000 : ℚ) [1, 2, 3, 1, 2, 3, 0, 0, 1]
      [1, 2, 3, 4, 1, 2, 3, 5, 0, 0, 1, 6, 0, 0, 0, 1]).1 (by with_unfolding_all decide),
    (Inverse_isZero_unchanged (1 / 1000000 : ℚ) [1, 2, 3, 1, 2, 3, 0, 0, 1]
      [1, 2, 3, 4, 1, 2, 3, 5, 0, 0, 1, 6, 0, 0, 0, 1]).2.1 (by with_unfolding_all decide),
    (Inverse_isZero_unchanged (1 / 1000000 : ℚ) [1, 2, 3, 1, 2, 3, 0, 0, 1]
      [1, 2, 3, 4, 1, 2, 3, 5, 0, 0, 1, 6, 0, 0, 0, 1]).2.2 (by with_unfolding_all decide)⟩

/-- C6 (evaluation at the failing input). On the affine matrix with rows `(1,0,0,1)`,
`(1,1,0,0)`, `(0,0,1,0)`, `(0,0,0,1)` (block determinant `1`, translation `(1,0,0)`)
`AffineInverse` returns the translation column `(-1,-1,0)` where `-R^-1 * t = (-1,1,0)`:
rows 1 and 2 of the translation are computed from the already overwritten `data[3]`,
`data[7]`.  `AffineInverse(M) * M` is not the identity, while the matrix with the
translation column `(-1,1,0)` is the inverse. -/
theorem SquareMatrix4.AffineInverse_eval :
    Math.IsZero (1 / 1000000 : ℚ) (SquareMatrix3.Determinant
      (upperLeft3 [1, 0, 0, 1, 1, 1, 0, 0, 0, 0, 1, 0, 0, 0, 0, 1])) = false ∧
    SquareMatrix4.AffineInverse (1 / 1000000 : ℚ) [1, 0, 0, 1, 1, 1, 0, 0, 0, 0, 1, 0, 0, 0, 0, 1]
      = [1, 0, 0, -1, -1, 1, 0, -1, 0, 0, 1, 0, 0, 0, 0, 1] ∧
    SquareMatrix.mul 4
      (SquareMatrix4.AffineInverse (1 / 1000000 : ℚ) [1, 0, 0, 1, 1, 1, 0, 0, 0, 0, 1, 0, 0, 0, 0, 1])
      [1, 0, 0, 1, 1, 1, 0, 0, 0, 0, 1, 0, 0, 0, 0, 1]
      = [1, 0, 0, 0, 0, 1, 0, -2, 0, 0, 1, 0, 0, 0, 0, 1] ∧
    SquareMatrix.mul 4 [1, 0, 0, -1, -1, 1, 0, 1, 0, 0, 1, 0, 0, 0, 0, 1]
      [1, 0, 0, 1, 1, 1, 0, 0, 0, 0, 1, 0, 0, 0, 0, 1] = (SquareMatrix4.identity : List ℚ) := by
  refine ⟨?_, ?_, ?_, ?_⟩ <;> with_unfolding_all decide

/-- C7 (evaluation at the failing input). On the matrix with rows `(0,-1,0,0)`, `(1,0,0,0)`,
`(0,0,1,0)`, `(0,0,0,1)` and the vector `(1,0,0)`, `TransformVec` and `TransformPoint`
both return `(-1,0,0)`, while the matrix-vector products with `(1,0,0,0)` and `(1,0,0,1)`
are `(0,1,0,0)` and `(0,1,0,1)`: every term of component `i` is multiplied by `vec[i]`. -/
theorem SquareMatrix4.TransformVec_eval :
    SquareMatrix4.TransformVec [0, -1, 0, 0, 1, 0, 0, 0, 0, 0, 1, 0, 0, 0, 0, 1] [1, 0, 0]
      = ([-1, 0, 0] : List ℚ) ∧
    SquareMatrix.mulVec 4 [0, -1, 0, 0, 1, 0, 0, 0, 0, 0, 1, 0, 0, 0, 0, 1] [1, 0, 0, 0]
      = ([0, 1, 0, 0] : List ℚ) ∧
    SquareMatrix4.TransformPoint [0, -1, 0, 0, 1, 0, 0, 0, 0, 0, 1, 0, 0, 0, 0, 1] [1, 0, 0]
      = ([-1, 0, 0] : List ℚ) ∧
    SquareMatrix.mulVec 4 [0, -1, 0, 0, 1, 0, 0, 0, 0, 0, 1, 0, 0, 0, 0, 1] [1, 0, 0, 1]
      = ([0, 1, 0, 1] : List ℚ) := by
  refine ⟨?_, ?_, ?_, ?_⟩ <;> with_unfolding_all decide

/-- C8 (evaluation at the failing input). Over the reals, with the real cosine and sine,
`RotationZ(pi/2)` has rows `(0,-1,0,0)`, `(1,0,0,0)`, `(0,0,1,0)`, `(0,0,0,1)` and
`TransformVec` maps `(1,0,0)` to `(-1,0,0)`, not to `(0,1,0)`. -/
theorem SquareMatrix4.RotationZ_quarter_eval :
    RotationZ4 Real.cos Real.sin (Real.pi / 2)
      = [0, -1, 0, 0, 1, 0, 0, 0, 0, 0, 1, 0, 0, 0, 0, 1] ∧
    SquareMatrix4.TransformVec (RotationZ4 Real.cos Real.sin (Real.pi / 2)) [1, 0, 0]
      = [-1, 0, 0] := by
  constructor <;>
    norm_num [SquareMatrix4.TransformVec, RotationZ4, SquareMatrix4.RotationZ, rd, wr,
      List.replicate]

/-- C9 (evaluation at the failing input). Over the reals, for the unit axis `(3/5, 4/5, 0)`
and the angle `pi`, `TransformVec` applied to the axis itself under `Rotation(axis, angle)`
returns `(51/125, 124/125, 0)`, not the axis. -/
theorem SquareMatrix4.Rotation_axis_eval :
    interior.SizedVectorBase.LengthSq 3 ([3 / 5, 4 / 5, 0] : List ℝ) = 1 ∧
    SquareMatrix4.TransformVec
      (Rotation4 Real.sqrt Real.cos Real.sin [3 / 5, 4 / 5, 0] Real.pi) [3 / 5, 4 / 5, 0]
      = [51 / 125, 124 / 125, 0] := by
  have hlen : interior.SizedVectorBase.LengthSq 3 ([3 / 5, 4 / 5, 0] : List ℝ) = 1 := by
    norm_num [interior.SizedVectorBase.LengthSq, forLoop, forRange, List.range', rd]
  refine ⟨hlen, ?_⟩
  have hnorm : interior.SizedVectorBase.Normalize Real.sqrt 3 ([3 / 5, 4 / 5, 0] : List ℝ)
      = [3 / 5, 4 / 5, 0] := by
    simp only [interior.SizedVectorBase.Normalize, interior.SizedVectorBase.Length, hlen,
      Real.sqrt_one]
    norm_num [interior.SizedVectorBase.divAssignScalar, forLoop, forRange, List.range', rd, wr]
  simp only [Rotation4, SquareMatrix4.Rotation, hnorm]
  norm_num [SquareMatrix4.TransformVec, rd, wr, List.replicate]

/-- C10. For every translation `t` and every 3-vector `p`,
`Translation(t).TransformPoint(p) = p + t` (the `Vector` `operator+`) and
`Translation(t).TransformVec(p) = p`; in particular `Translation((1,2,3))` maps the point
`(0,0,0)` to `(1,2,3)` and the direction `(0,0,0)` to `(0,0,0)`. -/
theorem Translation_transform (t p : List K) (ht : t.length = 3) (hp : p.length = 3) :
    SquareMatrix4.TransformPoint (Translation t) p = Vector.add 3 p t ∧
      SquareMatrix4.TransformVec (Translation t) p = p ∧
      SquareMatrix4.TransformPoint (Translation ([1, 2, 3] : List K)) [0, 0, 0] = [1, 2, 3] ∧
      SquareMatrix4.TransformVec (Translation ([1, 2, 3] : List K)) [0, 0, 0] = [0, 0, 0] := by
  obtain ⟨t0, t1, t2, rfl⟩ := exists_of_length_3 t ht
  obtain ⟨p0, p1, p2, rfl⟩ := exists_of_length_3 p hp
  refine ⟨?_, ?_, ?_, ?_⟩
  · simp [SquareMatrix4.TransformPoint, Translation, SquareMatrix4.Translation, Vector.add,
      interior.SizedVectorBase.addAssign, forLoop, forRange, List.range', rd, wr]
  · simp [SquareMatrix4.TransformVec, Translation, SquareMatrix4.Translation, rd, wr]
  · simp [SquareMatrix4.TransformPoint, Translation, SquareMatrix4.Translation, rd, wr]
  · simp [SquareMatrix4.TransformVec, Translation, SquareMatrix4.Translation, rd, wr]

/-- Witness for C10 at the translation `(4,5,6)` and the point `(1,2,3)`, which is sent
to `(5,7,9)` as a point and to itself as a direction. -/
theorem Translation_transform_witness :
    ([4, 5, 6] : List ℚ).length = 3 ∧ ([1, 2, 3] : List ℚ).length = 3 ∧
    SquareMatrix4.TransformPoint (Translation ([4, 5, 6] : List ℚ)) [1, 2, 3] = [5, 7, 9] ∧
    SquareMatrix4.TransformVec (Translation ([4, 5, 6] : List ℚ)) [1, 2, 3] = [1, 2, 3] := by
  have h := Translation_transform ([4, 5, 6] : List ℚ) [1, 2, 3] (by decide) (by decide)
  refine ⟨by decide, by decide, ?_, h.2.1⟩
  rw [h.1]
  with_unfolding_all decide

/-! ## Lemmas on loops that fill a row-major storage -/

/-- Two `r x c` storages are equal when they agree at every `(i, j)`. -/
theorem rect_ext (r c : Nat) (X Y : List K) (hX : X.length = r * c) (hY : Y.length = r * c)
    (h : ∀ i j, i < r → j < c → rd X (i * c + j) = rd Y (i * c + j)) : X = Y := by
  apply list_ext_rd X Y (by rw [hX, hY])
  intro idx hidx
  rw [hX] at hidx
  have hc : 0 < c := by
    rcases Nat.eq_zero_or_pos c with h0 | h0
    · subst h0; simp at hidx
    · exact h0
  have h1 : idx / c < r := by
    apply Nat.div_lt_of_lt_mul
    rwa [Nat.mul_comm]
  have h2 : idx % c < c := Nat.mod_lt _ hc
  have h3 : idx / c * c + idx % c = idx := by
    rw [Nat.mul_comm]; exact Nat.div_add_mod idx c
  have := h (idx / c) (idx % c) h1 h2
  rwa [h3] at this

/-- One row of a fill loop: the entries `row * cols + col`, `col < m`, receive `g col`. -/
theorem fill_row (row cols : Nat) (g : Nat → K) (p : List K) (m : Nat)
    (hp : row * cols + m ≤ p.length) :
    (forLoop m (fun col q => wr q (row * cols + col) (g col)) p).length = p.length ∧
      ∀ idx, rd (forLoop m (fun col q => wr q (row * cols + col) (g col)) p) idx =
        if row * cols ≤ idx ∧ idx < row * cols + m then g (idx - row * cols) else rd p idx := by
  refine forLoop_invariant (fun m (q : List K) => row * cols + m ≤ p.length →
    (q.length = p.length ∧ ∀ idx, rd q idx =
      if row * cols ≤ idx ∧ idx < row * cols + m then g (idx - row * cols) else rd p idx))
    m _ p ?_ ?_ hp
  · intro _
    refine ⟨rfl, ?_⟩
    intro idx
    rw [if_neg]
    omega
  · intro i q _ ih hi
    obtain ⟨h1, h2⟩ := ih (by omega)
    refine ⟨by simp [length_wr, h1], ?_⟩
    intro idx
    rw [rd_wr, h1]
    by_cases hidx : idx = row * cols + i
    · subst hidx
      have e1 : row * cols + i < p.length := by omega
      have e2 : row * cols ≤ row * cols + i ∧ row * cols + i < row * cols + (i + 1) :=
        ⟨by omega, by omega⟩
      have e3 : row * cols + i - row * cols = i := by omega
      rw [if_pos ⟨rfl, e1⟩, if_pos e2, e3]
    · rw [if_neg (fun h => hidx h.1), h2 idx]
      by_cases hin : row * cols ≤ idx ∧ idx < row * cols + i
      · rw [if_pos hin, if_pos ⟨hin.1, by omega⟩]
      · rw [if_neg hin, if_neg]
        intro h
        apply hin
        exact ⟨h.1, by omega⟩

/-- A doubly nested fill loop over a `rows x cols` storage leaves `f i j` at entry
`(i, j)` and keeps the length. -/
theorem fill_spec (rows cols : Nat) (f : Nat → Nat → K) (p : List K)
    (hp : p.length = rows * cols) :
    (forLoop rows (fun row q =>
        forLoop cols (fun col q => wr q (row * cols + col) (f row col)) q) p).length
      = p.length ∧
      ∀ i j, i < rows → j < cols →
        rd (forLoop rows (fun row q =>
          forLoop cols (fun col q => wr q (row * cols + col) (f row col)) q) p) (i * cols + j)
        = f i j := by
  have key := forLoop_invariant (fun n (q : List K) => n ≤ rows →
      (q.length = p.length ∧ ∀ i j, j < cols →
        rd q (i * cols + j) = if i < n then f i j else rd p (i * cols + j)))
    rows (fun row q => forLoop cols (fun col q => wr q (row * cols + col) (f row col)) q) p
    (by intro _; exact ⟨rfl, by simp⟩)
    (by
      intro n q hn ih _
      obtain ⟨h1, h2⟩ := ih (by omega)
      have hlen : n * cols + cols ≤ q.length := by
        rw [h1, hp]
        have h5 : (n + 1) * cols ≤ rows * cols := Nat.mul_le_mul_right cols hn
        have h6 : (n + 1) * cols = n * cols + cols := by ring
        omega
      obtain ⟨r1, r2⟩ := fill_row n cols (f n) q cols hlen
      refine ⟨by rw [r1, h1], ?_⟩
      intro i j hj
      show rd (forLoop cols (fun col q => wr q (n * cols + col) (f n col)) q) (i * cols + j) = _
      rw [r2 (i * cols + j)]
      by_cases hin : i = n
      · subst hin
        have e1 : i * cols ≤ i * cols + j ∧ i * cols + j < i * cols + cols :=
          ⟨by omega, by omega⟩
        have e2 : i * cols + j - i * cols = j := by omega
        rw [if_pos e1, e2, if_pos (Nat.lt_succ_self i)]
      · have e1 : ¬ (n * cols ≤ i * cols + j ∧ i * cols + j < n * cols + cols) := by
          intro h
          have hj2 : i * cols + j - n * cols < cols := by omega
          have := index_inj hj hj2
            (show i * cols + j = n * cols + (i * cols + j - n * cols) by omega)
          exact hin this.1
        rw [if_neg e1, h2 i j hj]
        by_cases hlt : i < n
        · rw [if_pos hlt, if_pos (by omega)]
        · rw [if_neg hlt, if_neg (by omega)])
  obtain ⟨k1, k2⟩ := key (le_refl rows)
  refine ⟨k1, ?_⟩
  intro i j hi hj
  rw [k2 i j hj, if_pos hi]

/-- What the free `Transpose` returns for an `r x c` storage: a storage of length `c * r`
whose entry `(i, j)` (row stride `r`) is entry `(j, i)` of the argument (row stride `c`). -/
theorem Transpose_spec (r c : Nat) (M : List K) :
    (Transpose r c M).length = c * r ∧
      ∀ i j, i < c → j < r → rd (Transpose r c M) (i * r + j) = rd M (j * c + i) := by
  have h := fill_spec c r (fun row col => rd M (col * c + row)) (List.replicate (c * r) 0)
    (by simp)
  simp only [List.length_replicate] at h
  exact h


/-! ## Lemmas on quaternion interpolation -/

/-- Source-level fact: `Lerp` is `Normalize` applied to the interpolant it builds. -/
theorem Quaternion.Lerp_eq_Normalize (epsilon : K) (sqrt : K → K) (start endQ : Quaternion K)
    (t : K) :
    Quaternion.Lerp epsilon sqrt start endQ t
      = Quaternion.Normalize sqrt (Quaternion.LerpInterpolant epsilon start endQ t) := by
  rfl

/-- Over the reals, `Normalize` of a quaternion with nonzero squared length has length 1. -/
theorem Quaternion.Length_Normalize (v : Quaternion ℝ) (hv : Quaternion.LengthSq v ≠ 0) :
    Quaternion.Length Real.sqrt (Quaternion.Normalize Real.sqrt v) = 1 := by
  obtain ⟨x, y, z, w⟩ := v
  simp only [Quaternion.LengthSq] at hv
  have hS : 0 ≤ x * x + y * y + z * z + w * w := by
    nlinarith [mul_self_nonneg x, mul_self_nonneg y, mul_self_nonneg z, mul_self_nonneg w]
  have hL : Real.sqrt (x * x + y * y + z * z + w * w) ≠ 0 := (Real.sqrt_ne_zero hS).mpr hv
  have hLL := Real.mul_self_sqrt hS
  simp only [Quaternion.Length, Quaternion.Normalize]
  rw [Real.sqrt_eq_one]
  have e : x / Real.sqrt (x * x + y * y + z * z + w * w) * (x / Real.sqrt (x * x + y * y + z * z + w * w))
      + y / Real.sqrt (x * x + y * y + z * z + w * w) * (y / Real.sqrt (x * x + y * y + z * z + w * w))
      + z / Real.sqrt (x * x + y * y + z * z + w * w) * (z / Real.sqrt (x * x + y * y + z * z + w * w))
      + w / Real.sqrt (x * x + y * y + z * z + w * w) * (w / Real.sqrt (x * x + y * y + z * z + w * w))
      = (x * x + y * y + z * z + w * w)
        / (Real.sqrt (x * x + y * y + z * z + w * w) * Real.sqrt (x * x + y * y + z * z + w * w)) := by
    field_simp
  rw [e, hLL, div_self hv]

/-- Over the reals, `Normalize` leaves a quaternion of length 1 unchanged. -/
theorem Quaternion.Normalize_of_unit (v : Quaternion ℝ)
    (hv : Quaternion.Length Real.sqrt v = 1) : Quaternion.Normalize Real.sqrt v = v := by
  obtain ⟨x, y, z, w⟩ := v
  simp only [Quaternion.Length] at hv
  ext <;> simp [Quaternion.Normalize, Quaternion.Length, hv]


/-- Over the reals, the free vector `Normalize` of a 3-vector divides each component by
the square root of the sum of squares. -/
theorem Vector.Normalize_three (a0 a1 a2 : ℝ) :
    Vector.Normalize Real.sqrt 3 [a0, a1, a2]
      = [a0 / Real.sqrt (a0 * a0 + a1 * a1 + a2 * a2),
         a1 / Real.sqrt (a0 * a0 + a1 * a1 + a2 * a2),
         a2 / Real.sqrt (a0 * a0 + a1 * a1 + a2 * a2)] := by
  simp [Vector.Normalize, interior.SizedVectorBase.Normalize, interior.SizedVectorBase.Length,
    interior.SizedVectorBase.LengthSq, interior.SizedVectorBase.divAssignScalar, forLoop,
    forRange, List.range', rd, wr]


/-! ## Claims C11 to C20 -/

/-- C11 (evaluation at the failing input). For the identity quaternion `(0,0,0,1)` and
`v = (1,2,3)`, `Quaternion::Transform` returns `(3,6,9)`, not `v`: the coefficient of `v`
is computed as `2 * (2w) - 1 = 4w - 1`, where the formula needs `(2w) * w - 1 = 2w^2 - 1`. -/
theorem Quaternion.Transform_identity_eval :
    Quaternion.Transform (Quaternion.identity : Quaternion ℚ) [1, 2, 3] = [3, 6, 9] ∧
    Quaternion.Transform (Quaternion.identity : Quaternion ℚ) [1, 2, 3] ≠ [1, 2, 3] ∧
    Quaternion.LengthSq (Quaternion.identity : Quaternion ℚ) = 1 := by
  refine ⟨?_, ?_, ?_⟩ <;> with_unfolding_all decide

/-- C12. The quaternion `operator*` is the Hamilton product: the vector part of `a * b` is
`a.w * b_xyz + b.w * a_xyz + a_xyz x b_xyz` and the scalar part is
`a.w * b.w - a_xyz . b_xyz`; the identity quaternion `(0,0,0,1)` is a two-sided unit; and
the product is not commutative (`i * j` differs from `j * i`). -/
theorem Quaternion.mul_hamilton (a b q : Quaternion K) :
    (Quaternion.mul a b).x = a.w * b.x + b.w * a.x + (a.y * b.z - a.z * b.y) ∧
    (Quaternion.mul a b).y = a.w * b.y + b.w * a.y + (a.z * b.x - a.x * b.z) ∧
    (Quaternion.mul a b).z = a.w * b.z + b.w * a.z + (a.x * b.y - a.y * b.x) ∧
    (Quaternion.mul a b).w = a.w * b.w - (a.x * b.x + a.y * b.y + a.z * b.z) ∧
    Quaternion.mul q Quaternion.identity = q ∧
    Quaternion.mul Quaternion.identity q = q ∧
    Quaternion.mul (⟨1, 0, 0, 0⟩ : Quaternion K) ⟨0, 1, 0, 0⟩
      ≠ Quaternion.mul (⟨0, 1, 0, 0⟩ : Quaternion K) ⟨1, 0, 0, 0⟩ := by
  refine ⟨?_, ?_, ?_, ?_, ?_, ?_, ?_⟩
  · simp only [Quaternion.mul]; ring
  · simp only [Quaternion.mul]; ring
  · simp only [Quaternion.mul]; ring
  · simp only [Quaternion.mul]; ring
  · ext <;> simp [Quaternion.mul, Quaternion.identity]
  · ext <;> simp [Quaternion.mul, Quaternion.identity]
  · intro h
    have hz := congrArg Quaternion.z h
    simp only [Quaternion.mul] at hz
    norm_num at hz

/-- C13. For every quaternion `q` with nonzero squared length, `q * Inverse(q)` and
`Inverse(q) * q` are the identity quaternion, `Inverse(q)` being the conjugate scaled by
the reciprocal of the squared length; and for `q` of squared length `1` (a unit
quaternion), `Inverse(q) = Conjugate(q)`. -/
theorem Quaternion.mul_Inverse_cancel (q : Quaternion K) :
    (Quaternion.LengthSq q ≠ 0 →
      Quaternion.mul q (Quaternion.Inverse q) = Quaternion.identity ∧
      Quaternion.mul (Quaternion.Inverse q) q = Quaternion.identity ∧
      Quaternion.Inverse q
        = Quaternion.scalarMul (1 / Quaternion.LengthSq q) (Quaternion.Conjugate q)) ∧
    (Quaternion.LengthSq q = 1 → Quaternion.Inverse q = Quaternion.Conjugate q) := by
  obtain ⟨x, y, z, w⟩ := q
  constructor
  · intro h
    simp only [Quaternion.LengthSq] at h
    refine ⟨?_, ?_, ?_⟩
    · ext <;> simp only [Quaternion.mul, Quaternion.Inverse, Quaternion.identity] <;>
        field_simp <;> ring
    · ext <;> simp only [Quaternion.mul, Quaternion.Inverse, Quaternion.identity] <;>
        field_simp <;> ring
    · ext <;> simp only [Quaternion.scalarMul, Quaternion.Inverse, Quaternion.Conjugate,
        Quaternion.LengthSq] <;> ring
  · intro h
    simp only [Quaternion.LengthSq] at h
    ext <;> simp only [Quaternion.Inverse, Quaternion.Conjugate, h] <;> ring

/-- Witness for C13 at `q = (1,2,3,4)` (squared length `30`) and at the unit quaternion
`(3/5, 0, 4/5, 0)`. -/
theorem Quaternion.mul_Inverse_cancel_witness :
    Quaternion.LengthSq (⟨1, 2, 3, 4⟩ : Quaternion ℚ) ≠ 0 ∧
    Quaternion.mul (⟨1, 2, 3, 4⟩ : Quaternion ℚ) (Quaternion.Inverse ⟨1, 2, 3, 4⟩)
      = Quaternion.identity ∧
    Quaternion.mul (Quaternion.Inverse (⟨1, 2, 3, 4⟩ : Quaternion ℚ)) ⟨1, 2, 3, 4⟩
      = Quaternion.identity ∧
    Quaternion.LengthSq (⟨3 / 5, 0, 4 / 5, 0⟩ : Quaternion ℚ) = 1 ∧
    Quaternion.Inverse (⟨3 / 5, 0, 4 / 5, 0⟩ : Quaternion ℚ)
      = Quaternion.Conjugate ⟨3 / 5, 0, 4 / 5, 0⟩ :=
  ⟨by with_unfolding_all decide,
    ((Quaternion.mul_Inverse_cancel (⟨1, 2, 3, 4⟩ : Quaternion ℚ)).1
      (by with_unfolding_all decide)).1,
    ((Quaternion.mul_Inverse_cancel (⟨1, 2, 3, 4⟩ : Quaternion ℚ)).1
      (by with_unfolding_all decide)).2.1,
    by with_unfolding_all decide,
    (Quaternion.mul_Inverse_cancel (⟨3 / 5, 0, 4 / 5, 0⟩ : Quaternion ℚ)).2
      (by with_unfolding_all decide)⟩

/-- C14 (evaluation at the failing input). For `a = (1,0,0,0)` and `b = (0,1,0,0)` the
copying product `a * b` is `(0,0,1,0)` while `a *= b` leaves `(0,0,0,0)` in `a`: the
in-place operator computes `y`, `z`, `w` from the members it has already overwritten. -/
theorem Quaternion.mulAssign_eval :
    Quaternion.mul (⟨1, 0, 0, 0⟩ : Quaternion ℚ) ⟨0, 1, 0, 0⟩ = ⟨0, 0, 1, 0⟩ ∧
    Quaternion.mulAssign (⟨1, 0, 0, 0⟩ : Quaternion ℚ) ⟨0, 1, 0, 0⟩ = ⟨0, 0, 0, 0⟩ ∧
    Quaternion.mulAssign (⟨1, 0, 0, 0⟩ : Quaternion ℚ) ⟨0, 1, 0, 0⟩
      ≠ Quaternion.mul ⟨1, 0, 0, 0⟩ ⟨0, 1, 0, 0⟩ := by
  refine ⟨?_, ?_, ?_⟩ <;> with_unfolding_all decide


/-- C15. Over the reals (real `sqrt`, `acos`, `cos`, `sin`), for every threshold below `2`,
every unit quaternion `q` and every `t` (in particular every `t` in `[0,1]`),
`SlerpOrthonormalBasis(q, q, t)` returns `q`. -/
theorem Quaternion.SlerpOrthonormalBasis_self (epsilon : ℝ) (heps : epsilon < 2)
    (q : Quaternion ℝ) (hq : Quaternion.Length Real.sqrt q = 1) (t : ℝ) :
    Quaternion.SlerpOrthonormalBasis epsilon Real.sqrt Real.arccos Real.cos Real.sin q q t
      = q := by
  have hdot : q.x * q.x + q.y * q.y + q.z * q.z + q.w * q.w = 1 := by
    simpa [Quaternion.Length, Real.sqrt_eq_one] using hq
  have hz : Math.IsZero epsilon ((1 : ℝ) + |1|) = false := by
    simp only [Math.IsZero, abs_one, decide_eq_false_iff_not, not_le]
    norm_num
    exact heps
  have hlerp : Quaternion.Lerp epsilon Real.sqrt q q t = q := by
    rw [Quaternion.Lerp_eq_Normalize]
    have hi : Quaternion.LerpInterpolant epsilon q q t = q := by
      simp only [Quaternion.LerpInterpolant, hdot, hz]
      ext <;> simp
    rw [hi]
    exact Quaternion.Normalize_of_unit q hq
  unfold Quaternion.SlerpOrthonormalBasis
  simp only [hdot, hz]
  rw [if_pos (by norm_num)]
  exact hlerp

/-- Witness for C15 at the threshold `1/1000000`, the unit quaternion `(0,0,0,1)` and
`t = 1/2`. -/
theorem Quaternion.SlerpOrthonormalBasis_self_witness :
    (1 / 1000000 : ℝ) < 2 ∧
    Quaternion.Length Real.sqrt (⟨0, 0, 0, 1⟩ : Quaternion ℝ) = 1 ∧
    Quaternion.SlerpOrthonormalBasis (1 / 1000000 : ℝ) Real.sqrt Real.arccos Real.cos Real.sin
      ⟨0, 0, 0, 1⟩ ⟨0, 0, 0, 1⟩ (1 / 2) = ⟨0, 0, 0, 1⟩ :=
  ⟨by norm_num, by simp [Quaternion.Length],
    Quaternion.SlerpOrthonormalBasis_self (1 / 1000000) (by norm_num) ⟨0, 0, 0, 1⟩
      (by simp [Quaternion.Length]) (1 / 2)⟩

/-- C16 (evaluation at the failing input). Over the reals, for the unit quaternions
`start = (0,0,0,1)` and `end = (3/5,0,0,-4/5)` (dot product `-4/5`, outside the
near-collinear fallback) and `t = 0`, `SlerpAngleWeights` returns `start` while
`SlerpOrthonormalBasis` returns `-start`: the weighted sum is formed from `*this`, the
negated copy `maybeNegStart` is never used. -/
theorem Quaternion.SlerpAngleWeights_eval :
    Quaternion.LengthSq (⟨0, 0, 0, 1⟩ : Quaternion ℝ) = 1 ∧
    Quaternion.LengthSq (⟨3 / 5, 0, 0, -4 / 5⟩ : Quaternion ℝ) = 1 ∧
    Quaternion.Dot (⟨0, 0, 0, 1⟩ : Quaternion ℝ) ⟨3 / 5, 0, 0, -4 / 5⟩ = -4 / 5 ∧
    Quaternion.SlerpAngleWeights (1 / 1000000 : ℝ) Real.sqrt Real.arccos Real.sin
      ⟨0, 0, 0, 1⟩ ⟨3 / 5, 0, 0, -4 / 5⟩ 0 = ⟨0, 0, 0, 1⟩ ∧
    Quaternion.SlerpOrthonormalBasis (1 / 1000000 : ℝ) Real.sqrt Real.arccos Real.cos Real.sin
      ⟨0, 0, 0, 1⟩ ⟨3 / 5, 0, 0, -4 / 5⟩ 0 = ⟨0, 0, 0, -1⟩ := by
  have hz : Math.IsZero (1 / 1000000 : ℝ) (0 * (3 / 5) + 0 * 0 + 0 * 0 + 1 * (-4 / 5)
      + |0 * (3 / 5) + 0 * 0 + 0 * 0 + 1 * (-4 / 5)|) = true := by
    have e : (0 : ℝ) * (3 / 5) + 0 * 0 + 0 * 0 + 1 * (-4 / 5) = -(4 / 5) := by norm_num
    rw [e, abs_neg, abs_of_pos (by norm_num : (0 : ℝ) < 4 / 5)]
    simp [Math.IsZero]
  have hd : -((0 : ℝ) * (3 / 5) + 0 * 0 + 0 * 0 + 1 * (-4 / 5)) = 4 / 5 := by norm_num
  have hsin : Real.sin (Real.arccos (4 / 5)) ≠ 0 := by
    rw [Real.sin_arccos, Real.sqrt_ne_zero']
    norm_num
  refine ⟨by norm_num [Quaternion.LengthSq], by norm_num [Quaternion.LengthSq],
    by norm_num [Quaternion.Dot], ?_, ?_⟩
  · unfold Quaternion.SlerpAngleWeights
    simp only [hz, if_true, hd]
    rw [if_neg (by norm_num)]
    ext <;> simp [Quaternion.add, Quaternion.mulScalar, Quaternion.scalarMul, hsin]
  · unfold Quaternion.SlerpOrthonormalBasis
    simp only [hz, if_true, hd]
    rw [if_neg (by norm_num)]
    ext <;> simp [Quaternion.add, Quaternion.mulScalar, Quaternion.scalarMul,
      Quaternion.mulAssignScalar]

/-- C18. Over the reals (real `sqrt`, `cos`, `sin`), `Set(axis, angle)` sets
`(x,y,z) = Normalize(axis) * sin(angle/2)` and `w = cos(angle/2)`, and for every nonzero
3-vector `axis` and every angle the resulting quaternion has length `1`. -/
theorem Quaternion.Set_axis_angle (self : Quaternion ℝ) (axis : List ℝ) (angle : ℝ) :
    (Quaternion.Set Real.sqrt Real.cos Real.sin self axis angle).x
      = rd (Vector.Normalize Real.sqrt 3 axis) 0 * Real.sin (angle / 2) ∧
    (Quaternion.Set Real.sqrt Real.cos Real.sin self axis angle).y
      = rd (Vector.Normalize Real.sqrt 3 axis) 1 * Real.sin (angle / 2) ∧
    (Quaternion.Set Real.sqrt Real.cos Real.sin self axis angle).z
      = rd (Vector.Normalize Real.sqrt 3 axis) 2 * Real.sin (angle / 2) ∧
    (Quaternion.Set Real.sqrt Real.cos Real.sin self axis angle).w = Real.cos (angle / 2) ∧
    (axis.length = 3 → axis ≠ [0, 0, 0] →
      Quaternion.Length Real.sqrt (Quaternion.Set Real.sqrt Real.cos Real.sin self axis angle)
        = 1) := by
  refine ⟨rfl, rfl, rfl, rfl, ?_⟩
  intro haxis hne
  obtain ⟨a0, a1, a2, rfl⟩ := exists_of_length_3 axis haxis
  have hS : a0 * a0 + a1 * a1 + a2 * a2 ≠ 0 := by
    intro h0
    have h1 : a0 = 0 := by nlinarith [mul_self_nonneg a0, mul_self_nonneg a1, mul_self_nonneg a2]
    have h2 : a1 = 0 := by nlinarith [mul_self_nonneg a0, mul_self_nonneg a1, mul_self_nonneg a2]
    have h3 : a2 = 0 := by nlinarith [mul_self_nonneg a0, mul_self_nonneg a1, mul_self_nonneg a2]
    exact hne (by rw [h1, h2, h3])
  have hS0 : 0 ≤ a0 * a0 + a1 * a1 + a2 * a2 := by
    nlinarith [mul_self_nonneg a0, mul_self_nonneg a1, mul_self_nonneg a2]
  have hL : Real.sqrt (a0 * a0 + a1 * a1 + a2 * a2) ≠ 0 := (Real.sqrt_ne_zero hS0).mpr hS
  have hLL := Real.mul_self_sqrt hS0
  have htrig := Real.sin_sq_add_cos_sq (angle / 2)
  simp only [Quaternion.Length, Quaternion.Set, Vector.Normalize_three, rd,
    List.getD_cons_zero, List.getD_cons_succ]
  rw [Real.sqrt_eq_one]
  generalize Real.sqrt (a0 * a0 + a1 * a1 + a2 * a2) = L at hL hLL
  generalize Real.sin (angle / 2) = s at htrig
  generalize Real.cos (angle / 2) = c at htrig
  have e : a0 / L * s * (a0 / L * s) + a1 / L * s * (a1 / L * s) + a2 / L * s * (a2 / L * s)
      + c * c = s ^ 2 * ((a0 * a0 + a1 * a1 + a2 * a2) / (L * L)) + c ^ 2 := by
    field_simp
    ring
  rw [e, hLL, div_self hS, mul_one, htrig]

/-- Witness for C18 at the axis `(0,0,2)` and the angle `pi`: the quaternion is
`(0,0,1,0)` up to the values of the real functions, and its length is `1`. -/
theorem Quaternion.Set_axis_angle_witness :
    ([0, 0, 2] : List ℝ).length = 3 ∧ ([0, 0, 2] : List ℝ) ≠ [0, 0, 0] ∧
    Quaternion.Length Real.sqrt
      (Quaternion.Set Real.sqrt Real.cos Real.sin ⟨0, 0, 0, 1⟩ [0, 0, 2] Real.pi) = 1 :=
  ⟨by simp, by simp,
    (Quaternion.Set_axis_angle ⟨0, 0, 0, 1⟩ [0, 0, 2] Real.pi).2.2.2.2 (by simp) (by simp)⟩

/-- C19 (evaluation at the failing input). For the 2x1 matrix `A = (1; 2)` and the 1x2
matrix `B = (3 4)` the free `operator*` returns the storage `(3, 10, 8, 0)`, where the
row-major 2x2 product is `(3, 4, 6, 8)`: `MatrixMultiply` addresses the result with the
row stride `lhs.cols = 1` instead of `rhs.cols = 2`. -/
theorem Matrix.mul_eval :
    Matrix.mul 2 1 2 ([1, 2] : List ℚ) [3, 4] = [3, 10, 8, 0] ∧
    Matrix.mul 2 1 2 ([1, 2] : List ℚ) [3, 4] ≠ [1 * 3, 1 * 4, 2 * 3, 2 * 4] := by
  refine ⟨?_, ?_⟩ <;> with_unfolding_all decide


/-- C20. For every `r x c` matrix `M`, the free `Transpose` returns the `c x r` storage
whose entry `(i, j)` is `M(j, i)`, and `Transpose(Transpose(M))` equals `M`. -/
theorem Transpose_involutive (r c : Nat) (M : List K) (hM : M.length = r * c) :
    (Transpose r c M).length = c * r ∧
      (∀ i j, i < c → j < r → rd (Transpose r c M) (i * r + j) = rd M (j * c + i)) ∧
      Transpose c r (Transpose r c M) = M := by
  obtain ⟨h1, h2⟩ := Transpose_spec r c M
  obtain ⟨g1, g2⟩ := Transpose_spec c r (Transpose r c M)
  refine ⟨h1, h2, ?_⟩
  apply rect_ext r c _ _ g1 hM
  intro i j hi hj
  rw [g2 i j hi hj, h2 j i hj hi]

/-- Witness for C20 at the 2x3 matrix with rows `(1,2,3)`, `(4,5,6)`, whose transpose is
stored as `(1,4,2,5,3,6)`. -/
theorem Transpose_involutive_witness :
    ([1, 2, 3, 4, 5, 6] : List ℚ).length = 2 * 3 ∧
    Transpose 2 3 ([1, 2, 3, 4, 5, 6] : List ℚ) = [1, 4, 2, 5, 3, 6] ∧
    Transpose 3 2 (Transpose 2 3 ([1, 2, 3, 4, 5, 6] : List ℚ)) = [1, 2, 3, 4, 5, 6] :=
  ⟨by decide, by with_unfolding_all decide,
    (Transpose_involutive 2 3 ([1, 2, 3, 4, 5, 6] : List ℚ) (by decide)).2.2⟩

/-! ## Lemmas on loops that update a storage in place -/

theorem rd_cons_zero (a : K) (l : List K) : rd (a :: l) 0 = a := rfl

theorem rd_cons_succ (a : K) (l : List K) (i : Nat) : rd (a :: l) (i + 1) = rd l i := rfl

/-- An update loop over the entries `b + col`, `col < m`: when the value `G col q` written at
step `col` is `g col` on every storage `q` that holds `g` at the entries written so far and
agrees with `p` elsewhere, the loop leaves `g` at these entries and `p` elsewhere. -/
theorem update_row (b : Nat) (G : Nat → List K → K) (g : Nat → K) (p : List K) (m : Nat)
    (hp : b + m ≤ p.length)
    (hG : ∀ col q, col < m → q.length = p.length →
      (∀ idx, rd q idx = if b ≤ idx ∧ idx < b + col then g (idx - b) else rd p idx) →
      G col q = g col) :
    (forLoop m (fun col q => wr q (b + col) (G col q)) p).length = p.length ∧
      ∀ idx, rd (forLoop m (fun col q => wr q (b + col) (G col q)) p) idx =
        if b ≤ idx ∧ idx < b + m then g (idx - b) else rd p idx := by
  refine forLoop_invariant (fun k (q : List K) => k ≤ m →
    (q.length = p.length ∧ ∀ idx, rd q idx =
      if b ≤ idx ∧ idx < b + k then g (idx - b) else rd p idx))
    m _ p ?_ ?_ (le_refl m)
  · intro _
    refine ⟨rfl, ?_⟩
    intro idx
    rw [if_neg]
    omega
  · intro i q hi ih _
    obtain ⟨h1, h2⟩ := ih (by omega)
    refine ⟨by simp [length_wr, h1], ?_⟩
    intro idx
    rw [rd_wr, h1, hG i q hi h1 h2]
    by_cases hidx : idx = b + i
    · subst hidx
      have e1 : b + i < p.length := by omega
      have e2 : b ≤ b + i ∧ b + i < b + (i + 1) := ⟨by omega, by omega⟩
      have e3 : b + i - b = i := by omega
      rw [if_pos ⟨rfl, e1⟩, if_pos e2, e3]
    · rw [if_neg (fun h => hidx h.1), h2 idx]
      by_cases hin : b ≤ idx ∧ idx < b + i
      · rw [if_pos hin, if_pos ⟨hin.1, by omega⟩]
      · rw [if_neg hin, if_neg]
        intro h
        apply hin
        exact ⟨h.1, by omega⟩

/-- A component-wise update loop `pData[i] = h(pData[i], i)` over a vector storage. -/
theorem map_vec (n : Nat) (h : K → Nat → K) (p : List K) (hp : n ≤ p.length) :
    (forLoop n (fun i q => wr q i (h (rd q i) i)) p).length = p.length ∧
      ∀ idx, rd (forLoop n (fun i q => wr q i (h (rd q i) i)) p) idx =
        if idx < n then h (rd p idx) idx else rd p idx := by
  have key := update_row 0 (fun i q => h (rd q i) i) (fun i => h (rd p i) i) p n (by omega)
    (by
      intro col q _ _ hq
      have := hq col
      rw [if_neg (by omega)] at this
      simp only [this])
  simp only [Nat.zero_add, Nat.zero_le, true_and, Nat.sub_zero] at key
  exact key

/-- An accumulation loop `sum += f(i)` computes the finite sum. -/
theorem sum_loop (n : Nat) (f : Nat → K) (s : K) :
    forLoop n (fun i sum => sum + f i) s = s + ∑ i in Finset.range n, f i := by
  induction n with
  | zero => simp [forLoop_zero]
  | succ n ih => rw [forLoop_succ, ih, Finset.sum_range_succ, add_assoc]

theorem std.max_eq (a b : K) : std.max a b = Max.max a b := by
  unfold std.max
  split_ifs with h
  · exact (max_eq_right h.le).symm
  · exact (max_eq_left (not_lt.mp h)).symm

theorem std.min_eq (a b : K) : std.min a b = Min.min a b := by
  unfold std.min
  split_ifs with h
  · exact (min_eq_right h.le).symm
  · exact (min_eq_left (not_lt.mp h)).symm

namespace interior

namespace SizedVectorBase

theorem addAssign_rd (n : Nat) (p rhs : List K) (hp : n ≤ p.length) :
    (addAssign n p rhs).length = p.length ∧
      ∀ idx, rd (addAssign n p rhs) idx = if idx < n then rd p idx + rd rhs idx else rd p idx :=
  map_vec n (fun x i => x + rd rhs i) p hp

theorem subAssign_rd (n : Nat) (p rhs : List K) (hp : n ≤ p.length) :
    (subAssign n p rhs).length = p.length ∧
      ∀ idx, rd (subAssign n p rhs) idx = if idx < n then rd p idx - rd rhs idx else rd p idx :=
  map_vec n (fun x i => x - rd rhs i) p hp

theorem mulAssignScalar_rd (n : Nat) (p : List K) (scalar : K) (hp : n ≤ p.length) :
    (mulAssignScalar n p scalar).length = p.length ∧
      ∀ idx, rd (mulAssignScalar n p scalar) idx =
        if idx < n then rd p idx * scalar else rd p idx :=
  map_vec n (fun x _ => x * scalar) p hp

theorem divAssignScalar_rd (n : Nat) (p : List K) (scalar : K) (hp : n ≤ p.length) :
    (divAssignScalar n p scalar).length = p.length ∧
      ∀ idx, rd (divAssignScalar n p scalar) idx =
        if idx < n then rd p idx / scalar else rd p idx :=
  map_vec n (fun x _ => x / scalar) p hp

theorem Clamp_rd (n : Nat) (p : List K) (lo hi : K) (hp : n ≤ p.length) :
    (Clamp n p lo hi).length = p.length ∧
      ∀ idx, rd (Clamp n p lo hi) idx =
        if idx < n then std.max lo (std.min (rd p idx) hi) else rd p idx :=
  map_vec n (fun x _ => std.max lo (std.min x hi)) p hp

theorem LengthSq_eq_sum (n : Nat) (p : List K) :
    LengthSq n p = ∑ i in Finset.range n, rd p i * rd p i := by
  unfold LengthSq
  rw [sum_loop, zero_add]

end SizedVectorBase

end interior

/-! ## Lemmas on the closed-form determinants -/

theorem toMatrix_four (M : List K) : toMatrix 4 M =
    Matrix.of ![![rd M 0, rd M 1, rd M 2, rd M 3], ![rd M 4, rd M 5, rd M 6, rd M 7],
      ![rd M 8, rd M 9, rd M 10, rd M 11], ![rd M 12, rd M 13, rd M 14, rd M 15]] := by
  ext i j
  fin_cases i <;> fin_cases j <;> rfl

/-- Expansion of a 4x4 determinant along the first row, each 3x3 minor along its first row. -/
theorem det_four (a b c d e f g h i j k l m n o p : K) :
    (Matrix.of ![![a, b, c, d], ![e, f, g, h], ![i, j, k, l], ![m, n, o, p]]).det
    = a * (f * (k * p - l * o) - g * (j * p - l * n) + h * (j * o - k * n))
    - b * (e * (k * p - l * o) - g * (i * p - l * m) + h * (i * o - k * m))
    + c * (e * (j * p - l * n) - f * (i * p - l * m) + h * (i * n - j * m))
    - d * (e * (j * o - k * n) - f * (i * o - k * m) + g * (i * n - j * m)) := by
  have h1 : Fin.succAbove (1 : Fin 4) (2 : Fin 3) = 3 := by decide
  have h2 : Fin.succAbove (2 : Fin 4) (2 : Fin 3) = 3 := by decide
  have h3 : Fin.castSucc (2 : Fin 3) = (2 : Fin 4) := by decide
  rw [Matrix.det_succ_row_zero]
  simp [Fin.sum_univ_succ, Matrix.det_fin_three, h1, h2, h3]
  ring


/-! ## Lemmas on the generic determinant -/

/-- The generic `Determinant` is the pivot loop over `pivotStep`. -/
theorem Determinant_eq_pivotSteps (epsilon : K) (n : Nat) (p : List K) :
    interior.SizedSquareMatrixOperator.Determinant epsilon n n p =
      match forLoop n (pivotStep epsilon n) (some (p, 1)) with
      | none => 0
      | some (_, runningProduct) => runningProduct := rfl

/-- Loop-invariant rule for `forRange`. -/
theorem forRange_invariant {σ : Type} (P : Nat → σ → Prop) (lo m : Nat) (body : Nat → σ → σ)
    (s : σ) (h0 : P 0 s) (hstep : ∀ i s, i < m → P i s → P (i + 1) (body (lo + i) s)) :
    P m (forRange lo (lo + m) body s) := by
  induction m with
  | zero => simpa [forRange] using h0
  | succ m ih =>
    rw [forRange_succ]
    exact hstep m _ (Nat.lt_succ_self m)
      (ih (fun i s hi hp => hstep i s (Nat.lt_succ_of_lt hi) hp))

/-- The search loop returns a row `maxRow` between `pivot` and `n` whose entry in the pivot
column has the largest absolute value among the rows from `pivot` on. -/
theorem pivotSearch_spec (n : Nat) (p : List K) (k : Nat) (hk : k < n) :
    k ≤ (pivotSearch n p k).1 ∧ (pivotSearch n p k).1 < n ∧
      (pivotSearch n p k).2 = |rd p ((pivotSearch n p k).1 * n + k)| ∧
      ∀ row, k ≤ row → row < n → |rd p (row * n + k)| ≤ (pivotSearch n p k).2 := by
  unfold pivotSearch
  have hn : n = (k + 1) + (n - (k + 1)) := by omega
  have key := forRange_invariant (fun i (s : Nat × K) =>
      k ≤ s.1 ∧ s.1 < k + 1 + i ∧ s.2 = |rd p (s.1 * n + k)| ∧
      ∀ row, k ≤ row → row < k + 1 + i → |rd p (row * n + k)| ≤ s.2)
    (k + 1) (n - (k + 1))
    (fun row (m : Nat × K) =>
      let element := |rd p (row * n + k)|
      if element > m.2 then (row, element) else m)
    (k, |rd p (k * n + k)|)
    (by
      refine ⟨le_refl k, by omega, rfl, ?_⟩
      intro row h1 h2
      have : row = k := by omega
      subst this
      exact le_refl _)
    (by
      intro i s _ ⟨h1, h2, h3, h4⟩
      dsimp only
      by_cases hgt : |rd p ((k + 1 + i) * n + k)| > s.2
      · rw [if_pos hgt]
        refine ⟨by omega, by omega, rfl, ?_⟩
        intro row hr1 hr2
        by_cases hrow : row = k + 1 + i
        · subst hrow
          exact le_refl _
        · exact le_trans (h4 row hr1 (by omega)) (le_of_lt hgt)
      · rw [if_neg hgt]
        refine ⟨h1, by omega, h3, ?_⟩
        intro row hr1 hr2
        by_cases hrow : row = k + 1 + i
        · subst hrow
          exact not_lt.mp hgt
        · exact h4 row hr1 (by omega))
  rw [← hn] at key
  obtain ⟨h1, h2, h3, h4⟩ := key
  exact ⟨h1, by omega, h3, fun row hr1 hr2 => h4 row hr1 (by omega)⟩

/-- Reading entry `(i, j)` after a write at entry `(i2, j2)` of a row-major storage. -/
theorem rd_wr_entry (n : Nat) (l : List K) (i j i2 j2 : Nat) (v : K) (hj : j < n)
    (hj2 : j2 < n) (hl : i2 * n + j2 < l.length) :
    rd (wr l (i2 * n + j2) v) (i * n + j) = if i = i2 ∧ j = j2 then v else rd l (i * n + j) := by
  rw [rd_wr]
  by_cases h : i = i2 ∧ j = j2
  · obtain ⟨h1, h2⟩ := h
    subst h1
    subst h2
    rw [if_pos ⟨rfl, hl⟩, if_pos ⟨rfl, rfl⟩]
  · rw [if_neg h, if_neg]
    intro h2
    exact h (index_inj hj hj2 h2.1)

/-- The index `i * n + j` lies in row `k` exactly when `i = k`. -/
theorem row_range_iff {n i k j : Nat} (hj : j < n) :
    (k * n ≤ i * n + j ∧ i * n + j < k * n + n) ↔ i = k := by
  constructor
  · rintro ⟨h1, h2⟩
    rcases Nat.lt_trichotomy i k with h | h | h
    · exfalso
      have : (i + 1) * n ≤ k * n := Nat.mul_le_mul_right n h
      have e : (i + 1) * n = i * n + n := by ring
      omega
    · exact h
    · exfalso
      have : (k + 1) * n ≤ i * n := Nat.mul_le_mul_right n h
      have e : (k + 1) * n = k * n + n := by ring
      omega
  · intro h
    subst h
    exact ⟨by omega, by omega⟩

/-- The row-swap loop exchanges the rows `k` and `m` and leaves the other rows. -/
theorem swapRows_spec (n : Nat) (p : List K) (k m : Nat) (hp : p.length = n * n)
    (hk : k < n) (hm : m < n) (hkm : m ≠ k) :
    (swapRows n p k m).length = n * n ∧
      ∀ i j, i < n → j < n → rd (swapRows n p k m) (i * n + j)
        = rd p ((if i = k then m else if i = m then k else i) * n + j) := by
  unfold swapRows
  have key := forLoop_invariant (fun c (q : List K) => c ≤ n →
      (q.length = n * n ∧ ∀ i j, i < n → j < n → rd q (i * n + j)
        = if j < c then rd p ((if i = k then m else if i = m then k else i) * n + j)
          else rd p (i * n + j)))
    n
    (fun col pData =>
      let temp := rd pData (k * n + col)
      let pData := wr pData (k * n + col) (rd pData (m * n + col))
      wr pData (m * n + col) temp)
    p
    (by
      intro _
      refine ⟨hp, ?_⟩
      intro i j _ _
      rw [if_neg (by omega)])
    (by
      intro c q hc ih _
      obtain ⟨h1, h2⟩ := ih (by omega)
      dsimp only
      refine ⟨by simp [length_wr, h1], ?_⟩
      intro i j hi hj
      have hkc : k * n + c < q.length := by rw [h1]; exact index_lt hk hc
      have hmc : m * n + c < (wr q (k * n + c) (rd q (m * n + c))).length := by
        rw [length_wr, h1]; exact index_lt hm hc
      rw [rd_wr_entry n _ i j m c _ hj hc hmc, rd_wr_entry n _ i j k c _ hj hc hkc,
        h2 k c hk hc, h2 m c hm hc, h2 i j hi hj, if_neg (lt_irrefl c), if_neg (lt_irrefl c)]
      by_cases hjc : j = c
      · subst hjc
        rw [if_neg (lt_irrefl j), if_pos (Nat.lt_succ_self j)]
        by_cases him : i = m
        · subst him
          rw [if_pos ⟨rfl, rfl⟩, if_neg hkm, if_pos rfl]
        · by_cases hik : i = k
          · subst hik
            rw [if_neg (fun h => him h.1), if_pos ⟨rfl, rfl⟩, if_pos rfl]
          · rw [if_neg (fun h => him h.1), if_neg (fun h => hik h.1), if_neg hik, if_neg him]
      · rw [if_neg (fun h => hjc h.2), if_neg (fun h => hjc h.2)]
        by_cases hlt : j < c
        · rw [if_pos hlt, if_pos (show j < c + 1 by omega)]
        · rw [if_neg hlt, if_neg (show ¬ j < c + 1 by omega)])
  obtain ⟨h1, h2⟩ := key (le_refl n)
  refine ⟨h1, ?_⟩
  intro i j hi hj
  rw [h2 i j hi hj, if_pos hj]

/-- The row-scaling loop multiplies row `k` by `r` and leaves the other rows. -/
theorem scaleRow_spec (n : Nat) (p : List K) (k : Nat) (r : K) (hp : p.length = n * n)
    (hk : k < n) :
    (scaleRow n p k r).length = n * n ∧
      ∀ i j, i < n → j < n → rd (scaleRow n p k r) (i * n + j)
        = if i = k then rd p (k * n + j) * r else rd p (i * n + j) := by
  unfold scaleRow
  have hkn : k * n + n ≤ p.length := by
    have : (k + 1) * n ≤ n * n := Nat.mul_le_mul_right n hk
    have e : (k + 1) * n = k * n + n := by ring
    omega
  obtain ⟨h1, h2⟩ := update_row (k * n) (fun col q => rd q (k * n + col) * r)
    (fun col => rd p (k * n + col) * r) p n hkn
    (by
      intro col q _ _ hq
      have := hq (k * n + col)
      rw [if_neg (by omega)] at this
      simp only [this])
  refine ⟨by rw [h1, hp], ?_⟩
  intro i j _ hj
  rw [h2]
  by_cases hik : i = k
  · subst hik
    rw [if_pos ⟨by omega, by omega⟩, if_pos rfl]
    congr 2
    omega
  · rw [if_neg (fun h => hik ((row_range_iff hj).mp h)), if_neg hik]

/-- The inner elimination loop subtracts `f` times row `k` from row `i`. -/
theorem eliminateRow_spec (n : Nat) (p : List K) (i k : Nat) (f : K) (hp : p.length = n * n)
    (hi : i < n) (hik : i ≠ k) :
    (forLoop n (fun col q =>
        wr q (i * n + col) (rd q (i * n + col) - f * rd q (k * n + col))) p).length = n * n ∧
      ∀ i2 j, i2 < n → j < n →
        rd (forLoop n (fun col q =>
          wr q (i * n + col) (rd q (i * n + col) - f * rd q (k * n + col))) p) (i2 * n + j)
        = if i2 = i then rd p (i * n + j) - f * rd p (k * n + j) else rd p (i2 * n + j) := by
  have hin : i * n + n ≤ p.length := by
    have : (i + 1) * n ≤ n * n := Nat.mul_le_mul_right n hi
    have e : (i + 1) * n = i * n + n := by ring
    omega
  obtain ⟨h1, h2⟩ := update_row (i * n)
    (fun col q => rd q (i * n + col) - f * rd q (k * n + col))
    (fun col => rd p (i * n + col) - f * rd p (k * n + col)) p n hin
    (by
      intro col q hcol _ hq
      have e1 := hq (i * n + col)
      rw [if_neg (by omega)] at e1
      have e2 := hq (k * n + col)
      rw [if_neg (fun h => hik ((row_range_iff hcol).mp ⟨h.1, by omega⟩).symm)] at e2
      simp only [e1, e2])
  refine ⟨by rw [h1, hp], ?_⟩
  intro i2 j _ hj
  rw [h2]
  by_cases h : i2 = i
  · subst h
    rw [if_pos ⟨by omega, by omega⟩, if_pos rfl]
    have e : i2 * n + j - i2 * n = j := by omega
    rw [e]
  · rw [if_neg (fun h2 => h ((row_range_iff hj).mp h2)), if_neg h]

/-- The elimination loop subtracts from every row `i` other than `k` the multiple
`p(i, k)` of row `k`. -/
theorem eliminateColumn_spec (n : Nat) (p : List K) (k : Nat) (hp : p.length = n * n)
    (hk : k < n) :
    (eliminateColumn n p k).length = n * n ∧
      ∀ i j, i < n → j < n → rd (eliminateColumn n p k) (i * n + j)
        = if i = k then rd p (i * n + j)
          else rd p (i * n + j) - rd p (i * n + k) * rd p (k * n + j) := by
  unfold eliminateColumn
  have key := forLoop_invariant (fun r (q : List K) => r ≤ n →
      (q.length = n * n ∧ ∀ i j, i < n → j < n → rd q (i * n + j)
        = if i < r ∧ i ≠ k then rd p (i * n + j) - rd p (i * n + k) * rd p (k * n + j)
          else rd p (i * n + j)))
    n
    (fun row pData =>
      if row = k then pData
      else
        let factor := rd pData (row * n + k)
        forLoop n (fun col pData =>
          wr pData (row * n + col)
            (rd pData (row * n + col) - factor * rd pData (k * n + col))) pData)
    p
    (by
      intro _
      refine ⟨hp, ?_⟩
      intro i j _ _
      rw [if_neg (by omega)])
    (by
      intro r q hr ih _
      obtain ⟨h1, h2⟩ := ih (by omega)
      dsimp only
      by_cases hrk : r = k
      · rw [if_pos hrk]
        refine ⟨h1, ?_⟩
        intro i j hi hj
        rw [h2 i j hi hj]
        by_cases hc : i < r ∧ i ≠ k
        · rw [if_pos hc, if_pos (show i < r + 1 ∧ i ≠ k from ⟨by omega, hc.2⟩)]
        · rw [if_neg hc, if_neg]
          intro h
          apply hc
          refine ⟨?_, h.2⟩
          have := h.2
          have := h.1
          omega
      · rw [if_neg hrk]
        obtain ⟨e1, e2⟩ := eliminateRow_spec n q r k (rd q (r * n + k)) h1 hr hrk
        refine ⟨e1, ?_⟩
        intro i j hi hj
        rw [e2 i j hi hj]
        by_cases hir : i = r
        · subst hir
          rw [if_pos rfl, h2 i j hi hj, h2 i k hi hk, h2 k j hk hj,
            if_neg (fun h => lt_irrefl i h.1), if_neg (fun h => lt_irrefl i h.1),
            if_neg (fun h => h.2 rfl), if_pos ⟨Nat.lt_succ_self i, hrk⟩]
        · rw [if_neg hir, h2 i j hi hj]
          by_cases hc : i < r ∧ i ≠ k
          · rw [if_pos hc, if_pos (show i < r + 1 ∧ i ≠ k from ⟨by omega, hc.2⟩)]
          · rw [if_neg hc, if_neg]
            intro h
            apply hc
            exact ⟨by have := h.1; omega, h.2⟩)
  obtain ⟨h1, h2⟩ := key (le_refl n)
  refine ⟨h1, ?_⟩
  intro i j hi hj
  rw [h2 i j hi hj]
  by_cases hik : i = k
  · rw [if_neg (fun h => h.2 hik), if_pos hik]
  · rw [if_pos ⟨hi, hik⟩, if_neg hik]

theorem toMatrix_apply (n : Nat) (p : List K) (i j : Fin n) :
    toMatrix n p i j = rd p (i.val * n + j.val) := rfl

/-- Exchanging two rows of the storage multiplies the determinant by `-1`. -/
theorem det_swapRows (n : Nat) (p q : List K) (k m : Nat) (hk : k < n) (hm : m < n)
    (h : ∀ i j, i < n → j < n →
      rd q (i * n + j) = rd p ((if i = k then m else if i = m then k else i) * n + j)) :
    (toMatrix n q).det = (if m = k then 1 else -1) * (toMatrix n p).det := by
  have e : toMatrix n q = (toMatrix n p).submatrix (Equiv.swap ⟨k, hk⟩ ⟨m, hm⟩) id := by
    ext i j
    rw [Matrix.submatrix_apply, toMatrix_apply, toMatrix_apply, h i.val j.val i.2 j.2]
    have : (Equiv.swap (⟨k, hk⟩ : Fin n) ⟨m, hm⟩ i).val
        = if i.val = k then m else if i.val = m then k else i.val := by
      rw [Equiv.swap_apply_def]
      split_ifs <;> simp_all [Fin.ext_iff]
    rw [this]
    rfl
  rw [e, Matrix.det_permute, Equiv.Perm.sign_swap']
  by_cases hmk : m = k
  · subst hmk
    simp
  · have : ¬ (⟨k, hk⟩ : Fin n) = ⟨m, hm⟩ := by
      intro h2
      exact hmk (Fin.mk.inj_iff.mp h2).symm
    rw [if_neg this, if_neg hmk]
    simp

/-- Multiplying a row of the storage by `r` multiplies the determinant by `r`. -/
theorem det_scaleRow (n : Nat) (p q : List K) (k : Nat) (r : K) (hk : k < n)
    (h : ∀ i j, i < n → j < n →
      rd q (i * n + j) = if i = k then rd p (k * n + j) * r else rd p (i * n + j)) :
    (toMatrix n q).det = r * (toMatrix n p).det := by
  have e : toMatrix n q
      = Matrix.updateRow (toMatrix n p) ⟨k, hk⟩ (r • (toMatrix n p) ⟨k, hk⟩) := by
    ext i j
    rw [Matrix.updateRow_apply, toMatrix_apply, h i.val j.val i.2 j.2]
    by_cases hik : i.val = k
    · have : i = ⟨k, hk⟩ := Fin.ext hik
      rw [if_pos hik, if_pos this, Pi.smul_apply, toMatrix_apply, smul_eq_mul, mul_comm]
    · have : ¬ i = ⟨k, hk⟩ := fun h2 => hik (congrArg Fin.val h2)
      rw [if_neg hik, if_neg this, toMatrix_apply]
  rw [e, Matrix.det_updateRow_smul, Matrix.updateRow_eq_self]

/-- Subtracting multiples of row `k` from the other rows keeps the determinant. -/
theorem det_eliminateColumn (n : Nat) (p q : List K) (k : Nat) (hk : k < n)
    (h : ∀ i j, i < n → j < n →
      rd q (i * n + j) = if i = k then rd p (i * n + j)
        else rd p (i * n + j) - rd p (i * n + k) * rd p (k * n + j)) :
    (toMatrix n q).det = (toMatrix n p).det := by
  apply Matrix.det_eq_of_forall_row_eq_smul_add_const
    (fun i : Fin n => if i = ⟨k, hk⟩ then 0 else - toMatrix n p i ⟨k, hk⟩) ⟨k, hk⟩
    (by simp)
  intro i j
  rw [toMatrix_apply, h i.val j.val i.2 j.2]
  by_cases hik : i.val = k
  · have : i = ⟨k, hk⟩ := Fin.ext hik
    rw [if_pos hik, if_pos this, toMatrix_apply]
    ring
  · have : ¬ i = ⟨k, hk⟩ := fun h2 => hik (congrArg Fin.val h2)
    rw [if_neg hik, if_neg this, toMatrix_apply, toMatrix_apply, toMatrix_apply]
    ring

/-- A matrix whose columns before `k` are unit vectors and whose column `k` vanishes
from row `k` on has determinant zero. -/
theorem det_eq_zero_of_unit_columns (n : Nat) (A : Matrix (Fin n) (Fin n) K) (k : Fin n)
    (hcol : ∀ i j : Fin n, j < k → A i j = if i = j then 1 else 0)
    (hz : ∀ i : Fin n, k ≤ i → A i k = 0) : A.det = 0 := by
  apply Matrix.exists_mulVec_eq_zero_iff.mp
  refine ⟨fun j => if j < k then A j k else if j = k then -1 else 0, ?_, ?_⟩
  · intro h
    have := congrFun h k
    simp at this
  · funext i
    rw [Matrix.mulVec, Matrix.dotProduct, Pi.zero_apply]
    have hterm : ∀ j : Fin n, A i j * (if j < k then A j k else if j = k then -1 else 0)
        = (if i = j then (if j < k then A j k else 0) else 0)
          + (if k = j then - A i k else 0) := by
      intro j
      by_cases hjk : j < k
      · have hne : ¬ k = j := fun h => (lt_irrefl _ (h ▸ hjk))
        rw [if_pos hjk, hcol i j hjk, if_pos hjk, if_neg hne]
        by_cases hij : i = j
        · rw [if_pos hij, if_pos hij]; ring
        · rw [if_neg hij, if_neg hij]; ring
      · rw [if_neg hjk, if_neg hjk]
        by_cases hkj : j = k
        · subst hkj
          rw [if_pos rfl, if_pos rfl]
          simp
        · have hne : ¬ k = j := fun h => hkj h.symm
          rw [if_neg hkj, if_neg hne]
          simp
    rw [Finset.sum_congr rfl (fun j _ => hterm j), Finset.sum_add_distrib,
      Finset.sum_ite_eq, Finset.sum_ite_eq]
    simp only [Finset.mem_univ, if_true]
    by_cases hik : i < k
    · rw [if_pos hik]; ring
    · rw [if_neg hik, hz i (not_lt.mp hik)]; ring

/-- A storage whose columns are all unit vectors is the identity matrix. -/
theorem toMatrix_eq_one (n : Nat) (p : List K)
    (h : ∀ i j, i < n → j < n → rd p (i * n + j) = if i = j then 1 else 0) :
    toMatrix n p = 1 := by
  ext i j
  rw [toMatrix_apply, h i.val j.val i.2 j.2, Matrix.one_apply]
  by_cases hij : i = j
  · rw [if_pos hij, if_pos (congrArg Fin.val hij)]
  · rw [if_neg hij, if_neg (fun h2 => hij (Fin.ext h2))]

/-- One pivot step with the exact zero test keeps the loop invariant: the running product
times the determinant of the storage is the determinant `D` of the original matrix, and the
columns before the pivot are unit vectors; after an early return `D` is zero. -/
theorem pivotStep_invariant (n k : Nat) (hk : k < n) (p : List K) (rp D : K)
    (hp : p.length = n * n) (hdet : rp * (toMatrix n p).det = D)
    (hcols : ∀ i j, i < n → j < k → rd p (i * n + j) = if i = j then 1 else 0) :
    match pivotStep 0 n k (some (p, rp)) with
    | none => D = 0
    | some (q, rq) => q.length = n * n ∧ rq * (toMatrix n q).det = D ∧
        ∀ i j, i < n → j < k + 1 → rd q (i * n + j) = if i = j then 1 else 0 := by
  obtain ⟨hs1, hs2, hs3, hs4⟩ := pivotSearch_spec n p k hk
  simp only [pivotStep]
  generalize pivotSearch n p k = s at hs1 hs2 hs3 hs4
  obtain ⟨m, maxElem⟩ := s
  dsimp only at hs1 hs2 hs3 hs4 ⊢
  by_cases hz : Math.IsZero 0 maxElem = true
  · rw [if_pos hz]
    dsimp only
    have h0 : maxElem ≤ 0 := by
      have : |maxElem| ≤ 0 := by simpa [Math.IsZero] using hz
      exact le_trans (le_abs_self _) this
    have hdet0 : (toMatrix n p).det = 0 := by
      apply det_eq_zero_of_unit_columns n _ ⟨k, hk⟩
      · intro i j hj
        rw [toMatrix_apply, hcols i.val j.val i.2 hj]
        by_cases hij : i = j
        · rw [if_pos hij, if_pos (congrArg Fin.val hij)]
        · rw [if_neg hij, if_neg (fun h2 => hij (Fin.ext h2))]
      · intro i hi
        rw [toMatrix_apply]
        have := le_trans (hs4 i.val hi i.2) h0
        exact abs_nonpos_iff.mp this
    rw [← hdet, hdet0, mul_zero]
  · rw [if_neg hz]
    dsimp only
    have hpiv : rd p (m * n + k) ≠ 0 := by
      intro h
      apply hz
      rw [hs3, h]
      simp [Math.IsZero]
    -- the storage and the running product after the conditional swap
    have hsw : ∃ p1 rp1, (if m ≠ k then (swapRows n p k m, rp * -1) else (p, rp)) = (p1, rp1) ∧
        p1.length = n * n ∧ rp1 = rp * (if m = k then 1 else -1) ∧
        ∀ i j, i < n → j < n →
          rd p1 (i * n + j) = rd p ((if i = k then m else if i = m then k else i) * n + j) := by
      by_cases hmk : m = k
      · refine ⟨p, rp, by rw [if_neg (not_not.mpr hmk)], hp, by rw [if_pos hmk, mul_one], ?_⟩
        intro i j _ _
        subst hmk
        by_cases him : i = m
        · rw [if_pos him, him]
        · rw [if_neg him, if_neg him]
      · obtain ⟨e1, e2⟩ := swapRows_spec n p k m hp hk hs2 hmk
        exact ⟨swapRows n p k m, rp * -1, by rw [if_pos hmk], e1, by rw [if_neg hmk], e2⟩
    obtain ⟨p1, rp1, hsw1, hl1, hrp1, he1⟩ := hsw
    rw [hsw1]
    dsimp only
    have hkk : rd p1 (k * n + k) = rd p (m * n + k) := by
      rw [he1 k k hk hk, if_pos rfl]
    have hr : (1 / rd p1 (k * n + k)) ≠ 0 := by
      rw [hkk]
      exact one_div_ne_zero hpiv
    have hr1 : rd p1 (k * n + k) * (1 / rd p1 (k * n + k)) = 1 := by
      rw [hkk]
      field_simp
    generalize 1 / rd p1 (k * n + k) = r at hr hr1
    obtain ⟨hl2, he2⟩ := scaleRow_spec n p1 k r hl1 hk
    obtain ⟨hl3, he3⟩ := eliminateColumn_spec n (scaleRow n p1 k r) k hl2 hk
    have hd1 := det_swapRows n p p1 k m hk hs2 he1
    have hd2 := det_scaleRow n p1 (scaleRow n p1 k r) k r hk he2
    have hd3 := det_eliminateColumn n (scaleRow n p1 k r)
      (eliminateColumn n (scaleRow n p1 k r) k) k hk he3
    refine ⟨hl3, ?_, ?_⟩
    · rw [hd3, hd2, hd1, hrp1, ← hdet]
      by_cases hmk : m = k
      · rw [if_pos hmk]
        field_simp
        ring
      · rw [if_neg hmk]
        field_simp
        ring
    · have c1 : ∀ i j, i < n → j < k → rd p1 (i * n + j) = if i = j then 1 else 0 := by
        intro i j hi hj
        rw [he1 i j hi (by omega)]
        by_cases hik : i = k
        · rw [if_pos hik, hcols m j hs2 hj, if_neg (show ¬ m = j by omega),
            if_neg (show ¬ i = j by omega)]
        · rw [if_neg hik]
          by_cases him : i = m
          · rw [if_pos him, hcols k j hk hj, if_neg (show ¬ k = j by omega),
              if_neg (show ¬ i = j by omega)]
          · rw [if_neg him, hcols i j hi hj]
      have c2 : ∀ i j, i < n → j < k → rd (scaleRow n p1 k r) (i * n + j)
          = if i = j then 1 else 0 := by
        intro i j hi hj
        rw [he2 i j hi (by omega)]
        by_cases hik : i = k
        · rw [if_pos hik, c1 k j hk hj, if_neg (show ¬ k = j by omega),
            if_neg (show ¬ i = j by omega), zero_mul]
        · rw [if_neg hik, c1 i j hi hj]
      have c3 : rd (scaleRow n p1 k r) (k * n + k) = 1 := by
        rw [he2 k k hk hk, if_pos rfl, hr1]
      intro i j hi hj
      rw [he3 i j hi (by omega)]
      by_cases hjk : j = k
      · subst hjk
        by_cases hij : i = j
        · subst hij
          rw [if_pos rfl, if_pos rfl, c3]
        · rw [if_neg hij, if_neg hij, c3]
          ring
      · have hj2 : j < k := by omega
        by_cases hik : i = k
        · rw [if_pos hik, c2 i j hi hj2]
        · rw [if_neg hik, c2 i j hi hj2, c2 k j hk hj2, if_neg (show ¬ k = j by omega)]
          ring

/-- With the exact zero test the generic `Determinant` of an `n x n` storage is the
determinant of the stored matrix. -/
theorem interior.SizedSquareMatrixOperator.Determinant_exact (n : Nat) (M : List K) (hM : M.length = n * n) :
    interior.SizedSquareMatrixOperator.Determinant 0 n n M = (toMatrix n M).det := by
  rw [Determinant_eq_pivotSteps]
  have key := forLoop_invariant (fun k (st : Option (List K × K)) => k ≤ n →
      match st with
      | none => (toMatrix n M).det = 0
      | some (q, rq) => q.length = n * n ∧ rq * (toMatrix n q).det = (toMatrix n M).det ∧
          ∀ i j, i < n → j < k → rd q (i * n + j) = if i = j then 1 else 0)
    n (pivotStep 0 n) (some (M, 1))
    (by
      intro _
      exact ⟨hM, one_mul _, fun i j _ hj => absurd hj (Nat.not_lt_zero j)⟩)
    (by
      intro k st hk ih _
      have ih2 := ih (by omega)
      rcases st with _ | ⟨q, rq⟩
      · exact ih2
      · obtain ⟨h1, h2, h3⟩ := ih2
        exact pivotStep_invariant n k hk q rq _ h1 h2 h3)
    (le_refl n)
  rcases hfin : forLoop n (pivotStep 0 n) (some (M, 1)) with _ | ⟨q, rq⟩
  · rw [hfin] at key
    exact key.symm
  · rw [hfin] at key
    obtain ⟨_, h2, h3⟩ := key
    rw [toMatrix_eq_one n q h3, Matrix.det_one, mul_one] at h2
    exact h2

/-! ## Lemmas on the SIMD transform -/

theorem Simd.Transform_lanes (v M : List K) :
    Simd.Transform (Simd.SimdVector3.FromVector3 v) (Simd.SimdMatrix4.FromMatrix4 M) 1
      = [rd v 0 * rd M 0 + rd v 1 * rd M 4 + rd v 2 * rd M 8 + rd M 12,
         rd v 0 * rd M 1 + rd v 1 * rd M 5 + rd v 2 * rd M 9 + rd M 13,
         rd v 0 * rd M 2 + rd v 1 * rd M 6 + rd v 2 * rd M 10 + rd M 14,
         rd v 0 * rd M 3 + rd v 1 * rd M 7 + rd v 2 * rd M 11 + rd M 15] := by
  simp [Simd.Transform, Simd.SimdVector3.FromVector3, Simd.SimdMatrix4.FromMatrix4,
    Simd._mm_set_ps1, Simd._mm_insert_ps, Simd._MM_TRANSPOSE4_PS, Simd._mm_dp_ps,
    Simd._mm_add_ps, Simd._mm_setr_ps, Simd.immBit, Simd.Vector3.x, Simd.Vector3.y,
    Simd.Vector3.z, Simd.Matrix4.mat, rd_cons_zero, rd_cons_succ, wr]
  refine ⟨?_, ?_, ?_, ?_⟩ <;> ring
  
theorem SquareMatrix.vecMul_four (x0 x1 x2 x3 : K) (M : List K) :
    SquareMatrix.vecMul 4 [x0, x1, x2, x3] M
      = [x0 * rd M 0 + x1 * rd M 4 + x2 * rd M 8 + x3 * rd M 12,
         x0 * rd M 1 + x1 * rd M 5 + x2 * rd M 9 + x3 * rd M 13,
         x0 * rd M 2 + x1 * rd M 6 + x2 * rd M 10 + x3 * rd M 14,
         x0 * rd M 3 + x1 * rd M 7 + x2 * rd M 11 + x3 * rd M 15] := by
  simp [SquareMatrix.vecMul, interior.SizedMatrixOperator.RowVecMult, forLoop, forRange,
    List.range', rd_cons_zero, rd_cons_succ, wr, List.replicate]

/-! ## Lemmas on vector interpolation -/

theorem Vector.rd_Lerp (n : Nat) (a b : List K) (t : K) (ha : a.length = n)
    (hb : b.length = n) :
    (Vector.Lerp n a b t).length = n ∧
      ∀ i, i < n → rd (Vector.Lerp n a b t) i = rd a i + (rd b i - rd a i) * t := by
  unfold Vector.Lerp Vector.add Vector.scalarMul Vector.sub
  obtain ⟨l1, e1⟩ := interior.SizedVectorBase.subAssign_rd n b a (by omega)
  obtain ⟨l2, e2⟩ := interior.SizedVectorBase.mulAssignScalar_rd n
    (interior.SizedVectorBase.subAssign n b a) t (by omega)
  obtain ⟨l3, e3⟩ := interior.SizedVectorBase.addAssign_rd n a
    (interior.SizedVectorBase.mulAssignScalar n (interior.SizedVectorBase.subAssign n b a) t)
    (by omega)
  refine ⟨by rw [l3, ha], ?_⟩
  intro i hi
  rw [e3, if_pos hi, e2, if_pos hi, e1, if_pos hi]

/-! ## Claims C21 to C30 -/

/-- C21. The closed-form `Determinant` of the 3x3 and of the 4x4 specialization is the
determinant of the stored matrix (the Leibniz sum over permutations, `Matrix.det`), for
every 3x3 and every 4x4 storage. -/
theorem Determinant_closed_form (M3 M4 : List K) :
    SquareMatrix3.Determinant M3 = (toMatrix 3 M3).det ∧
      SquareMatrix4.Determinant M4 = (toMatrix 4 M4).det := by
  constructor
  · rw [Matrix.det_fin_three]
    simp [toMatrix, SquareMatrix3.Determinant]
    ring
  · rw [toMatrix_four, det_four]
    rfl

/-- C22. `Determinant` of the 4x4 identity built by the free `Identity` is 1, and
`Determinant` of the 3x3 zero matrix built by the free `Zero` is 0. -/
theorem Determinant_identity_zero :
    SquareMatrix4.Determinant (Identity4 : List K) = 1 ∧
      SquareMatrix3.Determinant (Matrix.Zero 3 3 : List K) = 0 := by
  constructor
  · simp [SquareMatrix4.Determinant, Identity4, SquareMatrix4.Identity, rd, wr, List.replicate]
  · simp [SquareMatrix3.Determinant, Matrix.Zero, rd, List.replicate]

/-- C23. For every size `n` and every `n x n` storage `M`, the generic `Determinant`
(Gaussian elimination with partial pivoting on a scratch copy), with `IsZero` the exact test
for zero (threshold 0), is the determinant of the stored matrix. -/
theorem SquareMatrix.Determinant_eq_det (n : Nat) (M : List K) (hM : M.length = n * n) :
    SquareMatrix.Determinant 0 n M = (toMatrix n M).det :=
  interior.SizedSquareMatrixOperator.Determinant_exact n M hM

theorem SquareMatrix.Determinant_eq_det_witness :
    ([0, 2, 1, 1, 1, 1, 2, 0, 3] : List ℚ).length = 3 * 3 ∧
      SquareMatrix.Determinant 0 3 ([0, 2, 1, 1, 1, 1, 2, 0, 3] : List ℚ) = -4 ∧
      SquareMatrix.Determinant 0 3 ([0, 2, 1, 1, 1, 1, 2, 0, 3] : List ℚ)
        = (toMatrix 3 ([0, 2, 1, 1, 1, 1, 2, 0, 3] : List ℚ)).det :=
  ⟨by decide, by with_unfolding_all decide,
    SquareMatrix.Determinant_eq_det 3 ([0, 2, 1, 1, 1, 1, 2, 0, 3] : List ℚ) (by decide)⟩

/-- C24. Index access `v[i]` on a vector of size `n` throws the out-of-range error exactly when
`i >= n`; for `i < n` it returns the stored component `i`, whatever its value. -/
theorem subscript_out_of_range_iff (n : Nat) (v : List K) (i : Nat) :
    ((∃ msg, interior.SizedVectorBase.subscript n v i = Except.error msg) ↔ i ≥ n) ∧
      (i < n → interior.SizedVectorBase.subscript n v i = Except.ok (rd v i)) := by
  unfold interior.SizedVectorBase.subscript
  by_cases h : i ≥ n
  · simp [h]
  · simp [h, not_le.mp h]

theorem subscript_out_of_range_iff_witness :
    (∃ msg, interior.SizedVectorBase.subscript 3 ([5, 6, 7] : List ℚ) 3 = Except.error msg) ∧
      interior.SizedVectorBase.subscript 3 ([5, 6, 7] : List ℚ) 2 = Except.ok 7 :=
  ⟨(subscript_out_of_range_iff 3 ([5, 6, 7] : List ℚ) 3).1.mpr (by decide),
    (subscript_out_of_range_iff 3 ([5, 6, 7] : List ℚ) 2).2 (by decide)⟩

/-- C25. Element access `M(row, col)` on an `r x c` matrix throws the out-of-range error exactly
when `row >= r` or `col >= c`; otherwise it returns the entry stored at `row * c + col`. -/
theorem call_out_of_range_iff (r c : Nat) (M : List K) (row col : Nat) :
    ((∃ msg, Matrix.call r c M row col = Except.error msg) ↔ (row ≥ r ∨ col ≥ c)) ∧
      (row < r → col < c → Matrix.call r c M row col = Except.ok (rd M (row * c + col))) := by
  unfold Matrix.call interior.SizedMatrixOperator.call
  by_cases h : row ≥ r
  · simp [h]
  · by_cases h2 : col ≥ c
    · simp [h, h2]
    · simp [h, h2, not_le.mp h, not_le.mp h2]

theorem call_out_of_range_iff_witness :
    (∃ msg, Matrix.call 2 3 ([1, 2, 3, 4, 5, 6] : List ℚ) 2 0 = Except.error msg) ∧
      (∃ msg, Matrix.call 2 3 ([1, 2, 3, 4, 5, 6] : List ℚ) 0 3 = Except.error msg) ∧
      Matrix.call 2 3 ([1, 2, 3, 4, 5, 6] : List ℚ) 1 2 = Except.ok 6 :=
  ⟨(call_out_of_range_iff 2 3 ([1, 2, 3, 4, 5, 6] : List ℚ) 2 0).1.mpr (by decide),
    (call_out_of_range_iff 2 3 ([1, 2, 3, 4, 5, 6] : List ℚ) 0 3).1.mpr (by decide),
    (call_out_of_range_iff 2 3 ([1, 2, 3, 4, 5, 6] : List ℚ) 1 2).2 (by decide) (by decide)⟩

/-- C26. For vectors `a`, `b` of the same size `n` and every `t`, `Lerp(a, b, t)` has the
component `a_i + t * (b_i - a_i)` at every index `i < n`; hence `Lerp(a, b, 0) = a` and
`Lerp(a, b, 1) = b`. -/
theorem Vector.Lerp_spec (n : Nat) (a b : List K) (t : K) (ha : a.length = n)
    (hb : b.length = n) :
    (Vector.Lerp n a b t).length = n ∧
      (∀ i, i < n → rd (Vector.Lerp n a b t) i = rd a i + t * (rd b i - rd a i)) ∧
      Vector.Lerp n a b 0 = a ∧ Vector.Lerp n a b 1 = b := by
  refine ⟨(Vector.rd_Lerp n a b t ha hb).1, ?_, ?_, ?_⟩
  · intro i hi
    rw [(Vector.rd_Lerp n a b t ha hb).2 i hi, mul_comm]
  · apply list_ext_rd _ _ (by rw [(Vector.rd_Lerp n a b 0 ha hb).1, ha])
    intro i hi
    rw [(Vector.rd_Lerp n a b 0 ha hb).1] at hi
    rw [(Vector.rd_Lerp n a b 0 ha hb).2 i hi]
    ring
  · apply list_ext_rd _ _ (by rw [(Vector.rd_Lerp n a b 1 ha hb).1, hb])
    intro i hi
    rw [(Vector.rd_Lerp n a b 1 ha hb).1] at hi
    rw [(Vector.rd_Lerp n a b 1 ha hb).2 i hi]
    ring

theorem Vector.Lerp_spec_witness :
    ([1, 2, 3] : List ℚ).length = 3 ∧ ([3, 2, 1] : List ℚ).length = 3 ∧
      Vector.Lerp 3 ([1, 2, 3] : List ℚ) [3, 2, 1] 2 = [5, 2, -1] ∧
      Vector.Lerp 3 ([1, 2, 3] : List ℚ) [3, 2, 1] 0 = [1, 2, 3] ∧
      Vector.Lerp 3 ([1, 2, 3] : List ℚ) [3, 2, 1] 1 = [3, 2, 1] :=
  ⟨by decide, by decide, by with_unfolding_all decide,
    (Vector.Lerp_spec 3 ([1, 2, 3] : List ℚ) [3, 2, 1] 2 (by decide) (by decide)).2.2.1,
    (Vector.Lerp_spec 3 ([1, 2, 3] : List ℚ) [3, 2, 1] 2 (by decide) (by decide)).2.2.2⟩

/-- C27. `Clamp(v, min, max)` on a vector of size `n` replaces every component `x` by
`max(min, min(x, max))`; when `min <= max` every component of the result lies in
`[min, max]`, a component already in `[min, max]` is unchanged, and `Saturate(v)` equals
`Clamp(v, 0, 1)`. -/
theorem Vector.Clamp_spec (n : Nat) (v : List K) (lo hi : K) (hv : v.length = n) :
    (Vector.Clamp n v lo hi).length = n ∧
      (∀ i, i < n → rd (Vector.Clamp n v lo hi) i = max lo (min (rd v i) hi)) ∧
      (lo ≤ hi → ∀ i, i < n →
        lo ≤ rd (Vector.Clamp n v lo hi) i ∧ rd (Vector.Clamp n v lo hi) i ≤ hi) ∧
      (∀ i, i < n → lo ≤ rd v i → rd v i ≤ hi → rd (Vector.Clamp n v lo hi) i = rd v i) ∧
      Vector.Saturate n v = Vector.Clamp n v 0 1 := by
  obtain ⟨l1, e1⟩ := interior.SizedVectorBase.Clamp_rd n v lo hi (by omega)
  have e : ∀ i, i < n → rd (Vector.Clamp n v lo hi) i = max lo (min (rd v i) hi) := by
    intro i hi2
    show rd (interior.SizedVectorBase.Clamp n v lo hi) i = _
    rw [e1, if_pos hi2, std.max_eq, std.min_eq]
  refine ⟨l1.trans hv, e, ?_, ?_, rfl⟩
  · intro h i hi2
    rw [e i hi2]
    exact ⟨le_max_left _ _, max_le h (min_le_right _ _)⟩
  · intro i hi2 h1 h2
    rw [e i hi2, min_eq_left h2, max_eq_right h1]

theorem Vector.Clamp_spec_witness :
    ([1, -2, 3] : List ℚ).length = 3 ∧
      Vector.Clamp 3 ([1, -2, 3] : List ℚ) 0 2 = [1, 0, 2] ∧
      Vector.Saturate 3 ([1, -2, 3] : List ℚ) = Vector.Clamp 3 ([1, -2, 3] : List ℚ) 0 1 :=
  ⟨by decide, by with_unfolding_all decide,
    (Vector.Clamp_spec 3 ([1, -2, 3] : List ℚ) 0 2 (by decide)).2.2.2.2⟩

/-- C28. For a real vector `v` of size `n` with nonzero length, `Length(v)` is the square root
of the sum of the squared components, `Normalize(v)` has the component `v_i / Length(v)` at
every index `i < n`, and the length of `Normalize(v)` is 1. -/
theorem Vector.Normalize_unit (n : Nat) (v : List ℝ) (hv : v.length = n)
    (hL : interior.SizedVectorBase.Length Real.sqrt n v ≠ 0) :
    interior.SizedVectorBase.Length Real.sqrt n v
        = Real.sqrt (∑ i in Finset.range n, rd v i * rd v i) ∧
      (∀ i, i < n → rd (Vector.Normalize Real.sqrt n v) i
        = rd v i / interior.SizedVectorBase.Length Real.sqrt n v) ∧
      interior.SizedVectorBase.Length Real.sqrt n (Vector.Normalize Real.sqrt n v) = 1 := by
  have hLen : interior.SizedVectorBase.Length Real.sqrt n v
      = Real.sqrt (∑ i in Finset.range n, rd v i * rd v i) := by
    unfold interior.SizedVectorBase.Length
    rw [interior.SizedVectorBase.LengthSq_eq_sum]
  obtain ⟨_, e1⟩ := interior.SizedVectorBase.divAssignScalar_rd n v
    (interior.SizedVectorBase.Length Real.sqrt n v) (by omega)
  have e : ∀ i, i < n → rd (Vector.Normalize Real.sqrt n v) i
      = rd v i / interior.SizedVectorBase.Length Real.sqrt n v := by
    intro i hi
    show rd (interior.SizedVectorBase.divAssignScalar n v _) i = _
    rw [e1, if_pos hi]
  refine ⟨hLen, e, ?_⟩
  have hS : 0 ≤ ∑ i in Finset.range n, rd v i * rd v i :=
    Finset.sum_nonneg (fun i _ => mul_self_nonneg _)
  have hLL : interior.SizedVectorBase.Length Real.sqrt n v
      * interior.SizedVectorBase.Length Real.sqrt n v
      = ∑ i in Finset.range n, rd v i * rd v i := by
    rw [hLen, Real.mul_self_sqrt hS]
  have hsum : interior.SizedVectorBase.LengthSq n (Vector.Normalize Real.sqrt n v) = 1 := by
    rw [interior.SizedVectorBase.LengthSq_eq_sum]
    have : ∀ i ∈ Finset.range n,
        rd (Vector.Normalize Real.sqrt n v) i * rd (Vector.Normalize Real.sqrt n v) i
        = (rd v i * rd v i) / (interior.SizedVectorBase.Length Real.sqrt n v
            * interior.SizedVectorBase.Length Real.sqrt n v) := by
      intro i hi
      rw [e i (Finset.mem_range.mp hi), div_mul_div_comm]
    rw [Finset.sum_congr rfl this, ← Finset.sum_div, hLL, div_self]
    rw [← hLL]
    exact mul_ne_zero hL hL
  show Real.sqrt (interior.SizedVectorBase.LengthSq n (Vector.Normalize Real.sqrt n v)) = 1
  rw [hsum, Real.sqrt_one]

theorem Vector.Normalize_unit_witness :
    ([0, 1] : List ℝ).length = 2 ∧
      interior.SizedVectorBase.Length Real.sqrt 2 ([0, 1] : List ℝ) ≠ 0 ∧
      interior.SizedVectorBase.Length Real.sqrt 2
        (Vector.Normalize Real.sqrt 2 ([0, 1] : List ℝ)) = 1 :=
  have h : interior.SizedVectorBase.Length Real.sqrt 2 ([0, 1] : List ℝ) ≠ 0 := by
    rw [interior.SizedVectorBase.Length, interior.SizedVectorBase.LengthSq_eq_sum]
    simp [Finset.sum_range_succ, rd]
  ⟨by simp, h, (Vector.Normalize_unit 2 ([0, 1] : List ℝ) (by simp) h).2.2⟩

/-- C29. `Cross(a, b)` is `(a1 b2 - a2 b1, a2 b0 - a0 b2, a0 b1 - a1 b0)`, which is the cross
product of the two 3-vectors, and `Cross(unitX, unitY)` is `unitZ`. -/
theorem Cross_formula (a b : List K) :
    Cross a b = [rd a 1 * rd b 2 - rd a 2 * rd b 1, rd a 2 * rd b 0 - rd a 0 * rd b 2,
      rd a 0 * rd b 1 - rd a 1 * rd b 0] ∧
      (∀ i : Fin 3, rd (Cross a b) i =
        crossProduct (fun k : Fin 3 => rd a k) (fun k : Fin 3 => rd b k) i) ∧
      Cross (Vector3.unitX : List K) Vector3.unitY = Vector3.unitZ := by
  refine ⟨rfl, ?_, ?_⟩
  · intro i
    rw [cross_apply]
    fin_cases i <;> simp [Cross, Vector3.Cross, rd]
  · simp [Cross, Vector3.Cross, Vector3.unitX, Vector3.unitY, Vector3.unitZ, rd]

/-- C30 (counterexample). For the translation matrix by `(1, 2, 3)` and the origin, the
generic `TransformPoint` returns `(1, 2, 3)` while the x, y, z lanes of the SIMD `Transform`
with `w = 1` are `(0, 0, 0)`. -/
theorem Simd.Transform_translation_eval :
    Simd.xyz (Simd.Transform (Simd.SimdVector3.FromVector3 ([0, 0, 0] : List ℚ))
        (Simd.SimdMatrix4.FromMatrix4 (Translation ([1, 2, 3] : List ℚ))) 1) = [0, 0, 0] ∧
      SquareMatrix4.TransformPoint (Translation ([1, 2, 3] : List ℚ)) [0, 0, 0] = [1, 2, 3] ∧
      Simd.xyz (Simd.Transform (Simd.SimdVector3.FromVector3 ([0, 0, 0] : List ℚ))
        (Simd.SimdMatrix4.FromMatrix4 (Translation ([1, 2, 3] : List ℚ))) 1)
        ≠ SquareMatrix4.TransformPoint (Translation ([1, 2, 3] : List ℚ)) [0, 0, 0] := by
  with_unfolding_all decide

/-- C30 (amended). For every 3-vector `v` and every 4x4 matrix `M`, the SIMD `Transform` of
`SimdVector3(v)` by `SimdMatrix4(M)` with `w = 1` is the row-vector product
`(v0, v1, v2, 1) * M` of the generic `operator*(vec, mat)` in all four lanes: lane `j` is
`v0 M(0,j) + v1 M(1,j) + v2 M(2,j) + M(3,j)`. -/
theorem Simd.Transform_eq_vecMul (v M : List K) :
    Simd.Transform (Simd.SimdVector3.FromVector3 v) (Simd.SimdMatrix4.FromMatrix4 M) 1
        = SquareMatrix.vecMul 4 [rd v 0, rd v 1, rd v 2, 1] M ∧
      Simd.xyz (Simd.Transform (Simd.SimdVector3.FromVector3 v)
          (Simd.SimdMatrix4.FromMatrix4 M) 1)
        = [rd v 0 * rd M 0 + rd v 1 * rd M 4 + rd v 2 * rd M 8 + rd M 12,
           rd v 0 * rd M 1 + rd v 1 * rd M 5 + rd v 2 * rd M 9 + rd M 13,
           rd v 0 * rd M 2 + rd v 1 * rd M 6 + rd v 2 * rd M 10 + rd M 14] := by
  rw [Simd.Transform_lanes, SquareMatrix.vecMul_four]
  simp [Simd.xyz, rd_cons_zero, rd_cons_succ]

/-! ## Lemmas on the SIMD cross product and matrix product -/

theorem Simd.shuffler_yzx : Simd._MM_SHUFFLER 1 2 0 3 = 201 := by decide

theorem Simd.shuffler_zxy : Simd._MM_SHUFFLER 2 0 1 3 = 210 := by decide

/-- The register returned by the SIMD `Cross`, lane by lane. -/
theorem Simd.Cross_register (a b : List K) :
    Simd.SimdVector3.Cross a b
      = [rd a 1 * rd b 2 - rd a 2 * rd b 1, rd a 2 * rd b 0 - rd a 0 * rd b 2,
         rd a 0 * rd b 1 - rd a 1 * rd b 0, rd a 3 * rd b 3 - rd a 3 * rd b 3] := by
  simp [Simd.SimdVector3.Cross, Simd.shuffler_yzx, Simd.shuffler_zxy, Simd._mm_shuffle_ps,
    Simd._mm_mul_ps, Simd._mm_sub_ps, rd_cons_zero, rd_cons_succ]

/-- The rows left by the SIMD `Mul` on four receiver rows. -/
theorem Simd.Mul_rows (r0 r1 r2 r3 : List K) (B : List (List K)) :
    Simd.SimdMatrix4.Mul [r0, r1, r2, r3] B
      = [r0, r1, r2, r3].map (fun r =>
          [rd r 0 * rd (B.getD 0 []) 0 + rd r 1 * rd (B.getD 1 []) 0
              + rd r 2 * rd (B.getD 2 []) 0 + rd r 3 * rd (B.getD 3 []) 0,
           rd r 0 * rd (B.getD 0 []) 1 + rd r 1 * rd (B.getD 1 []) 1
              + rd r 2 * rd (B.getD 2 []) 1 + rd r 3 * rd (B.getD 3 []) 1,
           rd r 0 * rd (B.getD 0 []) 2 + rd r 1 * rd (B.getD 1 []) 2
              + rd r 2 * rd (B.getD 2 []) 2 + rd r 3 * rd (B.getD 3 []) 2,
           rd r 0 * rd (B.getD 0 []) 3 + rd r 1 * rd (B.getD 1 []) 3
              + rd r 2 * rd (B.getD 2 []) 3 + rd r 3 * rd (B.getD 3 []) 3]) := by
  simp [Simd.SimdMatrix4.Mul, forLoop, forRange, List.range', Simd._MM_TRANSPOSE4_PS,
    Simd._mm_dp_ps, Simd._mm_add_ps, Simd.immBit, rd_cons_zero, rd_cons_succ]
  refine ⟨⟨?_, ?_, ?_, ?_⟩, ⟨?_, ?_, ?_, ?_⟩, ⟨?_, ?_, ?_, ?_⟩, ⟨?_, ?_, ?_, ?_⟩⟩ <;> ring

/-- Lane `j` of a row of the SIMD product is the sum over `k` of `r(k) * B(k, j)`. -/
theorem Simd.rd_row_product (r : List K) (B : List (List K)) (j : Nat) (hj : j < 4) :
    rd [rd r 0 * rd (B.getD 0 []) 0 + rd r 1 * rd (B.getD 1 []) 0
          + rd r 2 * rd (B.getD 2 []) 0 + rd r 3 * rd (B.getD 3 []) 0,
        rd r 0 * rd (B.getD 0 []) 1 + rd r 1 * rd (B.getD 1 []) 1
          + rd r 2 * rd (B.getD 2 []) 1 + rd r 3 * rd (B.getD 3 []) 1,
        rd r 0 * rd (B.getD 0 []) 2 + rd r 1 * rd (B.getD 1 []) 2
          + rd r 2 * rd (B.getD 2 []) 2 + rd r 3 * rd (B.getD 3 []) 2,
        rd r 0 * rd (B.getD 0 []) 3 + rd r 1 * rd (B.getD 1 []) 3
          + rd r 2 * rd (B.getD 2 []) 3 + rd r 3 * rd (B.getD 3 []) 3] j
      = ∑ k in Finset.range 4, rd r k * rd (B.getD k []) j := by
  interval_cases j <;>
    simp only [Finset.sum_range_succ, Finset.sum_range_zero, rd_cons_zero, rd_cons_succ,
      zero_add]

/-- Lane `j` of row `i` after the SIMD `Mul`. -/
theorem Simd.Mul_entry (A B : List (List K)) (hA : A.length = 4) (i j : Nat) (hi : i < 4)
    (hj : j < 4) :
    rd ((Simd.SimdMatrix4.Mul A B).getD i []) j
      = ∑ k in Finset.range 4, rd (A.getD i []) k * rd (B.getD k []) j := by
  rcases A with _ | ⟨r0, _ | ⟨r1, _ | ⟨r2, _ | ⟨r3, _ | ⟨r4, t⟩⟩⟩⟩⟩ <;>
    simp only [List.length_cons, List.length_nil] at hA <;> try omega
  rw [Simd.Mul_rows]
  interval_cases i
  · exact Simd.rd_row_product r0 B j hj
  · exact Simd.rd_row_product r1 B j hj
  · exact Simd.rd_row_product r2 B j hj
  · exact Simd.rd_row_product r3 B j hj

/-! ## Lemmas on the dot product and the negation of vectors -/

theorem interior.SizedVectorBase.Dot_eq_sum (n : Nat) (p q : List K) :
    interior.SizedVectorBase.Dot n p q = ∑ i in Finset.range n, rd p i * rd q i := by
  unfold interior.SizedVectorBase.Dot
  rw [sum_loop, zero_add]

theorem Vector.neg_three (a0 a1 a2 : K) : Vector.neg 3 [a0, a1, a2] = [-a0, -a1, -a2] := by
  obtain ⟨h1, h2⟩ := interior.SizedVectorBase.mulAssignScalar_rd 3 [a0, a1, a2] (-1)
    (by simp)
  apply list_ext_rd
  · simpa [Vector.neg] using h1
  · intro i hi
    have hi3 : i < 3 := by simpa [Vector.neg, h1] using hi
    show rd (interior.SizedVectorBase.mulAssignScalar 3 [a0, a1, a2] (-1)) i = _
    rw [h2, if_pos hi3]
    interval_cases i <;> simp [rd_cons_zero, rd_cons_succ]

/-! ## Lemmas on the rotation builders -/

/-- Nine consecutive writes fill a storage of length nine. -/
theorem write_nine (d : List K) (hd : d.length = 9) (v0 v1 v2 v3 v4 v5 v6 v7 v8 : K) :
    wr (wr (wr (wr (wr (wr (wr (wr (wr d 0 v0) 1 v1) 2 v2) 3 v3) 4 v4) 5 v5) 6 v6) 7 v7) 8 v8
      = [v0, v1, v2, v3, v4, v5, v6, v7, v8] := by
  obtain ⟨a0, a1, a2, a3, a4, a5, a6, a7, a8, rfl⟩ := exists_of_length_9 d hd
  simp [wr]

/-- Sixteen consecutive writes fill a storage of length sixteen. -/
theorem write_sixteen (d : List K) (hd : d.length = 16)
    (v0 v1 v2 v3 v4 v5 v6 v7 v8 v9 v10 v11 v12 v13 v14 v15 : K) :
    wr (wr (wr (wr (wr (wr (wr (wr (wr (wr (wr (wr (wr (wr (wr (wr d 0 v0) 1 v1) 2 v2) 3 v3)
      4 v4) 5 v5) 6 v6) 7 v7) 8 v8) 9 v9) 10 v10) 11 v11) 12 v12) 13 v13) 14 v14) 15 v15
      = [v0, v1, v2, v3, v4, v5, v6, v7, v8, v9, v10, v11, v12, v13, v14, v15] := by
  obtain ⟨a0, a1, a2, a3, a4, a5, a6, a7, a8, a9, a10, a11, a12, a13, a14, a15, rfl⟩ :=
    exists_of_length_16 d hd
  simp [wr]

/-- The square product of two explicit 3x3 storages, entry by entry. -/
theorem SquareMatrix.mul_three (b0 b1 b2 b3 b4 b5 b6 b7 b8 a0 a1 a2 a3 a4 a5 a6 a7 a8 : K) :
    SquareMatrix.mul 3 [b0, b1, b2, b3, b4, b5, b6, b7, b8] [a0, a1, a2, a3, a4, a5, a6, a7, a8]
      = [b0 * a0 + b1 * a3 + b2 * a6, b0 * a1 + b1 * a4 + b2 * a7, b0 * a2 + b1 * a5 + b2 * a8,
         b3 * a0 + b4 * a3 + b5 * a6, b3 * a1 + b4 * a4 + b5 * a7, b3 * a2 + b4 * a5 + b5 * a8,
         b6 * a0 + b7 * a3 + b8 * a6, b6 * a1 + b7 * a4 + b8 * a7, b6 * a2 + b7 * a5 + b8 * a8] := by
  apply square_ext 3 _ _ (SquareMatrix.length_mul 3 _ _ (by simp)) (by simp)
  intro i j hi hj
  rw [SquareMatrix.rd_mul 3 _ _ (by simp) i j hi hj]
  interval_cases i <;> interval_cases j <;>
    simp only [prodEntry, Finset.sum_range_succ, Finset.sum_range_zero, rd,
      List.getD_cons_zero, List.getD_cons_succ, zero_add, Nat.reduceMul, Nat.reduceAdd]

/-- The free `Transpose` of an explicit 3x3 storage. -/
theorem Transpose_three (a0 a1 a2 a3 a4 a5 a6 a7 a8 : K) :
    Transpose 3 3 [a0, a1, a2, a3, a4, a5, a6, a7, a8] = [a0, a3, a6, a1, a4, a7, a2, a5, a8] := by
  obtain ⟨h1, h2⟩ := Transpose_spec 3 3 [a0, a1, a2, a3, a4, a5, a6, a7, a8]
  apply square_ext 3 _ _ h1 (by simp)
  intro i j hi hj
  rw [h2 i j hi hj]
  interval_cases i <;> interval_cases j <;> rfl

theorem SquareMatrix3.RotationX3_eq (cos sin : K → K) (d : List K) (hd : d.length = 9)
    (angle : K) :
    SquareMatrix3.RotationX cos sin d angle
      = [1, 0, 0, 0, cos angle, -sin angle, 0, sin angle, cos angle] :=
  write_nine d hd _ _ _ _ _ _ _ _ _

theorem SquareMatrix3.RotationY3_eq (cos sin : K → K) (d : List K) (hd : d.length = 9)
    (angle : K) :
    SquareMatrix3.RotationY cos sin d angle
      = [cos angle, 0, sin angle, 0, 1, 0, -sin angle, 0, cos angle] :=
  write_nine d hd _ _ _ _ _ _ _ _ _

theorem SquareMatrix3.RotationZ3_eq (cos sin : K → K) (d : List K) (hd : d.length = 9)
    (angle : K) :
    SquareMatrix3.RotationZ cos sin d angle
      = [cos angle, -sin angle, 0, sin angle, cos angle, 0, 0, 0, 1] :=
  write_nine d hd _ _ _ _ _ _ _ _ _

theorem SquareMatrix4.RotationX4_eq (cos sin : K → K) (d : List K) (hd : d.length = 16)
    (angle : K) :
    SquareMatrix4.RotationX cos sin d angle
      = [1, 0, 0, 0, 0, cos angle, -sin angle, 0, 0, sin angle, cos angle, 0, 0, 0, 0, 1] :=
  write_sixteen d hd _ _ _ _ _ _ _ _ _ _ _ _ _ _ _ _

theorem SquareMatrix4.RotationY4_eq (cos sin : K → K) (d : List K) (hd : d.length = 16)
    (angle : K) :
    SquareMatrix4.RotationY cos sin d angle
      = [cos angle, 0, sin angle, 0, 0, 1, 0, 0, -sin angle, 0, cos angle, 0, 0, 0, 0, 1] :=
  write_sixteen d hd _ _ _ _ _ _ _ _ _ _ _ _ _ _ _ _

theorem SquareMatrix4.RotationZ4_eq (cos sin : K → K) (d : List K) (hd : d.length = 16)
    (angle : K) :
    SquareMatrix4.RotationZ cos sin d angle
      = [cos angle, -sin angle, 0, 0, sin angle, cos angle, 0, 0, 0, 0, 1, 0, 0, 0, 0, 1] :=
  write_sixteen d hd _ _ _ _ _ _ _ _ _ _ _ _ _ _ _ _

/-- The 3x3 matrix built from a quaternion, entry by entry. -/
theorem SquareMatrix3.RotationQuaternion_eq (d : List K) (hd : d.length = 9)
    (q : Quaternion K) :
    SquareMatrix3.RotationQuaternion d q
      = [1 - 2 / (q.x * q.x + q.y * q.y + q.z * q.z + q.w * q.w) * q.y * q.y
            - 2 / (q.x * q.x + q.y * q.y + q.z * q.z + q.w * q.w) * q.z * q.z,
         2 / (q.x * q.x + q.y * q.y + q.z * q.z + q.w * q.w) * q.x * q.y
            - 2 / (q.x * q.x + q.y * q.y + q.z * q.z + q.w * q.w) * q.w * q.z,
         2 / (q.x * q.x + q.y * q.y + q.z * q.z + q.w * q.w) * q.x * q.z
            + 2 / (q.x * q.x + q.y * q.y + q.z * q.z + q.w * q.w) * q.w * q.y,
         2 / (q.x * q.x + q.y * q.y + q.z * q.z + q.w * q.w) * q.x * q.y
            + 2 / (q.x * q.x + q.y * q.y + q.z * q.z + q.w * q.w) * q.w * q.z,
         1 - 2 / (q.x * q.x + q.y * q.y + q.z * q.z + q.w * q.w) * q.x * q.x
            - 2 / (q.x * q.x + q.y * q.y + q.z * q.z + q.w * q.w) * q.z * q.z,
         2 / (q.x * q.x + q.y * q.y + q.z * q.z + q.w * q.w) * q.y * q.z
            - 2 / (q.x * q.x + q.y * q.y + q.z * q.z + q.w * q.w) * q.w * q.x,
         2 / (q.x * q.x + q.y * q.y + q.z * q.z + q.w * q.w) * q.x * q.z
            - 2 / (q.x * q.x + q.y * q.y + q.z * q.z + q.w * q.w) * q.w * q.y,
         2 / (q.x * q.x + q.y * q.y + q.z * q.z + q.w * q.w) * q.y * q.z
            + 2 / (q.x * q.x + q.y * q.y + q.z * q.z + q.w * q.w) * q.w * q.x,
         1 - 2 / (q.x * q.x + q.y * q.y + q.z * q.z + q.w * q.w) * q.x * q.x
            - 2 / (q.x * q.x + q.y * q.y + q.z * q.z + q.w * q.w) * q.y * q.y] :=
  write_nine d hd _ _ _ _ _ _ _ _ _

/-- The rows of the matrix built from a quaternion of nonzero squared length are
orthonormal. -/
theorem SquareMatrix3.RotationQuaternion_orthogonal (d : List K) (hd : d.length = 9)
    (q : Quaternion K) (hq : Quaternion.LengthSq q ≠ 0) :
    SquareMatrix.mul 3 (SquareMatrix3.RotationQuaternion d q)
      (Transpose 3 3 (SquareMatrix3.RotationQuaternion d q)) = SquareMatrix3.identity := by
  obtain ⟨x, y, z, w⟩ := q
  have hN : x * x + y * y + z * z + w * w ≠ 0 := hq
  have hs : 2 / (x * x + y * y + z * z + w * w) * (x * x + y * y + z * z + w * w) = 2 :=
    div_mul_cancel₀ 2 hN
  rw [SquareMatrix3.RotationQuaternion_eq d hd, Transpose_three, SquareMatrix.mul_three]
  dsimp only
  generalize 2 / (x * x + y * y + z * z + w * w) = s at hs
  simp only [SquareMatrix3.identity, List.cons.injEq, and_true]
  refine ⟨?_, ?_, ?_, ?_, ?_, ?_, ?_, ?_, ?_⟩
  · linear_combination (s * (y * y + z * z)) * hs
  · linear_combination (-(s * x * y)) * hs
  · linear_combination (-(s * x * z)) * hs
  · linear_combination (-(s * x * y)) * hs
  · linear_combination (s * (x * x + z * z)) * hs
  · linear_combination (-(s * y * z)) * hs
  · linear_combination (-(s * x * z)) * hs
  · linear_combination (-(s * y * z)) * hs
  · linear_combination (s * (x * x + y * y)) * hs

/-- The matrix built from a quaternion of nonzero squared length has determinant 1. -/
theorem SquareMatrix3.RotationQuaternion_det (d : List K) (hd : d.length = 9)
    (q : Quaternion K) (hq : Quaternion.LengthSq q ≠ 0) :
    SquareMatrix3.Determinant (SquareMatrix3.RotationQuaternion d q) = 1 := by
  obtain ⟨x, y, z, w⟩ := q
  have hN : x * x + y * y + z * z + w * w ≠ 0 := hq
  have hs : 2 / (x * x + y * y + z * z + w * w) * (x * x + y * y + z * z + w * w) = 2 :=
    div_mul_cancel₀ 2 hN
  rw [SquareMatrix3.RotationQuaternion_eq d hd]
  dsimp only
  generalize 2 / (x * x + y * y + z * z + w * w) = s at hs
  simp only [SquareMatrix3.Determinant, rd, List.getD_cons_zero, List.getD_cons_succ]
  linear_combination (s * (x * x + y * y + z * z)) * hs

/-- A vector of size 3 whose squared length is 1 is left unchanged by `Normalize` when the
square root of 1 is 1. -/
theorem interior.SizedVectorBase.Normalize_unit_three (sqrt : K → K) (hsqrt : sqrt 1 = 1)
    (a0 a1 a2 : K) (h : a0 * a0 + a1 * a1 + a2 * a2 = 1) :
    interior.SizedVectorBase.Normalize sqrt 3 [a0, a1, a2] = [a0, a1, a2] := by
  have hL : interior.SizedVectorBase.Length sqrt 3 [a0, a1, a2] = 1 := by
    unfold interior.SizedVectorBase.Length
    rw [interior.SizedVectorBase.LengthSq_eq_sum]
    simp only [Finset.sum_range_succ, Finset.sum_range_zero, rd_cons_zero, rd_cons_succ,
      zero_add]
    rw [h, hsqrt]
  unfold interior.SizedVectorBase.Normalize
  rw [hL]
  obtain ⟨h1, h2⟩ := interior.SizedVectorBase.divAssignScalar_rd 3 [a0, a1, a2] 1 (by simp)
  apply list_ext_rd _ _ h1
  intro i _
  rw [h2, div_one]
  split_ifs <;> rfl

/-! ## Lemmas on the spherical interpolation -/

theorem Quaternion.LengthSq_eq_one_of_Length (q : Quaternion ℝ)
    (h : Quaternion.Length Real.sqrt q = 1) : Quaternion.LengthSq q = 1 := by
  simpa [Quaternion.Length, Quaternion.LengthSq, Real.sqrt_eq_one] using h

theorem Quaternion.Length_eq_one_of_LengthSq (q : Quaternion ℝ)
    (h : Quaternion.LengthSq q = 1) : Quaternion.Length Real.sqrt q = 1 := by
  simpa [Quaternion.Length, Quaternion.LengthSq, Real.sqrt_eq_one] using h

/-- Gram-Schmidt step of the slerp: for unit `m`, `e` with `m . e = d`, the quaternion
`e - m * d` has squared length `1 - d * d` and is orthogonal to `m`. -/
theorem Quaternion.basis_facts (m e : Quaternion ℝ) (d : ℝ)
    (hm : Quaternion.LengthSq m = 1) (he : Quaternion.LengthSq e = 1)
    (hd : Quaternion.Dot m e = d) :
    Quaternion.LengthSq (Quaternion.sub e (Quaternion.mulScalar m d)) = 1 - d * d ∧
      Quaternion.Dot m (Quaternion.sub e (Quaternion.mulScalar m d)) = 0 := by
  obtain ⟨mx, my, mz, mw⟩ := m
  obtain ⟨ex, ey, ez, ew⟩ := e
  simp only [Quaternion.LengthSq, Quaternion.Dot] at hm he hd
  simp only [Quaternion.LengthSq, Quaternion.Dot, Quaternion.sub, Quaternion.mulScalar,
    Quaternion.scalarMul]
  constructor
  · linear_combination he + (d * d) * hm - (2 * d) * hd
  · linear_combination hd - d * hm

/-- The slerp combination of a unit quaternion and the normalized orthogonal basis
quaternion has squared length 1 for every pair of weights on the unit circle. -/
theorem Quaternion.slerp_basis_unit (m e : Quaternion ℝ) (d c s : ℝ)
    (hm : Quaternion.LengthSq m = 1) (he : Quaternion.LengthSq e = 1)
    (hd : Quaternion.Dot m e = d) (hd1 : d * d < 1) (hcs : c * c + s * s = 1) :
    Quaternion.LengthSq (Quaternion.add (Quaternion.mulScalar m c)
      (Quaternion.mulScalar
        (Quaternion.Normalize Real.sqrt (Quaternion.sub e (Quaternion.mulScalar m d))) s)) = 1 := by
  obtain ⟨hb, hmb⟩ := Quaternion.basis_facts m e d hm he hd
  have hb0 : Quaternion.LengthSq (Quaternion.sub e (Quaternion.mulScalar m d)) ≠ 0 := by
    rw [hb]
    linarith
  have hu := Quaternion.LengthSq_eq_one_of_Length _
    (Quaternion.Length_Normalize _ hb0)
  have hmu : Quaternion.Dot m
      (Quaternion.Normalize Real.sqrt (Quaternion.sub e (Quaternion.mulScalar m d))) = 0 := by
    have : Quaternion.Dot m
        (Quaternion.Normalize Real.sqrt (Quaternion.sub e (Quaternion.mulScalar m d)))
        = Quaternion.Dot m (Quaternion.sub e (Quaternion.mulScalar m d))
          / Quaternion.Length Real.sqrt (Quaternion.sub e (Quaternion.mulScalar m d)) := by
      simp only [Quaternion.Dot, Quaternion.Normalize]
      ring
    rw [this, hmb, zero_div]
  generalize Quaternion.Normalize Real.sqrt (Quaternion.sub e (Quaternion.mulScalar m d)) = u
    at hu hmu
  obtain ⟨mx, my, mz, mw⟩ := m
  obtain ⟨ux, uy, uz, uw⟩ := u
  simp only [Quaternion.LengthSq, Quaternion.Dot] at hm hu hmu
  simp only [Quaternion.LengthSq, Quaternion.add, Quaternion.mulScalar, Quaternion.scalarMul]
  linear_combination (c * c) * hm + (2 * c * s) * hmu + (s * s) * hu + hcs

/-- With the weights `d` and `sqrt (1 - d^2)` the slerp combination is the end quaternion. -/
theorem Quaternion.slerp_basis_end (m e : Quaternion ℝ) (d : ℝ)
    (hm : Quaternion.LengthSq m = 1) (he : Quaternion.LengthSq e = 1)
    (hd : Quaternion.Dot m e = d) (hd1 : d * d < 1) :
    Quaternion.add (Quaternion.mulScalar m d)
      (Quaternion.mulScalar
        (Quaternion.Normalize Real.sqrt (Quaternion.sub e (Quaternion.mulScalar m d)))
        (Real.sqrt (1 - d ^ 2))) = e := by
  obtain ⟨hb, _⟩ := Quaternion.basis_facts m e d hm he hd
  have hL : Quaternion.Length Real.sqrt (Quaternion.sub e (Quaternion.mulScalar m d))
      = Real.sqrt (1 - d ^ 2) := by
    have : Quaternion.Length Real.sqrt (Quaternion.sub e (Quaternion.mulScalar m d))
        = Real.sqrt (Quaternion.LengthSq (Quaternion.sub e (Quaternion.mulScalar m d))) := rfl
    rw [this, hb, pow_two]
  have hpos : Real.sqrt (1 - d ^ 2) ≠ 0 := by
    apply Real.sqrt_ne_zero'.mpr
    rw [pow_two]
    linarith
  simp only [Quaternion.Normalize, hL]
  ext <;>
    simp only [Quaternion.add, Quaternion.mulScalar, Quaternion.scalarMul, Quaternion.sub] <;>
    field_simp

/-- Outside the fallback, `SlerpOrthonormalBasis` is the slerp combination of the
sign-adjusted start `m` (with `m . end = d`) and the normalized basis quaternion. -/
theorem Quaternion.SlerpOrthonormalBasis_cases (epsilon : ℝ) (start endQ : Quaternion ℝ)
    (t : ℝ) (hdot : |Quaternion.Dot start endQ| ≤ 9995 / 10000) :
    ∃ m d, Quaternion.LengthSq m = Quaternion.LengthSq start ∧ Quaternion.Dot m endQ = d ∧
      |d| ≤ 9995 / 10000 ∧
      Quaternion.SlerpOrthonormalBasis epsilon Real.sqrt Real.arccos Real.cos Real.sin
        start endQ t
        = Quaternion.add (Quaternion.mulScalar m (Real.cos (t * Real.arccos d)))
            (Quaternion.mulScalar
              (Quaternion.Normalize Real.sqrt (Quaternion.sub endQ (Quaternion.mulScalar m d)))
              (Real.sin (t * Real.arccos d))) := by
  have hdot2 : |start.x * endQ.x + start.y * endQ.y + start.z * endQ.z + start.w * endQ.w|
      ≤ 9995 / 10000 := hdot
  by_cases hz : Math.IsZero epsilon
      ((start.x * endQ.x + start.y * endQ.y + start.z * endQ.z + start.w * endQ.w)
        + |start.x * endQ.x + start.y * endQ.y + start.z * endQ.z + start.w * endQ.w|) = true
  · refine ⟨Quaternion.mulAssignScalar start (-1),
      -(start.x * endQ.x + start.y * endQ.y + start.z * endQ.z + start.w * endQ.w),
      ?_, ?_, ?_, ?_⟩
    · simp only [Quaternion.LengthSq, Quaternion.mulAssignScalar]
      ring
    · simp only [Quaternion.Dot, Quaternion.mulAssignScalar]
      ring
    · rw [abs_neg]
      exact hdot2
    · have hle : ¬ -(start.x * endQ.x + start.y * endQ.y + start.z * endQ.z
          + start.w * endQ.w) > 9995 / 10000 := by
        have := neg_le_abs (start.x * endQ.x + start.y * endQ.y + start.z * endQ.z
          + start.w * endQ.w)
        linarith
      simp only [Quaternion.SlerpOrthonormalBasis, hz, if_true, if_neg hle]
  · refine ⟨start,
      start.x * endQ.x + start.y * endQ.y + start.z * endQ.z + start.w * endQ.w,
      rfl, rfl, hdot2, ?_⟩
    have hle : ¬ (start.x * endQ.x + start.y * endQ.y + start.z * endQ.z
        + start.w * endQ.w) > 9995 / 10000 := by
      have := le_abs_self (start.x * endQ.x + start.y * endQ.y + start.z * endQ.z
        + start.w * endQ.w)
      linarith
    simp only [Quaternion.SlerpOrthonormalBasis, hz, Bool.false_eq_true, if_false, if_neg hle]

theorem Simd.rd32_cons_zero (a : Simd.Lane32) (l : List Simd.Lane32) :
    Simd.rd32 (a :: l) 0 = a := rfl

theorem Simd.rd32_cons_succ (a : Simd.Lane32) (l : List Simd.Lane32) (i : Nat) :
    Simd.rd32 (a :: l) (i + 1) = Simd.rd32 l i := rfl

/-- The w lane of the SIMD `Cross` on binary32 lanes is the difference of the product of the
two w lanes with itself. -/
theorem Simd.F32.Cross_w (a b : List Simd.Lane32) :
    Simd.rd32 (Simd.F32.SimdVector3.Cross a b) 3
      = Simd.Lane32.sub (Simd.Lane32.mul (Simd.rd32 a 3) (Simd.rd32 b 3))
          (Simd.Lane32.mul (Simd.rd32 a 3) (Simd.rd32 b 3)) := by
  simp [Simd.F32.SimdVector3.Cross, Simd.shuffler_yzx, Simd.shuffler_zxy,
    Simd.F32._mm_shuffle_ps, Simd.F32._mm_mul_ps, Simd.F32._mm_sub_ps, Simd.rd32_cons_zero,
    Simd.rd32_cons_succ]

theorem Simd.overflow32_pos : (0 : ℚ) < Simd.overflow32 := by
  unfold Simd.overflow32
  norm_num

/-- A product of finite lanes that stays below the overflow threshold cancels against
itself. -/
theorem Simd.Lane32.sub_mul_self_of_lt (x y : ℚ) (h : |x * y| < Simd.overflow32) :
    Simd.Lane32.sub (Simd.Lane32.mul (Simd.Lane32.finite x) (Simd.Lane32.finite y))
      (Simd.Lane32.mul (Simd.Lane32.finite x) (Simd.Lane32.finite y))
      = Simd.Lane32.finite 0 := by
  have hp := Simd.overflow32_pos
  obtain ⟨h1, h2⟩ := abs_lt.mp h
  have e : Simd.Lane32.mul (Simd.Lane32.finite x) (Simd.Lane32.finite y)
      = Simd.Lane32.finite (x * y) := by
    simp only [Simd.Lane32.mul, Simd.Lane32.ofExact]
    rw [if_neg (not_le.mpr h2), if_neg (not_le.mpr h1)]
  rw [e]
  simp only [Simd.Lane32.sub, Simd.Lane32.ofExact, sub_self]
  rw [if_neg (not_le.mpr hp), if_neg (by linarith)]

/-- A product of finite lanes that reaches the overflow threshold is an infinity, and its
difference with itself is a NaN. -/
theorem Simd.Lane32.sub_mul_self_of_le (x y : ℚ) (h : Simd.overflow32 ≤ |x * y|) :
    Simd.Lane32.sub (Simd.Lane32.mul (Simd.Lane32.finite x) (Simd.Lane32.finite y))
      (Simd.Lane32.mul (Simd.Lane32.finite x) (Simd.Lane32.finite y))
      = Simd.Lane32.nan := by
  have hp := Simd.overflow32_pos
  rcases le_abs'.mp h with h1 | h1
  · have e : Simd.Lane32.mul (Simd.Lane32.finite x) (Simd.Lane32.finite y)
        = Simd.Lane32.negInf := by
      simp only [Simd.Lane32.mul, Simd.Lane32.ofExact]
      rw [if_neg (by linarith), if_pos h1]
    rw [e]
    rfl
  · have e : Simd.Lane32.mul (Simd.Lane32.finite x) (Simd.Lane32.finite y)
        = Simd.Lane32.posInf := by
      simp only [Simd.Lane32.mul, Simd.Lane32.ofExact]
      rw [if_pos h1]
    rw [e]
    rfl

/-! ## Claims C31 to C40 -/

/-- C31 (counterexample). On binary32 lanes with their range, for the registers
`a = b = (0, 0, 0, 2^64)`, whose w lanes are finite, both products of the w lanes overflow to
infinity and the w lane of the SIMD `a.Cross(b)` is a NaN, not 0. -/
theorem Simd.F32.Cross_w_overflow_eval :
    Simd.rd32 (Simd.F32.SimdVector3.Cross
        [Simd.Lane32.finite 0, Simd.Lane32.finite 0, Simd.Lane32.finite 0,
          Simd.Lane32.finite (2 ^ 64)]
        [Simd.Lane32.finite 0, Simd.Lane32.finite 0, Simd.Lane32.finite 0,
          Simd.Lane32.finite (2 ^ 64)]) 3 = Simd.Lane32.nan ∧
      Simd.Lane32.mul (Simd.Lane32.finite (2 ^ 64)) (Simd.Lane32.finite (2 ^ 64))
        = Simd.Lane32.posInf ∧
      Simd.Lane32.nan ≠ Simd.Lane32.finite 0 := by
  have h : Simd.overflow32 ≤ (2 : ℚ) ^ 64 * 2 ^ 64 := by
    unfold Simd.overflow32
    norm_num
  refine ⟨?_, ?_, by simp⟩
  · rw [Simd.F32.Cross_w]
    simp only [Simd.rd32_cons_zero, Simd.rd32_cons_succ]
    exact Simd.Lane32.sub_mul_self_of_le _ _ (le_trans h (le_abs_self _))
  · simp only [Simd.Lane32.mul, Simd.Lane32.ofExact]
    rw [if_pos h]

/-- C31 (amended). For all registers `a` and `b`, with exact lane arithmetic the x, y, z
lanes of the SIMD `a.Cross(b)` are the generic `Cross` of the x, y, z lanes of `a` and `b`
and the w lane is 0.  On binary32 lanes with their range the w lane is the product of the
two w lanes minus itself: for finite w lanes it is 0 when that product stays below the
overflow threshold, and a NaN when the product overflows. -/
theorem Simd.Cross_eq_Cross (a b : List K) (a32 b32 : List Simd.Lane32) (wa wb : ℚ)
    (ha : Simd.rd32 a32 3 = Simd.Lane32.finite wa)
    (hb : Simd.rd32 b32 3 = Simd.Lane32.finite wb) :
    Simd.xyz (Simd.SimdVector3.Cross a b) = Cross (Simd.xyz a) (Simd.xyz b) ∧
      rd (Simd.SimdVector3.Cross a b) 3 = 0 ∧
      (|wa * wb| < Simd.overflow32 →
        Simd.rd32 (Simd.F32.SimdVector3.Cross a32 b32) 3 = Simd.Lane32.finite 0) ∧
      (Simd.overflow32 ≤ |wa * wb| →
        Simd.rd32 (Simd.F32.SimdVector3.Cross a32 b32) 3 = Simd.Lane32.nan) := by
  refine ⟨?_, ?_, ?_, ?_⟩
  · rw [Simd.Cross_register]
    simp [Simd.xyz, Cross, Vector3.Cross, rd_cons_zero, rd_cons_succ]
  · rw [Simd.Cross_register]
    simp [rd_cons_zero, rd_cons_succ]
  · intro h
    rw [Simd.F32.Cross_w, ha, hb]
    exact Simd.Lane32.sub_mul_self_of_lt wa wb h
  · intro h
    rw [Simd.F32.Cross_w, ha, hb]
    exact Simd.Lane32.sub_mul_self_of_le wa wb h

theorem Simd.Cross_eq_Cross_witness :
    Simd.rd32 [Simd.Lane32.finite 1, Simd.Lane32.finite 2, Simd.Lane32.finite 3,
        Simd.Lane32.finite 7] 3 = Simd.Lane32.finite 7 ∧
      Simd.rd32 [Simd.Lane32.finite 4, Simd.Lane32.finite 5, Simd.Lane32.finite 6,
        Simd.Lane32.finite 9] 3 = Simd.Lane32.finite 9 ∧
      Simd.xyz (Simd.SimdVector3.Cross ([1, 2, 3, 7] : List ℚ) [4, 5, 6, 9])
        = Cross (Simd.xyz ([1, 2, 3, 7] : List ℚ)) (Simd.xyz [4, 5, 6, 9]) ∧
      Simd.rd32 (Simd.F32.SimdVector3.Cross
        [Simd.Lane32.finite 1, Simd.Lane32.finite 2, Simd.Lane32.finite 3,
          Simd.Lane32.finite 7]
        [Simd.Lane32.finite 4, Simd.Lane32.finite 5, Simd.Lane32.finite 6,
          Simd.Lane32.finite 9]) 3 = Simd.Lane32.finite 0 :=
  ⟨rfl, rfl,
    (Simd.Cross_eq_Cross ([1, 2, 3, 7] : List ℚ) [4, 5, 6, 9]
      [Simd.Lane32.finite 1, Simd.Lane32.finite 2, Simd.Lane32.finite 3, Simd.Lane32.finite 7]
      [Simd.Lane32.finite 4, Simd.Lane32.finite 5, Simd.Lane32.finite 6, Simd.Lane32.finite 9]
      7 9 rfl rfl).1,
    (Simd.Cross_eq_Cross ([1, 2, 3, 7] : List ℚ) [4, 5, 6, 9]
      [Simd.Lane32.finite 1, Simd.Lane32.finite 2, Simd.Lane32.finite 3, Simd.Lane32.finite 7]
      [Simd.Lane32.finite 4, Simd.Lane32.finite 5, Simd.Lane32.finite 6, Simd.Lane32.finite 9]
      7 9 rfl rfl).2.2.1 (by
        have h : |(7 : ℚ) * 9| = 63 := by norm_num
        rw [h]
        unfold Simd.overflow32
        norm_num)⟩

/-- C32. For all `SimdMatrix4` values `A` and `B` (four row registers each), after
`A.Mul(B)` lane `j` of row `i` is the sum over `k` of `A_old(i,k) * B(k,j)`: the rows hold
the matrix product `A_old * B` (exact lane arithmetic). -/
theorem Simd.Mul_eq_product (A B : List (List K)) (hA : A.length = 4) :
    Simd.rowsToMatrix (Simd.SimdMatrix4.Mul A B) = Simd.rowsToMatrix A * Simd.rowsToMatrix B ∧
      ∀ i j, i < 4 → j < 4 → rd ((Simd.SimdMatrix4.Mul A B).getD i []) j
        = ∑ k in Finset.range 4, rd (A.getD i []) k * rd (B.getD k []) j := by
  refine ⟨?_, fun i j hi hj => Simd.Mul_entry A B hA i j hi hj⟩
  ext i j
  rw [Matrix.mul_apply]
  have e := Fin.sum_univ_eq_sum_range
    (fun k => rd (A.getD i.val []) k * rd (B.getD k []) j.val) 4
  have h := Simd.Mul_entry A B hA i.val j.val i.2 j.2
  rw [← e] at h
  exact h

theorem Simd.Mul_eq_product_witness :
    ([[1, 2, 3, 4], [5, 6, 7, 8], [9, 10, 11, 12], [13, 14, 15, 16]] : List (List ℚ)).length = 4 ∧
      Simd.SimdMatrix4.Mul
        ([[1, 2, 3, 4], [5, 6, 7, 8], [9, 10, 11, 12], [13, 14, 15, 16]] : List (List ℚ))
        [[1, 0, 0, 0], [0, 2, 0, 0], [0, 0, 3, 0], [1, 1, 1, 1]]
        = [[5, 8, 13, 4], [13, 20, 29, 8], [21, 32, 45, 12], [29, 44, 61, 16]] ∧
      Simd.rowsToMatrix (Simd.SimdMatrix4.Mul
        ([[1, 2, 3, 4], [5, 6, 7, 8], [9, 10, 11, 12], [13, 14, 15, 16]] : List (List ℚ))
        [[1, 0, 0, 0], [0, 2, 0, 0], [0, 0, 3, 0], [1, 1, 1, 1]])
        = Simd.rowsToMatrix
            ([[1, 2, 3, 4], [5, 6, 7, 8], [9, 10, 11, 12], [13, 14, 15, 16]] : List (List ℚ))
          * Simd.rowsToMatrix [[1, 0, 0, 0], [0, 2, 0, 0], [0, 0, 3, 0], [1, 1, 1, 1]] :=
  ⟨by decide, by with_unfolding_all decide,
    (Simd.Mul_eq_product
      ([[1, 2, 3, 4], [5, 6, 7, 8], [9, 10, 11, 12], [13, 14, 15, 16]] : List (List ℚ))
      [[1, 0, 0, 0], [0, 2, 0, 0], [0, 0, 3, 0], [1, 1, 1, 1]] (by decide)).1⟩

/-- C34 (evaluation at the failing input). For the 2x2 matrix `m = (1, 2, 3, 4)` the in-place
`m *= m` leaves `(7, 10, 33, 46)`: row 1 is computed from row 0 as already overwritten.  The
product `m * m`, which `operator*` returns from a copy of the left operand, is
`(7, 10, 15, 22)`. -/
theorem Matrix.mulAssignSelf_eval :
    Matrix.mulAssignSelf 2 ([1, 2, 3, 4] : List ℚ) = [7, 10, 33, 46] ∧
      SquareMatrix.mul 2 ([1, 2, 3, 4] : List ℚ) [1, 2, 3, 4] = [7, 10, 15, 22] ∧
      Matrix.mulAssignSelf 2 ([1, 2, 3, 4] : List ℚ)
        ≠ SquareMatrix.mul 2 ([1, 2, 3, 4] : List ℚ) [1, 2, 3, 4] := by
  refine ⟨?_, ?_, ?_⟩ <;> with_unfolding_all decide

/-- For every `r x c` matrix `A` and every `c x c` matrix `B` stored apart from `A`, the
in-place `A *= B` leaves in `A` the standard product `A_old * B` (entry `(i, j)` is the sum
over `k` of `A_old(i,k) * B(k,j)`), and the `SquareMatrix` `operator*` built on it returns
the matrix product `lhs * rhs`. -/
theorem mulAssign_eq_product (r c : Nat) (A B : List K) (hA : A.length = r * c)
    (n : Nat) (lhs rhs : List K) (hl : lhs.length = n * n) :
    (interior.SizedMatrixOperator.mulAssign r c A c B).length = r * c ∧
      (∀ i j, i < r → j < c →
        rd (interior.SizedMatrixOperator.mulAssign r c A c B) (i * c + j)
          = ∑ k in Finset.range c, rd A (i * c + k) * rd B (k * c + j)) ∧
      (SquareMatrix.mul n lhs rhs).length = n * n ∧
      toMatrix n (SquareMatrix.mul n lhs rhs) = toMatrix n lhs * toMatrix n rhs := by
  obtain ⟨h1, h2⟩ := interior.SizedMatrixOperator.mulAssign_spec r c A B hA
  refine ⟨h1.trans hA, h2, SquareMatrix.length_mul n lhs rhs hl, ?_⟩
  ext i j
  rw [Matrix.mul_apply, toMatrix_apply, SquareMatrix.rd_mul n lhs rhs hl i.val j.val i.2 j.2]
  have e := Fin.sum_univ_eq_sum_range
    (fun k => rd lhs (i.val * n + k) * rd rhs (k * n + j.val)) n
  exact e.symm

theorem mulAssign_eq_product_witness :
    ([1, 2, 3, 4, 5, 6] : List ℚ).length = 2 * 3 ∧ ([1, 2, 3, 4] : List ℚ).length = 2 * 2 ∧
      interior.SizedMatrixOperator.mulAssign 2 3 ([1, 2, 3, 4, 5, 6] : List ℚ) 3
        [1, 0, 0, 0, 2, 0, 1, 1, 1] = [4, 7, 3, 10, 16, 6] ∧
      SquareMatrix.mul 2 ([1, 2, 3, 4] : List ℚ) [0, 1, 1, 0] = [2, 1, 4, 3] ∧
      toMatrix 2 (SquareMatrix.mul 2 ([1, 2, 3, 4] : List ℚ) [0, 1, 1, 0])
        = toMatrix 2 ([1, 2, 3, 4] : List ℚ) * toMatrix 2 [0, 1, 1, 0] :=
  ⟨by decide, by decide, by with_unfolding_all decide, by with_unfolding_all decide,
    (mulAssign_eq_product 2 3 ([1, 2, 3, 4, 5, 6] : List ℚ) [1, 0, 0, 0, 2, 0, 1, 1, 1]
      (by decide) 2 ([1, 2, 3, 4] : List ℚ) [0, 1, 1, 0] (by decide)).2.2.2⟩

/-- C35. For all angles `yaw`, `pitch`, `roll` and arbitrary values of `cos` and `sin`, the
Euler builder `Rotation(yaw, pitch, roll)` is the matrix product
`RotationX(roll) * RotationY(pitch) * RotationZ(yaw)` of the single-axis builders, for the
3x3 and for the 4x4 specialization, whatever the receivers held before. -/
theorem Rotation_euler_eq_product (cos sin : K → K) (yaw pitch roll : K)
    (e3 x3 y3 z3 e4 x4 y4 z4 : List K)
    (he3 : e3.length = 9) (hx3 : x3.length = 9) (hy3 : y3.length = 9) (hz3 : z3.length = 9)
    (he4 : e4.length = 16) (hx4 : x4.length = 16) (hy4 : y4.length = 16)
    (hz4 : z4.length = 16) :
    SquareMatrix3.RotationEuler cos sin e3 yaw pitch roll
        = SquareMatrix.mul 3 (SquareMatrix.mul 3 (SquareMatrix3.RotationX cos sin x3 roll)
            (SquareMatrix3.RotationY cos sin y3 pitch)) (SquareMatrix3.RotationZ cos sin z3 yaw) ∧
      SquareMatrix4.RotationEuler cos sin e4 yaw pitch roll
        = SquareMatrix.mul 4 (SquareMatrix.mul 4 (SquareMatrix4.RotationX cos sin x4 roll)
            (SquareMatrix4.RotationY cos sin y4 pitch)) (SquareMatrix4.RotationZ cos sin z4 yaw) := by
  constructor
  · rw [SquareMatrix3.RotationX3_eq cos sin x3 hx3, SquareMatrix3.RotationY3_eq cos sin y3 hy3,
      SquareMatrix3.RotationZ3_eq cos sin z3 hz3, SquareMatrix.mul_three, SquareMatrix.mul_three]
    have h : SquareMatrix3.RotationEuler cos sin e3 yaw pitch roll
        = [cos pitch * cos yaw, -cos pitch * sin yaw, sin pitch,
           sin roll * sin pitch * cos yaw + cos roll * sin yaw,
           -sin roll * sin pitch * sin yaw + cos roll * cos yaw, -sin roll * cos pitch,
           -cos roll * sin pitch * cos yaw + sin roll * sin yaw,
           cos roll * sin pitch * sin yaw + sin roll * cos yaw, cos roll * cos pitch] :=
      write_nine e3 he3 _ _ _ _ _ _ _ _ _
    rw [h]
    simp only [List.cons.injEq, and_true]
    refine ⟨?_, ?_, ?_, ?_, ?_, ?_, ?_, ?_, ?_⟩ <;> ring
  · rw [SquareMatrix4.RotationX4_eq cos sin x4 hx4, SquareMatrix4.RotationY4_eq cos sin y4 hy4,
      SquareMatrix4.RotationZ4_eq cos sin z4 hz4, SquareMatrix.mul_four, SquareMatrix.mul_four]
    have h : SquareMatrix4.RotationEuler cos sin e4 yaw pitch roll
        = [cos pitch * cos yaw, -cos pitch * sin yaw, sin pitch, 0,
           sin roll * sin pitch * cos yaw + cos roll * sin yaw,
           -sin roll * sin pitch * sin yaw + cos roll * cos yaw, -sin roll * cos pitch, 0,
           -cos roll * sin pitch * cos yaw + sin roll * sin yaw,
           cos roll * sin pitch * sin yaw + sin roll * cos yaw, cos roll * cos pitch, 0,
           0, 0, 0, 1] :=
      write_sixteen e4 he4 _ _ _ _ _ _ _ _ _ _ _ _ _ _ _ _
    rw [h]
    simp only [List.cons.injEq, and_true]
    refine ⟨?_, ?_, ?_, ?_, ?_, ?_, ?_, ?_, ?_, ?_, ?_, ?_, ?_, ?_, ?_, ?_⟩ <;> ring

theorem Rotation_euler_eq_product_witness :
    (List.replicate 9 0 : List ℚ).length = 9 ∧ (List.replicate 16 0 : List ℚ).length = 16 ∧
      SquareMatrix3.RotationEuler (fun a : ℚ => a) (fun a : ℚ => a + 1) (List.replicate 9 0)
        1 2 3 = [2, -4, 3, 18, -21, -8, -1, 22, 6] ∧
      SquareMatrix3.RotationEuler (fun a : ℚ => a) (fun a : ℚ => a + 1) (List.replicate 9 0)
          1 2 3
        = SquareMatrix.mul 3
            (SquareMatrix.mul 3
              (SquareMatrix3.RotationX (fun a : ℚ => a) (fun a : ℚ => a + 1)
                (List.replicate 9 0) 3)
              (SquareMatrix3.RotationY (fun a : ℚ => a) (fun a : ℚ => a + 1)
                (List.replicate 9 0) 2))
            (SquareMatrix3.RotationZ (fun a : ℚ => a) (fun a : ℚ => a + 1)
              (List.replicate 9 0) 1) ∧
      SquareMatrix4.RotationEuler (fun a : ℚ => a) (fun a : ℚ => a + 1) (List.replicate 16 0)
          1 2 3
        = SquareMatrix.mul 4
            (SquareMatrix.mul 4
              (SquareMatrix4.RotationX (fun a : ℚ => a) (fun a : ℚ => a + 1)
                (List.replicate 16 0) 3)
              (SquareMatrix4.RotationY (fun a : ℚ => a) (fun a : ℚ => a + 1)
                (List.replicate 16 0) 2))
            (SquareMatrix4.RotationZ (fun a : ℚ => a) (fun a : ℚ => a + 1)
              (List.replicate 16 0) 1) :=
  ⟨by decide, by decide, by with_unfolding_all decide,
    (Rotation_euler_eq_product (fun a : ℚ => a) (fun a : ℚ => a + 1) 1 2 3
      (List.replicate 9 0) (List.replicate 9 0) (List.replicate 9 0) (List.replicate 9 0)
      (List.replicate 16 0) (List.replicate 16 0) (List.replicate 16 0) (List.replicate 16 0)
      (by decide) (by decide) (by decide) (by decide)
      (by decide) (by decide) (by decide) (by decide)).1,
    (Rotation_euler_eq_product (fun a : ℚ => a) (fun a : ℚ => a + 1) 1 2 3
      (List.replicate 9 0) (List.replicate 9 0) (List.replicate 9 0) (List.replicate 9 0)
      (List.replicate 16 0) (List.replicate 16 0) (List.replicate 16 0) (List.replicate 16 0)
      (by decide) (by decide) (by decide) (by decide)
      (by decide) (by decide) (by decide) (by decide)).2⟩

/-- C36. For every quaternion `q` with nonzero squared length, unit or not, the 3x3 matrix
`R = Rotation(q)` is a proper rotation: `R * Transpose(R)` is the identity and
`Determinant(R) = 1`; and `Rotation` of the identity quaternion is the identity matrix. -/
theorem SquareMatrix3.RotationQuaternion_proper (d : List K) (hd : d.length = 9)
    (q : Quaternion K) (hq : Quaternion.LengthSq q ≠ 0) :
    SquareMatrix.mul 3 (SquareMatrix3.RotationQuaternion d q)
        (Transpose 3 3 (SquareMatrix3.RotationQuaternion d q)) = SquareMatrix3.identity ∧
      SquareMatrix3.Determinant (SquareMatrix3.RotationQuaternion d q) = 1 ∧
      SquareMatrix3.RotationQuaternion d Quaternion.identity = SquareMatrix3.identity := by
  refine ⟨SquareMatrix3.RotationQuaternion_orthogonal d hd q hq,
    SquareMatrix3.RotationQuaternion_det d hd q hq, ?_⟩
  rw [SquareMatrix3.RotationQuaternion_eq d hd]
  simp [Quaternion.identity, SquareMatrix3.identity]

theorem SquareMatrix3.RotationQuaternion_proper_witness :
    (List.replicate 9 0 : List ℚ).length = 9 ∧
      Quaternion.LengthSq (⟨1, 2, 3, 4⟩ : Quaternion ℚ) ≠ 0 ∧
      SquareMatrix3.RotationQuaternion (List.replicate 9 0) (⟨1, 2, 3, 4⟩ : Quaternion ℚ)
        = [2 / 15, -2 / 3, 11 / 15, 14 / 15, 1 / 3, 2 / 15, -1 / 3, 2 / 3, 2 / 3] ∧
      SquareMatrix.mul 3
          (SquareMatrix3.RotationQuaternion (List.replicate 9 0) (⟨1, 2, 3, 4⟩ : Quaternion ℚ))
          (Transpose 3 3
            (SquareMatrix3.RotationQuaternion (List.replicate 9 0)
              (⟨1, 2, 3, 4⟩ : Quaternion ℚ)))
        = SquareMatrix3.identity ∧
      SquareMatrix3.Determinant
          (SquareMatrix3.RotationQuaternion (List.replicate 9 0) (⟨1, 2, 3, 4⟩ : Quaternion ℚ))
        = 1 :=
  ⟨by decide, by with_unfolding_all decide, by with_unfolding_all decide,
    (SquareMatrix3.RotationQuaternion_proper (List.replicate 9 0)
      (by decide) (⟨1, 2, 3, 4⟩ : Quaternion ℚ) (by with_unfolding_all decide)).1,
    (SquareMatrix3.RotationQuaternion_proper (List.replicate 9 0)
      (by decide) (⟨1, 2, 3, 4⟩ : Quaternion ℚ) (by with_unfolding_all decide)).2.1⟩

/-- C37. The quaternion product is norm-multiplicative: `LengthSq(a * b)` is
`LengthSq(a) * LengthSq(b)` for all quaternions, so the product of two quaternions of squared
length 1 has squared length 1. -/
theorem Quaternion.LengthSq_mul (a b : Quaternion K) :
    Quaternion.LengthSq (Quaternion.mul a b) = Quaternion.LengthSq a * Quaternion.LengthSq b ∧
      (Quaternion.LengthSq a = 1 → Quaternion.LengthSq b = 1 →
        Quaternion.LengthSq (Quaternion.mul a b) = 1) := by
  have h : Quaternion.LengthSq (Quaternion.mul a b)
      = Quaternion.LengthSq a * Quaternion.LengthSq b := by
    simp only [Quaternion.LengthSq, Quaternion.mul]
    ring
  refine ⟨h, ?_⟩
  intro ha hb
  rw [h, ha, hb, mul_one]

theorem Quaternion.LengthSq_mul_witness :
    Quaternion.LengthSq (⟨3 / 5, 0, 4 / 5, 0⟩ : Quaternion ℚ) = 1 ∧
      Quaternion.LengthSq (⟨0, 5 / 13, 0, 12 / 13⟩ : Quaternion ℚ) = 1 ∧
      Quaternion.LengthSq (Quaternion.mul (⟨3 / 5, 0, 4 / 5, 0⟩ : Quaternion ℚ)
        ⟨0, 5 / 13, 0, 12 / 13⟩) = 1 :=
  ⟨by with_unfolding_all decide, by with_unfolding_all decide,
    (Quaternion.LengthSq_mul (⟨3 / 5, 0, 4 / 5, 0⟩ : Quaternion ℚ) ⟨0, 5 / 13, 0, 12 / 13⟩).2
      (by with_unfolding_all decide) (by with_unfolding_all decide)⟩

/-- C38. Over the reals, for all unit quaternions `start` and `end` outside the
near-collinear fallback (`|Dot(start, end)| <= 0.9995`), every threshold of `IsZero` and
every `t`, `SlerpOrthonormalBasis(start, end, t)` has length 1, and at `t = 1` it is `end`. -/
theorem Quaternion.SlerpOrthonormalBasis_unit (epsilon : ℝ) (start endQ : Quaternion ℝ)
    (t : ℝ) (hs : Quaternion.Length Real.sqrt start = 1)
    (he : Quaternion.Length Real.sqrt endQ = 1)
    (hdot : |Quaternion.Dot start endQ| ≤ 9995 / 10000) :
    Quaternion.Length Real.sqrt
        (Quaternion.SlerpOrthonormalBasis epsilon Real.sqrt Real.arccos Real.cos Real.sin
          start endQ t) = 1 ∧
      Quaternion.SlerpOrthonormalBasis epsilon Real.sqrt Real.arccos Real.cos Real.sin
        start endQ 1 = endQ := by
  have hs2 := Quaternion.LengthSq_eq_one_of_Length start hs
  have he2 := Quaternion.LengthSq_eq_one_of_Length endQ he
  constructor
  · obtain ⟨m, d, hm, hd, hd1, heq⟩ :=
      Quaternion.SlerpOrthonormalBasis_cases epsilon start endQ t hdot
    rw [heq]
    apply Quaternion.Length_eq_one_of_LengthSq
    have hdd : d * d < 1 := by
      have h1 := abs_nonneg d
      have : |d| * |d| < 1 := by nlinarith
      rwa [abs_mul_abs_self] at this
    apply Quaternion.slerp_basis_unit m endQ d _ _ (hm.trans hs2) he2 hd hdd
    have := Real.cos_sq_add_sin_sq (t * Real.arccos d)
    nlinarith
  · obtain ⟨m, d, hm, hd, hd1, heq⟩ :=
      Quaternion.SlerpOrthonormalBasis_cases epsilon start endQ 1 hdot
    rw [heq]
    have hdd : d * d < 1 := by
      have h1 := abs_nonneg d
      have : |d| * |d| < 1 := by nlinarith
      rwa [abs_mul_abs_self] at this
    have hb := abs_le.mp hd1
    rw [one_mul, Real.cos_arccos (by linarith) (by linarith), Real.sin_arccos]
    exact Quaternion.slerp_basis_end m endQ d (hm.trans hs2) he2 hd hdd

theorem Quaternion.SlerpOrthonormalBasis_unit_witness :
    Quaternion.Length Real.sqrt (⟨1, 0, 0, 0⟩ : Quaternion ℝ) = 1 ∧
      Quaternion.Length Real.sqrt (⟨0, 1, 0, 0⟩ : Quaternion ℝ) = 1 ∧
      |Quaternion.Dot (⟨1, 0, 0, 0⟩ : Quaternion ℝ) ⟨0, 1, 0, 0⟩| ≤ 9995 / 10000 ∧
      Quaternion.Length Real.sqrt
        (Quaternion.SlerpOrthonormalBasis (1 / 1000000) Real.sqrt Real.arccos Real.cos Real.sin
          (⟨1, 0, 0, 0⟩ : Quaternion ℝ) ⟨0, 1, 0, 0⟩ (1 / 2)) = 1 ∧
      Quaternion.SlerpOrthonormalBasis (1 / 1000000) Real.sqrt Real.arccos Real.cos Real.sin
        (⟨1, 0, 0, 0⟩ : Quaternion ℝ) ⟨0, 1, 0, 0⟩ 1 = ⟨0, 1, 0, 0⟩ :=
  have h1 : Quaternion.Length Real.sqrt (⟨1, 0, 0, 0⟩ : Quaternion ℝ) = 1 := by
    simp [Quaternion.Length]
  have h2 : Quaternion.Length Real.sqrt (⟨0, 1, 0, 0⟩ : Quaternion ℝ) = 1 := by
    simp [Quaternion.Length]
  have h3 : |Quaternion.Dot (⟨1, 0, 0, 0⟩ : Quaternion ℝ) ⟨0, 1, 0, 0⟩| ≤ 9995 / 10000 := by
    norm_num [Quaternion.Dot]
  ⟨h1, h2, h3,
    (Quaternion.SlerpOrthonormalBasis_unit (1 / 1000000) ⟨1, 0, 0, 0⟩ ⟨0, 1, 0, 0⟩ (1 / 2)
      h1 h2 h3).1,
    (Quaternion.SlerpOrthonormalBasis_unit (1 / 1000000) ⟨1, 0, 0, 0⟩ ⟨0, 1, 0, 0⟩ 1
      h1 h2 h3).2⟩

/-- C39. For all 3-vectors `a` and `b`, `Cross(a, b)` is orthogonal to both operands
(`Dot(Cross(a, b), a) = 0` and `Dot(Cross(a, b), b) = 0`) and anticommutative
(`Cross(a, b) = -Cross(b, a)`). -/
theorem Cross_orthogonal_anticomm (a b : List K) :
    Vector.Dot 3 (Cross a b) a = 0 ∧ Vector.Dot 3 (Cross a b) b = 0 ∧
      Cross a b = Vector.neg 3 (Cross b a) := by
  refine ⟨?_, ?_, ?_⟩
  · simp only [Vector.Dot, interior.SizedVectorBase.Dot_eq_sum, Finset.sum_range_succ,
      Finset.sum_range_zero, Cross, Vector3.Cross, rd_cons_zero, rd_cons_succ]
    ring
  · simp only [Vector.Dot, interior.SizedVectorBase.Dot_eq_sum, Finset.sum_range_succ,
      Finset.sum_range_zero, Cross, Vector3.Cross, rd_cons_zero, rd_cons_succ]
    ring
  · simp only [Cross, Vector3.Cross]
    rw [Vector.neg_three]
    simp only [rd_cons_zero, rd_cons_succ, List.cons.injEq, and_true]
    refine ⟨?_, ?_, ?_⟩ <;> ring

/-- C40. For every angle, arbitrary values of `cos` and `sin` and a square root with
`sqrt 1 = 1`, the axis-angle builder of the 3x3 specialization agrees entry for entry with
the single-axis builders: `Rotation((1,0,0), angle) = RotationX(angle)`,
`Rotation((0,1,0), angle) = RotationY(angle)` and `Rotation((0,0,1), angle) = RotationZ(angle)`. -/
theorem SquareMatrix3.Rotation_unit_axes (sqrt cos sin : K → K) (hsqrt : sqrt 1 = 1)
    (data : List K) (angle : K) :
    SquareMatrix3.Rotation sqrt cos sin data Vector3.unitX angle
        = SquareMatrix3.RotationX cos sin data angle ∧
      SquareMatrix3.Rotation sqrt cos sin data Vector3.unitY angle
        = SquareMatrix3.RotationY cos sin data angle ∧
      SquareMatrix3.Rotation sqrt cos sin data Vector3.unitZ angle
        = SquareMatrix3.RotationZ cos sin data angle := by
  have hx := interior.SizedVectorBase.Normalize_unit_three sqrt hsqrt 1 0 0 (by norm_num)
  have hy := interior.SizedVectorBase.Normalize_unit_three sqrt hsqrt 0 1 0 (by norm_num)
  have hz := interior.SizedVectorBase.Normalize_unit_three sqrt hsqrt 0 0 1 (by norm_num)
  refine ⟨?_, ?_, ?_⟩
  · simp only [SquareMatrix3.Rotation, SquareMatrix3.RotationX, Vector3.unitX, hx,
      rd_cons_zero, rd_cons_succ]
    norm_num
  · simp only [SquareMatrix3.Rotation, SquareMatrix3.RotationY, Vector3.unitY, hy,
      rd_cons_zero, rd_cons_succ]
    norm_num
  · simp only [SquareMatrix3.Rotation, SquareMatrix3.RotationZ, Vector3.unitZ, hz,
      rd_cons_zero, rd_cons_succ]
    norm_num

theorem SquareMatrix3.Rotation_unit_axes_witness :
    Real.sqrt 1 = 1 ∧
      SquareMatrix3.Rotation Real.sqrt Real.cos Real.sin (List.replicate 9 0) Vector3.unitX 0
        = [1, 0, 0, 0, 1, 0, 0, 0, 1] ∧
      SquareMatrix3.Rotation Real.sqrt Real.cos Real.sin (List.replicate 9 0) Vector3.unitX 0
        = SquareMatrix3.RotationX Real.cos Real.sin (List.replicate 9 0) 0 :=
  ⟨Real.sqrt_one,
    by
      rw [(SquareMatrix3.Rotation_unit_axes Real.sqrt Real.cos Real.sin Real.sqrt_one
        (List.replicate 9 0) 0).1]
      simp [SquareMatrix3.RotationX, wr, List.replicate],
    (SquareMatrix3.Rotation_unit_axes Real.sqrt Real.cos Real.sin Real.sqrt_one
      (List.replicate 9 0) 0).1⟩

end LinAlg
